import Mathlib

/-! # NachOS file system: file headers, open files and the file-system facade

A shallow embedding of `filesys/file_header.cc`, `filesys/open_file.cc`,
`filesys/file_list.cc`, `filesys/directory_list.cc` and
`filesys/file_system.cc`, with theorems about the embedded functions.

Conventions.
* `unsigned` values are natural numbers; every C++ operation that can wrap is
  followed by `u32`.  A C++ `int` is an `Int`; `toInt` is the conversion
  `unsigned → int`, `ofInt` the conversion `int → unsigned`.
* A function that can fail an `ASSERT` (or block for ever) returns an `Option`;
  `none` is "the call does not return".
* Memory buffers (`char *`) and the slot array of a header are functions from
  the index to the value stored there.
-/

namespace Nachos

/-! ## Machine integers -/

/-- Wrap-around of a 32-bit `unsigned`. -/
def u32 (n : Nat) : Nat := n % 4294967296

/-- Conversion `unsigned → int` (two's complement). -/
def toInt (n : Nat) : Int :=
  if u32 n < 2147483648 then (u32 n : Int) else (u32 n : Int) - 4294967296

/-- Conversion `int → unsigned` (two's complement). -/
def ofInt (i : Int) : Nat := (i % 4294967296).toNat

/-- `DivRoundDown` of `lib/utility.hh`. -/
def DivRoundDown (n s : Nat) : Nat := n / s

/-- `DivRoundUp` of `lib/utility.hh`. -/
def DivRoundUp (n s : Nat) : Nat := n / s + (if n % s > 0 then 1 else 0)

/-! ## Disk geometry -/

/-- The constants of `machine/disk.hh` and `filesys/raw_file_header.hh`, which
the functions below take as a parameter.  `hDirect` and `hCap` say that
`NUM_DIRECT - 1` does not wrap and that `NUM_DIRECT * SECTOR_SIZE` fits an
`int`. -/
structure Geometry where
  SECTOR_SIZE : Nat
  NUM_DIRECT : Nat
  hSector : 0 < SECTOR_SIZE
  hDirect : 2 ≤ NUM_DIRECT
  hCap : NUM_DIRECT * SECTOR_SIZE < 2147483648

/-- Bytes addressed by one header: `(NUM_DIRECT - 1) * SECTOR_SIZE`. -/
def Geometry.cap (g : Geometry) : Nat := (g.NUM_DIRECT - 1) * g.SECTOR_SIZE

/-- The geometry of the stock machine: 128-byte sectors, and
`NUM_DIRECT = (SECTOR_SIZE - 2 * sizeof (int)) / sizeof (int) = 30`. -/
def stdGeometry : Geometry :=
  { SECTOR_SIZE := 128, NUM_DIRECT := 30,
    hSector := by decide, hDirect := by decide, hCap := by norm_num }

/-- The geometry quoted in the specification's scenario: 128-byte sectors and
`NUM_DIRECT = 32`. -/
def specGeometry : Geometry :=
  { SECTOR_SIZE := 128, NUM_DIRECT := 32,
    hSector := by decide, hDirect := by decide, hCap := by norm_num }

/-! ## Free-sector bitmap -/

/-- Modelled from the spec: `lib/bitmap` is not among the sources.  A bitmap
is its sequence of bits, `true` for a marked (allocated) sector; its length is
the number of bits given to the constructor. -/
structure Bitmap where
  bits : List Bool
deriving DecidableEq, Repr

namespace Bitmap

/-- Modelled from the spec: `new Bitmap(n)` – `n` bits, all clear. -/
def new (n : Nat) : Bitmap := ⟨List.replicate n false⟩

/-- Modelled from the spec: `test(s)`. -/
def Test (m : Bitmap) (i : Nat) : Bool := m.bits.getD i false

/-- Modelled from the spec: `mark(s)`. -/
def Mark (m : Bitmap) (i : Nat) : Bitmap := ⟨m.bits.set i true⟩

/-- Modelled from the spec: `clear(s)`. -/
def Clear (m : Bitmap) (i : Nat) : Bitmap := ⟨m.bits.set i false⟩

/-- Modelled from the spec: `countClear()`. -/
def CountClear (m : Bitmap) : Nat := m.bits.count false

/-- Index of the first clear bit of a bit sequence. -/
def firstClear : List Bool → Option Nat
  | [] => none
  | b :: bs => if b then (firstClear bs).map (· + 1) else some 0

/-- Modelled from the spec: `find() → sector | -1` – the first clear bit is
marked and returned; `-1` when every bit is marked. -/
def Find (m : Bitmap) : Int × Bitmap :=
  match firstClear m.bits with
  | some i => ((i : Int), m.Mark i)
  | none => (-1, m)

end Bitmap

/-! ## File headers (`filesys/file_header.cc`) -/

/-- The stored part of a header (`RawFileHeader`). -/
structure RawFileHeader where
  numBytes : Nat
  numSectors : Nat
  dataSectors : Nat → Nat

/-- `raw.dataSectors[i] = v`. -/
def RawFileHeader.setSlot (r : RawFileHeader) (i v : Nat) : RawFileHeader :=
  { r with dataSectors := fun j => if j = i then v else r.dataSectors j }

/-- An in-memory header: the raw header, its own sector, and the `next`
pointer (`last` is a header whose `next` is null). -/
inductive FileHeader where
  | last (raw : RawFileHeader) (sector : Nat)
  | link (raw : RawFileHeader) (sector : Nat) (next : FileHeader)

namespace FileHeader

/-- The field `raw`. -/
def raw : FileHeader → RawFileHeader
  | last r _ => r
  | link r _ _ => r

/-- The field `sector`. -/
def sector : FileHeader → Nat
  | last _ s => s
  | link _ s _ => s

/-- The field `next` (`none` for the null pointer). -/
def next : FileHeader → Option FileHeader
  | last _ _ => none
  | link _ _ n => some n

/-- Replace `raw`, keeping `sector` and `next`. -/
def withRaw : FileHeader → RawFileHeader → FileHeader
  | last _ s, r => last r s
  | link _ s n, r => link r s n

/-- Assignment `h->sector = s`. -/
def withSector : FileHeader → Nat → FileHeader
  | last r _, s => last r s
  | link r _ n, s => link r s n

/-- The headers of the chain, first to last. -/
def chain : FileHeader → List FileHeader
  | last r s => [last r s]
  | link r s n => link r s n :: chain n

/-- The last header of the chain (`for (; ptr->next != nullptr; ptr = ptr->next);`). -/
def tail : FileHeader → FileHeader
  | last r s => last r s
  | link _ _ n => tail n

end FileHeader

/-- Modelled from the spec: `file_header.hh` is not among the sources.  The
object returned by `new FileHeader` has a null `next`; its other fields are
not initialised and hold whatever `junk` holds. -/
def newFileHeader (junk : FileHeader) : FileHeader :=
  FileHeader.last junk.raw junk.sector

/-- The loop `for (i = lo; i < lo + n; i++) raw.dataSectors[i] = freeMap->Find();`. -/
def fillSlots : Nat → Nat → Bitmap → RawFileHeader → Bitmap × RawFileHeader
  | 0, _, m, r => (m, r)
  | n + 1, lo, m, r =>
    let f := m.Find
    fillSlots n (lo + 1) f.2 (r.setSlot lo (ofInt f.1))

namespace FileHeader

/-- `FileHeader::Allocate`, with the recursion depth bounded by `fuel`
(`none` when the fuel runs out).  The result is the returned flag, the free
map and the header `this` as the call leaves them. -/
def AllocateFuel (g : Geometry) (junk : FileHeader) :
    Nat → Bitmap → FileHeader → Nat → Option (Bool × Bitmap × FileHeader)
  | 0, _, _, _ => none
  | fuel + 1, freeMap, this, fileSize =>
    let sectoresTotales := DivRoundUp fileSize g.SECTOR_SIZE
    let numSectors :=
      if sectoresTotales > g.NUM_DIRECT - 1 then g.NUM_DIRECT - 1 else sectoresTotales
    let raw1 := { this.raw with numSectors := numSectors }
    if freeMap.CountClear < sectoresTotales then
      some (false, freeMap, this.withRaw raw1)
    else
      let raw2 := { raw1 with numBytes := fileSize }
      let resto : Int :=
        toInt (sectoresTotales + 4294967296 - g.NUM_DIRECT - 1)
      let raw3 := raw2.setSlot (g.NUM_DIRECT - 1) 0
      if resto > 0 then
        let raw4 := { raw3 with numBytes := u32 (numSectors * g.SECTOR_SIZE) }
        let fresh := newFileHeader junk
        let found := freeMap.Find
        if found.1 = -1 then
          some (false, found.2, link raw4 this.sector fresh)
        else
          let sectornext := ofInt found.1
          match AllocateFuel g junk fuel found.2 (fresh.withSector sectornext)
              (ofInt (resto * (g.SECTOR_SIZE : Int))) with
          | none => none
          | some (_, freeMap2, next2) =>
            let raw5 := raw4.setSlot (g.NUM_DIRECT - 1) sectornext
            let filled := fillSlots numSectors 0 freeMap2 raw5
            some (true, filled.1, link filled.2 this.sector next2)
      else
        let filled := fillSlots numSectors 0 freeMap raw3
        some (true, filled.1, this.withRaw filled.2)

/-- `FileHeader::Allocate`: the nested calls work on ever smaller sizes, so
one more unit of fuel than the file has sectors is enough. -/
def Allocate (g : Geometry) (junk : FileHeader) (freeMap : Bitmap) (this : FileHeader)
    (fileSize : Nat) : Option (Bool × Bitmap × FileHeader) :=
  AllocateFuel g junk (DivRoundUp fileSize g.SECTOR_SIZE + 1) freeMap this fileSize

/-- `FileHeader::FileLength`. -/
def FileLength : FileHeader → Nat
  | last r _ => r.numBytes
  | link r _ n => u32 (r.numBytes + FileLength n)

/-- `FileHeader::LinkCount`. -/
def LinkCount : FileHeader → Nat
  | last _ _ => 0
  | link _ _ n => LinkCount n + 1

/-- `FileHeader::ByteToSector`; `none` when `ASSERT(next != nullptr)` fails. -/
def ByteToSector (g : Geometry) : FileHeader → Nat → Option Nat
  | last r _, offset =>
    let lastByte := (g.NUM_DIRECT - 1) * g.SECTOR_SIZE - 1
    if offset > lastByte then none else some (r.dataSectors (offset / g.SECTOR_SIZE))
  | link r _ n, offset =>
    let lastByte := (g.NUM_DIRECT - 1) * g.SECTOR_SIZE - 1
    if offset > lastByte then ByteToSector g n (offset - lastByte)
    else some (r.dataSectors (offset / g.SECTOR_SIZE))

/-- `FileHeader::UpdateRaw` on the header `this` (its `next` is not
touched): the returned flag, the free map and the header afterwards. -/
def UpdateRaw (g : Geometry) (freeMap : Bitmap) (this : FileHeader) (size : Nat) :
    Bool × Bitmap × FileHeader :=
  let nuevoTamano :=
    if (g.NUM_DIRECT - 1) * g.SECTOR_SIZE < u32 (this.raw.numBytes + size)
    then (g.NUM_DIRECT - 1) * g.SECTOR_SIZE else u32 (this.raw.numBytes + size)
  let nuevonumSectors := DivRoundUp nuevoTamano g.SECTOR_SIZE
  if nuevonumSectors = 0 then (true, freeMap, this)
  else if freeMap.CountClear < u32 (nuevonumSectors + 4294967296 - this.raw.numSectors) then
    (false, freeMap, this)
  else
    let raw1 := { this.raw with numBytes := nuevoTamano }
    let filled := fillSlots (nuevonumSectors - this.raw.numSectors) this.raw.numSectors
      freeMap raw1
    (true, filled.1, this.withRaw { filled.2 with numSectors := nuevonumSectors })

/-- `FileHeader::AddIndir`. -/
def AddIndir (g : Geometry) (this : FileHeader) (sector_ : Nat) : FileHeader :=
  this.withRaw (this.raw.setSlot (g.NUM_DIRECT - 1) sector_)

end FileHeader

/-- The loop of `FileHeader::Deallocate` over the slots `i, i+1, …` (`n` of
them): `ASSERT(freeMap->Test(raw.dataSectors[i])); freeMap->Clear(…)`. -/
def clearSlots (r : RawFileHeader) : Nat → Nat → Bitmap → Option Bitmap
  | 0, _, m => some m
  | n + 1, i, m =>
    if m.Test (r.dataSectors i) then clearSlots r n (i + 1) (m.Clear (r.dataSectors i))
    else none

namespace FileHeader

/-- `FileHeader::Deallocate`; `none` when the `ASSERT` in the loop fails. -/
def Deallocate : FileHeader → Bitmap → Option Bitmap
  | last r _, m => clearSlots r r.numSectors 0 m
  | link r _ n, m =>
    match clearSlots r r.numSectors 0 m with
    | none => none
    | some m1 => Deallocate n (m1.Clear n.sector)

end FileHeader

/-! ## The disk (`filesys/synch_disk`, `machine/disk`) -/

/-- Modelled from the spec: the block device is not among the sources.  A
sector holds what was last written to it: the image of a raw header
(`WriteSector(s, (char *) &raw)`) or a buffer of data bytes. -/
inductive SectorData where
  | header (raw : RawFileHeader)
  | data (bytes : Nat → Nat)

/-- The 32-bit word stored little-endian at word index `w` of a byte buffer. -/
def wordAt (b : Nat → Nat) (w : Nat) : Nat :=
  b (4 * w) + 256 * b (4 * w + 1) + 65536 * b (4 * w + 2) + 16777216 * b (4 * w + 3)

/-- Word number `w` of a raw header image: `numBytes`, `numSectors`, then the slots. -/
def RawFileHeader.wordOf (r : RawFileHeader) (w : Nat) : Nat :=
  if w = 0 then r.numBytes else if w = 1 then r.numSectors else r.dataSectors (w - 2)

/-- `ReadSector(s, (char *) &raw)`: the sector read as a raw header. -/
def SectorData.asHeader : SectorData → RawFileHeader
  | .header r => r
  | .data b => ⟨wordAt b 0, wordAt b 1, fun j => wordAt b (j + 2)⟩

/-- `ReadSector(s, buf)`: the sector read as data bytes. -/
def SectorData.asData : SectorData → Nat → Nat
  | .data b => b
  | .header r => fun k => (r.wordOf (k / 4) / 256 ^ (k % 4)) % 256

/-- The disk: sector number to contents. -/
abbrev Disk := Nat → SectorData

/-- `synchDisk->WriteSector(s, data)`. -/
def Disk.write (d : Disk) (s : Nat) (v : SectorData) : Disk :=
  fun j => if j = s then v else d j

namespace FileHeader

/-- `FileHeader::FetchFrom` on a header obtained from `new FileHeader`, with
the recursion bounded by `fuel`; the header's own `sector` field is `own`
(the callers assign it). `none` when the fuel runs out. -/
def FetchFromFuel (g : Geometry) (d : Disk) : Nat → Nat → Nat → Option FileHeader
  | 0, _, _ => none
  | fuel + 1, sector_, own =>
    let raw := (d sector_).asHeader
    if raw.dataSectors (g.NUM_DIRECT - 1) ≠ 0 then
      match FetchFromFuel g d fuel (raw.dataSectors (g.NUM_DIRECT - 1))
          (raw.dataSectors (g.NUM_DIRECT - 1)) with
      | none => none
      | some n => some (link raw own n)
    else some (last raw own)

/-- `FileHeader::WriteBack`. -/
def WriteBack : FileHeader → Nat → Disk → Disk
  | last r _, sector_, d => d.write sector_ (.header r)
  | link r _ n, sector_, d => WriteBack n n.sector (d.write sector_ (.header r))

/-- Replace the last header of a chain (`ptr` after the loop that walks to the
end of the chain) by the chain `t`. -/
def setTail : FileHeader → FileHeader → FileHeader
  | last _ _, t => t
  | link r s n, t => link r s (setTail n t)

end FileHeader

/-! ## The open-file table (`filesys/file_list.cc`) -/

/-- A file name or path: a C string (no NUL inside). -/
abbrev Name := List Char

/-- `strncmp(a, b, n) == 0`. -/
def strncmpEq (a b : Name) (n : Nat) : Bool := a.take n == b.take n

/-- An entry of the open-file table (`FData`); `condLock` is the thread that
owns the entry's lock, if any. -/
structure FData where
  name : Name
  inst : Int
  writings : Int
  readings : Int
  waitingWriters : Int
  waitingReaders : Int
  deleted : Bool
  condLock : Option Int
deriving DecidableEq

/-- `FData::FData`. -/
def FData.new (name_ : Name) : FData :=
  { name := name_, inst := 1, writings := 0, readings := 0, waitingWriters := 0,
    waitingReaders := 0, deleted := false, condLock := none }

/-- Assignment to `fd->condLock`'s owner. -/
def FData.withCondLock (owner : Option Int) (e : FData) : FData := { e with condLock := owner }

/-- `fd->deleted = true`. -/
def FData.withDeleted (e : FData) : FData := { e with deleted := true }

/-- `fd->readings += d`. -/
def FData.addReadings (d : Int) (e : FData) : FData := { e with readings := e.readings + d }

/-- `fd->inst += d`. -/
def FData.addInst (d : Int) (e : FData) : FData := { e with inst := e.inst + d }

/-- The table, first entry to last. -/
abbrev FileList := List FData

namespace FileList

/-- `FileList::Find`; `maxLen` is `FILE_NAME_MAX_LEN`. -/
def Find (maxLen : Nat) (l : FileList) (name : Name) : Option FData :=
  List.find? (fun fd => strncmpEq name fd.name (maxLen + 1)) l

/-- Apply `f` to the entry `Find` returns. -/
def modify (maxLen : Nat) (name : Name) (f : FData → FData) : FileList → FileList
  | [] => []
  | fd :: rest =>
    if strncmpEq name fd.name (maxLen + 1) then f fd :: rest
    else fd :: modify maxLen name f rest

/-- `FileList::Add`. -/
def Add (maxLen : Nat) (l : FileList) (name : Name) : FileList :=
  if l.isEmpty then [FData.new name]
  else
    match Find maxLen l name with
    | some _ => modify maxLen name (FData.addInst 1) l
    | none => l ++ [FData.new name]

/-- The unlinking loop of `FileList::DeleteFData`: the table without the first
entry whose name matches. -/
def unlink (maxLen : Nat) (name : Name) : FileList → FileList
  | [] => []
  | fd :: rest =>
    if strncmpEq name fd.name (maxLen + 1) then rest
    else fd :: unlink maxLen name rest

end FileList

/-! ## Directories (`filesys/directory`) -/

/-- The record `DirectoryEntry`. -/
structure DirectoryEntry where
  inUse : Bool
  isDir : Bool
  name : Name
  sector : Nat
deriving DecidableEq, Repr

/-- Modelled from the spec: `directory.cc` is not among the sources.  A
directory is its table of `NUM_DIR_ENTRIES` entries. -/
structure Directory where
  table : List DirectoryEntry
deriving DecidableEq, Repr

namespace Directory

/-- Modelled from the spec: `new Directory(n)` – `n` entries, none in use. -/
def new (n : Nat) : Directory := ⟨List.replicate n ⟨false, false, [], 0⟩⟩

/-- Modelled from the spec: the first in-use entry whose name agrees with
`name` on the first `maxLen` characters. -/
def FindEntry (maxLen : Nat) (dir : Directory) (name : Name) : Option DirectoryEntry :=
  List.find? (fun e => e.inUse && strncmpEq e.name name maxLen) dir.table

/-- Modelled from the spec: `find(name) → sector | -1`. -/
def Find (maxLen : Nat) (dir : Directory) (name : Name) : Int :=
  match FindEntry maxLen dir name with
  | some e => (e.sector : Int)
  | none => -1

/-- Put an entry into the first slot that is not in use. -/
def insert (e : DirectoryEntry) : List DirectoryEntry → Option (List DirectoryEntry)
  | [] => none
  | x :: rest =>
    if x.inUse then (insert e rest).map (x :: ·) else some (e :: rest)

/-- Modelled from the spec: `add(name, sector, isDir) → ok`, which fails when
the name is already there or no entry is free. -/
def Add (maxLen : Nat) (dir : Directory) (name : Name) (sector : Nat) (isDir : Bool) :
    Bool × Directory :=
  if Find maxLen dir name ≠ -1 then (false, dir)
  else
    match insert ⟨true, isDir, name.take maxLen, sector⟩ dir.table with
    | some t => (true, ⟨t⟩)
    | none => (false, dir)

/-- Mark the first in-use entry with the name as not in use. -/
def erase (maxLen : Nat) (name : Name) : List DirectoryEntry → Option (List DirectoryEntry)
  | [] => none
  | x :: rest =>
    if x.inUse && strncmpEq x.name name maxLen then some ({ x with inUse := false } :: rest)
    else (erase maxLen name rest).map (x :: ·)

/-- Modelled from the spec: `remove(name) → ok`. -/
def Remove (maxLen : Nat) (dir : Directory) (name : Name) : Bool × Directory :=
  match erase maxLen name dir.table with
  | some t => (true, ⟨t⟩)
  | none => (false, dir)

/-- Modelled from the spec: `isEmpty()`. -/
def IsEmpty (dir : Directory) : Bool := dir.table.all (fun e => !e.inUse)

end Directory

/-! ## Open files (`filesys/open_file.cc`) and the kernel state -/

/-- An `OpenFile` object. -/
structure OpenFile where
  hdr : FileHeader
  seekPosition : Nat
  fileName : Name

/-- A node of the directory-use list (`DNode`); `dirlock` is the thread that
owns the node's lock, if any. -/
structure DNode where
  directoryFile : OpenFile
  threads : List Int
  dirlock : Option Int

/-- Assignment to the owner of `dirlock`. -/
def DNode.withLock (owner : Option Int) (n : DNode) : DNode := { n with dirlock := owner }

/-- The constants of `filesys/directory_entry.hh`, `filesys/file_system.cc`
and `machine/disk.hh` used by the façade. -/
structure Limits where
  FILE_NAME_MAX_LEN : Nat
  NUM_DIR_ENTRIES : Nat
  NUM_SECTORS : Nat
  FREE_MAP_FILE_SIZE : Nat
  DIRECTORY_FILE_SIZE : Nat

/-- The limits of the stock system: names of 9 characters, 10 directory
entries, 1024 sectors, a free-map file of `NUM_SECTORS / BITS_IN_BYTE` bytes
and a directory file of `sizeof (DirectoryEntry) * NUM_DIR_ENTRIES + 1` bytes. -/
def stdLimits : Limits := ⟨9, 10, 1024, 128, 161⟩

/-- The global state the file system works on: the disk, the contents of the
free-map file and of the directory files, the open-file table
(`listOpenFiles`), the directory-use list (`directoryList`), the handle
`fileSystem->freeMapFile`, the id of `currentThread`, and what uninitialised
memory holds (`junk` for `new FileHeader`, `heap` for `new char[n]`).

Modelled from the spec: `Bitmap::FetchFrom/WriteBack` and
`Directory::FetchFrom/WriteBack` are not among the sources; they transfer the
whole image through `ReadAt`/`WriteAt` of the handle.  The image of the free
map is `freeMap`; the image of the directory whose header is in sector `s` is
`dirFiles s`. -/
structure Kernel where
  disk : Disk
  freeMap : Bitmap
  dirFiles : Nat → Directory
  listOpenFiles : FileList
  directoryList : List DNode
  freeMapFile : OpenFile
  currentThread : Int
  junk : FileHeader
  heap : Nat → Nat

namespace Kernel

/-- The kernel with another disk. -/
def withDisk (d : Disk) (k : Kernel) : Kernel := { k with disk := d }

/-- The kernel with another image of the free-map file. -/
def withFreeMap (m : Bitmap) (k : Kernel) : Kernel := { k with freeMap := m }

/-- The kernel with another image of the directory file whose header is in `sector`. -/
def withDir (sector : Nat) (dir : Directory) (k : Kernel) : Kernel :=
  { k with dirFiles := fun s => if s = sector then dir else k.dirFiles s }

/-- The kernel with another open-file table. -/
def withTable (l : FileList) (k : Kernel) : Kernel := { k with listOpenFiles := l }

/-- The kernel with another directory-use list. -/
def withDirectoryList (l : List DNode) (k : Kernel) : Kernel := { k with directoryList := l }

/-- The kernel with `f` applied to the table entry `Find(name)` returns. -/
def modifyEntry (L : Limits) (name : Name) (f : FData → FData) (k : Kernel) : Kernel :=
  k.withTable (FileList.modify L.FILE_NAME_MAX_LEN name f k.listOpenFiles)

end Kernel

/-- The loop of `ReadAt` over the sectors `i, i+1, …` (`n` of them):
`ReadSector(hdr->ByteToSector(i * SECTOR_SIZE), &buf[(i - firstSector) * SECTOR_SIZE])`. -/
def readSectors (g : Geometry) (d : Disk) (hdr : FileHeader) (firstSector : Nat) :
    Nat → Nat → (Nat → Nat) → Option (Nat → Nat)
  | 0, _, buf => some buf
  | n + 1, i, buf =>
    match hdr.ByteToSector g (u32 (i * g.SECTOR_SIZE)) with
    | none => none
    | some s =>
      readSectors g d hdr firstSector n (i + 1)
        (fun j =>
          if (i - firstSector) * g.SECTOR_SIZE ≤ j ∧ j < (i - firstSector + 1) * g.SECTOR_SIZE
          then (d s).asData (j - (i - firstSector) * g.SECTOR_SIZE) else buf j)

/-- The loop of `WriteAt` over the sectors `i, i+1, …` (`n` of them):
`WriteSector(hdr->ByteToSector(i * SECTOR_SIZE), &buf[(i - firstSector) * SECTOR_SIZE])`. -/
def writeSectors (g : Geometry) (hdr : FileHeader) (firstSector : Nat) (buf : Nat → Nat) :
    Nat → Nat → Disk → Option Disk
  | 0, _, d => some d
  | n + 1, i, d =>
    match hdr.ByteToSector g (u32 (i * g.SECTOR_SIZE)) with
    | none => none
    | some s =>
      writeSectors g hdr firstSector buf n (i + 1)
        (d.write s (.data (fun j => buf ((i - firstSector) * g.SECTOR_SIZE + j))))

namespace OpenFile

/-- `OpenFile::Length`. -/
def Length (f : OpenFile) : Nat := f.hdr.FileLength

/-- `OpenFile::Seek`. -/
def Seek (f : OpenFile) (position : Nat) : OpenFile := { f with seekPosition := position }

/-- The part of `OpenFile::ReadAt` between the two synchronisation blocks:
the number of bytes read and the buffer `into` afterwards; `none` when an
`ASSERT` fails. -/
def readCore (g : Geometry) (d : Disk) (heap : Nat → Nat) (f : OpenFile) (into : Nat → Nat)
    (numBytes position : Nat) : Option (Nat × (Nat → Nat)) :=
  let fileLength := f.hdr.FileLength
  if position ≥ fileLength then some (0, into)
  else
    let numBytes := if u32 (position + numBytes) > fileLength then fileLength - position
      else numBytes
    let firstSector := DivRoundDown position g.SECTOR_SIZE
    let lastSector := DivRoundDown (u32 (position + numBytes - 1)) g.SECTOR_SIZE
    let numSectors := 1 + lastSector - firstSector
    match readSectors g d f.hdr firstSector numSectors firstSector heap with
    | none => none
    | some buf =>
      some (numBytes,
        fun j => if j < numBytes then buf (position - firstSector * g.SECTOR_SIZE + j) else into j)

/-- `OpenFile::ReadAt`: the returned count, the buffer `into` and the table
afterwards.  `none` when an `ASSERT` fails or the entry's lock is held by
another thread (the call blocks). -/
def ReadAt (g : Geometry) (L : Limits) (k : Kernel) (f : OpenFile) (into : Nat → Nat)
    (numBytes position : Nat) : Option (Int × (Nat → Nat) × Kernel) :=
  if numBytes = 0 then none
  else
    match FileList.Find L.FILE_NAME_MAX_LEN k.listOpenFiles f.fileName with
    | none => none
    | some fd =>
      if fd.condLock = some k.currentThread then
        -- `IsHeldByCurrentThread()`: no bookkeeping
        match readCore g k.disk k.heap f into numBytes position with
        | none => none
        | some r => some (toInt r.1, r.2, k)
      else if fd.condLock.isSome then none
      else
        let k1 := k.modifyEntry L f.fileName (FData.addReadings 1)
        match readCore g k1.disk k1.heap f into numBytes position with
        | none => none
        | some r => some (toInt r.1, r.2, k1.modifyEntry L f.fileName (FData.addReadings (-1)))

end OpenFile

/-- The synchronisation of a whole-image read through `file->ReadAt`
(`Bitmap::FetchFrom`, `Directory::FetchFrom`): the table entry of the handle
must exist and its lock must not be held by another thread. -/
def readSync (L : Limits) (k : Kernel) (file : OpenFile) : Bool :=
  match FileList.Find L.FILE_NAME_MAX_LEN k.listOpenFiles file.fileName with
  | none => false
  | some fd => fd.condLock = some k.currentThread || fd.condLock.isNone

/-- The synchronisation of a whole-image write through `file->WriteAt`
(`Bitmap::WriteBack`, `Directory::WriteBack`): the table entry of the handle
must exist, its lock must be free and no reader may be pending. -/
def writeSync (L : Limits) (k : Kernel) (file : OpenFile) : Bool :=
  match FileList.Find L.FILE_NAME_MAX_LEN k.listOpenFiles file.fileName with
  | none => false
  | some fd => fd.condLock.isNone && decide (fd.readings ≤ 0)

/-- Modelled from the spec: `Bitmap::FetchFrom(file)`. -/
def Bitmap.FetchFrom (L : Limits) (k : Kernel) (file : OpenFile) : Option Bitmap :=
  if readSync L k file then some k.freeMap else none

/-- Modelled from the spec: `Bitmap::WriteBack(file)`. -/
def Bitmap.WriteBack (L : Limits) (k : Kernel) (m : Bitmap) (file : OpenFile) : Option Kernel :=
  if writeSync L k file then some (k.withFreeMap m) else none

/-- Modelled from the spec: `Directory::FetchFrom(file)`, which reads the whole
table through `file->ReadAt`.  The synchronisation of that `ReadAt` is the
code's (`readSync`).  The bytes are not decoded: the table is the image last
stored for the file whose header is in the handle's sector, which is what the
bytes hold for a file written only by `Directory::WriteBack`.  A file written
through `WriteAt` and then read as a directory is outside this model. -/
def Directory.FetchFrom (L : Limits) (k : Kernel) (file : OpenFile) : Option Directory :=
  if readSync L k file then some (k.dirFiles file.hdr.sector) else none

/-- Modelled from the spec: `Directory::WriteBack(file)`, which writes the whole
table through `file->WriteAt`.  The synchronisation of that `WriteAt` is the
code's (`writeSync`); the table becomes the image stored for the file whose
header is in the handle's sector.  The data sectors of the file are not
written and the file is not extended: a directory file has
`DIRECTORY_FILE_SIZE` bytes from `CreateDir` on, which hold the table; a
shorter file written as a directory is outside this model. -/
def Directory.WriteBack (L : Limits) (k : Kernel) (dir : Directory) (file : OpenFile) :
    Option Kernel :=
  if writeSync L k file then some (k.withDir file.hdr.sector dir) else none

/-- `fd->condLock->Acquire()` / `Release()` on the entry of `name`: record the
owner of the entry's lock. -/
def setCondLock (L : Limits) (name : Name) (owner : Option Int) (k : Kernel) : Kernel :=
  k.modifyEntry L name (FData.withCondLock owner)

namespace OpenFile

/-- The header work of the extension block of `OpenFile::WriteAt`
(`if (position + numBytes > fileLength) { … }`) on the free map fetched from
disk: `UpdateRaw` on the last header of the chain and, when the request still
exceeds it, a new next header filled by `Allocate`.  The result is `none` when
`Allocate` does not return; otherwise the flag says whether the block reaches
its write-backs (`false`: `WriteAt` returns 0), followed by the free map, the
header `ptr` and the whole chain as the block leaves them. -/
def extendCore (g : Geometry) (junk : FileHeader) (freeMap : Bitmap) (hdr : FileHeader)
    (numBytes numSectors : Nat) : Option (Bool × Bitmap × FileHeader × FileHeader) :=
  let ptr := hdr.tail
  let freeSectors := u32 (g.NUM_DIRECT - 1 + 4294967296 - ptr.raw.numSectors)
  let upd := FileHeader.UpdateRaw g freeMap ptr numBytes
  if !upd.1 then some (false, upd.2.1, upd.2.2, hdr.setTail upd.2.2)
  else
    let ptr1 := upd.2.2
    if u32 ((g.NUM_DIRECT - 1) * g.SECTOR_SIZE + 4294967296 - ptr1.raw.numBytes) < numBytes then
      let found := upd.2.1.Find
      if found.1 = -1 then some (false, found.2, ptr1, hdr.setTail ptr1)
      else
        let sector := ofInt found.1
        let fresh := (newFileHeader junk).withSector sector
        match FileHeader.Allocate g junk found.2 fresh
            (u32 (u32 (numSectors + 4294967296 - freeSectors) * g.SECTOR_SIZE)) with
        | none => none
        | some (_, freeMap2, next) =>
          let ptr2 := FileHeader.link (ptr1.raw.setSlot (g.NUM_DIRECT - 1) sector)
            ptr1.sector next
          some (true, freeMap2, ptr2, hdr.setTail ptr2)
    else some (true, upd.2.1, ptr1, hdr.setTail ptr1)

/-- The extension block of `OpenFile::WriteAt`: the free map is fetched
through `fileSystem->freeMapFile`, the headers are updated (`extendCore`),
then `ptr->WriteBack(ptr->sector)` and `freeMap->WriteBack(…)`.  The result is
`none` when the call does not return; otherwise the flag says whether the
block ran to its end (`false`: the function returns 0), with the kernel and
the header chain as the block leaves them. -/
def extend (g : Geometry) (L : Limits) (k : Kernel) (hdr : FileHeader)
    (numBytes numSectors : Nat) : Option (Bool × Kernel × FileHeader) :=
  match Bitmap.FetchFrom L k k.freeMapFile with
  | none => none
  | some freeMap =>
    match extendCore g k.junk freeMap hdr numBytes numSectors with
    | none => none
    | some r =>
      if !r.1 then some (false, k, r.2.2.2)
      else
        let k1 := k.withDisk (r.2.2.1.WriteBack r.2.2.1.sector k.disk)
        match Bitmap.WriteBack L k1 r.2.1 k.freeMapFile with
        | none => none
        | some k2 => some (true, k2, r.2.2.2)

/-- The transfer part of `OpenFile::WriteAt` (from `buf = new char [...]` to
the loop that writes the sectors back), run while the caller holds the
entry's lock: the disk afterwards, `none` when an `ASSERT` fails. -/
def writeCore (g : Geometry) (k : Kernel) (f : OpenFile) (src : Nat → Nat)
    (numBytes position firstSector lastSector numSectors : Nat) : Option Disk :=
  let firstAligned := decide (position = u32 (firstSector * g.SECTOR_SIZE))
  let lastAligned := decide (u32 (position + numBytes) = u32 ((lastSector + 1) * g.SECTOR_SIZE))
  let buf0 := k.heap
  -- `ReadAt(buf, SECTOR_SIZE, firstSector * SECTOR_SIZE)`
  let r1 : Option (Nat → Nat) :=
    if !firstAligned then
      (readCore g k.disk k.heap f buf0 g.SECTOR_SIZE (u32 (firstSector * g.SECTOR_SIZE))).map
        (·.2)
    else some buf0
  match r1 with
  | none => none
  | some buf1 =>
    -- `ReadAt(&buf[(lastSector - firstSector) * SECTOR_SIZE], SECTOR_SIZE, lastSector * SECTOR_SIZE)`
    let off := (lastSector - firstSector) * g.SECTOR_SIZE
    let r2 : Option (Nat → Nat) :=
      if !lastAligned && (firstSector != lastSector || firstAligned) then
        (readCore g k.disk k.heap f (fun j => buf1 (off + j)) g.SECTOR_SIZE
            (u32 (lastSector * g.SECTOR_SIZE))).map
          (fun r => fun j => if off ≤ j then r.2 (j - off) else buf1 j)
      else some buf1
    match r2 with
    | none => none
    | some buf2 =>
      -- `memcpy(&buf[position - firstSector * SECTOR_SIZE], from, numBytes)`
      let at0 := position - firstSector * g.SECTOR_SIZE
      let buf3 : Nat → Nat :=
        fun j => if at0 ≤ j ∧ j < at0 + numBytes then src (j - at0) else buf2 j
      writeSectors g f.hdr firstSector buf3 numSectors firstSector k.disk

/-- `OpenFile::WriteAt`: the returned count, the kernel and the handle
afterwards.  `none` when an `ASSERT` fails or the call blocks (the entry's
lock is held, or a reader is pending). -/
def WriteAt (g : Geometry) (L : Limits) (k : Kernel) (f : OpenFile) (src : Nat → Nat)
    (numBytes position : Nat) : Option (Int × Kernel × OpenFile) :=
  if numBytes = 0 then none
  else
    match FileList.Find L.FILE_NAME_MAX_LEN k.listOpenFiles f.fileName with
    | none => none
    | some fd =>
      if fd.condLock.isSome then none
      else if fd.readings > 0 then none
      else
        let released := setCondLock L f.fileName none
        let k0 := setCondLock L f.fileName (some k.currentThread) k
        let fileLength := f.hdr.FileLength
        if position > fileLength then some (0, released k0, f)
        else
          let firstSector := DivRoundDown position g.SECTOR_SIZE
          let lastSector := DivRoundDown (u32 (position + numBytes - 1)) g.SECTOR_SIZE
          let numSectors := u32 (1 + lastSector + 4294967296 - firstSector)
          let ext : Option (Bool × Kernel × FileHeader) :=
            if u32 (position + numBytes) > fileLength then
              extend g L k0 f.hdr numBytes numSectors
            else some (true, k0, f.hdr)
          match ext with
          | none => none
          | some (false, k1, hdr1) => some (0, released k1, { f with hdr := hdr1 })
          | some (true, k1, hdr1) =>
            let f1 := { f with hdr := hdr1 }
            match writeCore g k1 f1 src numBytes position firstSector lastSector numSectors with
            | none => none
            | some d => some (toInt numBytes, released (k1.withDisk d), f1)

/-- `OpenFile::Read`. -/
def Read (g : Geometry) (L : Limits) (k : Kernel) (f : OpenFile) (into : Nat → Nat)
    (numBytes : Nat) : Option (Int × (Nat → Nat) × Kernel × OpenFile) :=
  match ReadAt g L k f into numBytes f.seekPosition with
  | none => none
  | some (result, into', k') =>
    some (result, into', k', { f with seekPosition := u32 (f.seekPosition + ofInt result) })

/-- `OpenFile::Write`. -/
def Write (g : Geometry) (L : Limits) (k : Kernel) (f : OpenFile) (src : Nat → Nat)
    (numBytes : Nat) : Option (Int × Kernel × OpenFile) :=
  match WriteAt g L k f src numBytes f.seekPosition with
  | none => none
  | some (result, k', f') =>
    some (result, k', { f' with seekPosition := u32 (f'.seekPosition + ofInt result) })

/-- `OpenFile::OpenFile(sector, name)`; `none` when the chain stored from
`sector` on does not end within `NUM_SECTORS` headers (the constructor does
not return). -/
def create (g : Geometry) (L : Limits) (k : Kernel) (sector : Nat) (name : Name) :
    Option OpenFile :=
  match FileHeader.FetchFromFuel g k.disk (L.NUM_SECTORS + 1) sector sector with
  | none => none
  | some hdr => some { hdr := hdr, seekPosition := 0, fileName := name }

end OpenFile

/-! ## The directory-use list (`filesys/directory_list.cc`) -/

namespace DirectoryList

/-- `DNode::Has`. -/
def Has (n : DNode) (id : Int) : Bool := decide (id ∈ n.threads)

/-- `DirectoryList::Get`. -/
def Get (l : List DNode) (id : Int) : Option OpenFile :=
  (List.find? (fun n => Has n id) l).map (·.directoryFile)

/-- `DirectoryList::GetLock`: the node whose lock is returned. -/
def GetLock (l : List DNode) (id : Int) : Option DNode :=
  List.find? (fun n => Has n id) l

/-- Apply `f` to the node `GetLock` returns. -/
def modifyNode (id : Int) (f : DNode → DNode) : List DNode → List DNode
  | [] => []
  | n :: rest => if Has n id then f n :: rest else n :: modifyNode id f rest

/-- `DirectoryList::Add`; `none` when `ASSERT(!ptr->Has(id))` fails or the
constructor of the new handle does not return. -/
def Add (g : Geometry) (L : Limits) (k : Kernel) (id : Int) (sector : Nat) (name : Name) :
    List DNode → Option (List DNode)
  | [] =>
    match OpenFile.create g L k sector name with
    | none => none
    | some dir => some [{ directoryFile := dir, threads := [id], dirlock := none }]
  | n :: rest =>
    if Has n id then none
    else if n.directoryFile.fileName = name then
      some ({ n with threads := n.threads ++ [id] } :: rest)
    else (Add g L k id sector name rest).map (n :: ·)

/-- `DirectoryList::CheckDirectoryUse` for the current thread. -/
def CheckDirectoryUse (g : Geometry) (L : Limits) (k : Kernel) : Option Kernel :=
  if k.directoryList.any (fun n => Has n k.currentThread) then some k
  else
    match Add g L k k.currentThread 1 ['/'] k.directoryList with
    | none => none
    | some l =>
      some ((k.withDirectoryList l).withTable
        (FileList.Add L.FILE_NAME_MAX_LEN k.listOpenFiles ['/']))

end DirectoryList

/-- The owner of the lock of the current thread's directory node becomes `owner`. -/
def withDirLock (owner : Option Int) (k : Kernel) : Kernel :=
  k.withDirectoryList
    (DirectoryList.modifyNode k.currentThread (DNode.withLock owner) k.directoryList)

/-- `directoryList->GetLock(currentThread->myId)->Acquire()`; `none` when
there is no such node or the lock is held (the call blocks). -/
def lockDir (k : Kernel) : Option Kernel :=
  match DirectoryList.GetLock k.directoryList k.currentThread with
  | none => none
  | some n =>
    if n.dirlock.isSome then none
    else some (withDirLock (some k.currentThread) k)

/-- `directoryList->GetLock(currentThread->myId)->Release()`; `none` when
`ASSERT(IsHeldByCurrentThread())` fails. -/
def unlockDir (k : Kernel) : Option Kernel :=
  match DirectoryList.GetLock k.directoryList k.currentThread with
  | none => none
  | some n =>
    if n.dirlock = some k.currentThread then some (withDirLock none k)
    else none

/-! ## The façade (`filesys/file_system.cc`) -/

/-- `fd->deleted = true` on the entry `listOpenFiles->Find(name)` returns. -/
def markDeleted (L : Limits) (name : Name) (k : Kernel) : Kernel :=
  k.modifyEntry L name FData.withDeleted

namespace FileSystem

/-- `FileSystem::FillPath`. -/
def FillPath (k : Kernel) (path : Name) : Option Name :=
  if path.head? = some '/' then some path
  else
    match DirectoryList.Get k.directoryList k.currentThread with
    | none => none
    | some cwd =>
      some (cwd.fileName ++ (if cwd.fileName ≠ ['/'] then ['/'] else []) ++ path)

/-- `FileSystem::Remove`: the returned flag and the kernel afterwards. -/
def Remove (g : Geometry) (L : Limits) (k : Kernel) (name : Name) : Option (Bool × Kernel) := do
  let k1 ← DirectoryList.CheckDirectoryUse g L k
  let k2 ← lockDir k1
  let cwd ← DirectoryList.Get k2.directoryList k2.currentThread
  let dir ← Directory.FetchFrom L k2 cwd
  let absolutepath ← FillPath k2 name
  let sector := Directory.Find L.FILE_NAME_MAX_LEN dir name
  if sector = -1 then
    let k3 ← unlockDir k2
    pure (false, k3)
  else
    match FileList.Find L.FILE_NAME_MAX_LEN k2.listOpenFiles absolutepath with
    | some _ =>
      let k4 ← unlockDir (markDeleted L absolutepath k2)
      pure (false, k4)
    | none =>
      let fileH ← FileHeader.FetchFromFuel g k2.disk (L.NUM_SECTORS + 1) (ofInt sector)
        k2.junk.sector
      let freeMap ← Bitmap.FetchFrom L k2 k2.freeMapFile
      let freeMap1 ← fileH.Deallocate freeMap
      let freeMap2 := freeMap1.Clear (ofInt sector)
      let dir1 := (Directory.Remove L.FILE_NAME_MAX_LEN dir name).2
      let k3 ← Bitmap.WriteBack L k2 freeMap2 k2.freeMapFile
      let k4 ← Directory.WriteBack L k3 dir1 cwd
      let k5 ← unlockDir k4
      pure (true, k5)

/-- `FileSystem::Open`: the returned handle (`none` for the null pointer) and
the kernel afterwards. -/
def Open (g : Geometry) (L : Limits) (k : Kernel) (name : Name) :
    Option (Option OpenFile × Kernel) := do
  let k1 ← DirectoryList.CheckDirectoryUse g L k
  let cwd ← DirectoryList.Get k1.directoryList k1.currentThread
  let dir ← Directory.FetchFrom L k1 cwd
  let sector := Directory.Find L.FILE_NAME_MAX_LEN dir name
  let absolutepath ← FillPath k1 name
  let live : Bool :=
    match FileList.Find L.FILE_NAME_MAX_LEN k1.listOpenFiles absolutepath with
    | none => true
    | some fd => !fd.deleted
  if sector ≥ 0 ∧ live then
    let openFile ← OpenFile.create g L k1 (ofInt sector) absolutepath
    pure (some openFile,
      k1.withTable (FileList.Add L.FILE_NAME_MAX_LEN k1.listOpenFiles absolutepath))
  else pure (none, k1)

/-- `FileSystem::Create`: the returned flag and the kernel afterwards. -/
def Create (g : Geometry) (L : Limits) (k : Kernel) (name : Name) (initialSize : Nat) :
    Option (Bool × Kernel) := do
  let k1 ← DirectoryList.CheckDirectoryUse g L k
  let k2 ← lockDir k1
  let cwd ← DirectoryList.Get k2.directoryList k2.currentThread
  let dir ← Directory.FetchFrom L k2 cwd
  if Directory.Find L.FILE_NAME_MAX_LEN dir name ≠ -1 then
    let k3 ← unlockDir k2
    pure (false, k3)
  else
    let freeMap ← Bitmap.FetchFrom L k2 k2.freeMapFile
    let found := freeMap.Find
    if found.1 = -1 then
      let k3 ← unlockDir k2
      pure (false, k3)
    else
      let added := Directory.Add L.FILE_NAME_MAX_LEN dir name (ofInt found.1) false
      if !added.1 then
        let k3 ← unlockDir k2
        pure (false, k3)
      else
        let r ← FileHeader.Allocate g k2.junk found.2 (newFileHeader k2.junk) initialSize
        if r.1 then
          let h := r.2.2.withSector (ofInt found.1)
          let k3 := k2.withDisk (h.WriteBack (ofInt found.1) k2.disk)
          let k4 ← Bitmap.WriteBack L k3 r.2.1 k3.freeMapFile
          let k5 ← Directory.WriteBack L k4 added.2 cwd
          let k6 ← unlockDir k5
          pure (true, k6)
        else
          -- `this->Remove(name)` is entered with the directory lock held
          let undone ← Remove g L k2 name
          let k4 ← unlockDir undone.2
          pure (false, k4)

end FileSystem

namespace FileList

/-- `FileList::DeleteFData`; `none` when no entry matches (`ptr->deleted` on a
null pointer) or the deferred `fileSystem->Remove(name)` does not return. -/
def DeleteFData (g : Geometry) (L : Limits) (k : Kernel) (name : Name) : Option Kernel :=
  match Find L.FILE_NAME_MAX_LEN k.listOpenFiles name with
  | none => none
  | some ptr =>
    let k1 := k.withTable (unlink L.FILE_NAME_MAX_LEN name k.listOpenFiles)
    if ptr.deleted then (FileSystem.Remove g L k1 name).map (·.2)
    else some k1

/-- `FileList::Remove`. -/
def Remove (g : Geometry) (L : Limits) (k : Kernel) (name : Name) : Option Kernel :=
  match Find L.FILE_NAME_MAX_LEN k.listOpenFiles name with
  | none => some k
  | some fd =>
    if fd.inst > 1 then
      some (k.modifyEntry L name (FData.addInst (-1)))
    else DeleteFData g L k name

end FileList

/-- `OpenFile::~OpenFile` (`delete openFile`): the kernel afterwards. -/
def OpenFile.destroy (g : Geometry) (L : Limits) (k : Kernel) (f : OpenFile) : Option Kernel :=
  FileList.Remove g L k f.fileName

namespace FileSystem

/-- `FileSystem::FileSystem(true)`: format the disk of a machine that has no
open files yet.  `none` when one of the two `ASSERT`s fails or a call does not
return. -/
def Format (g : Geometry) (L : Limits) (disk : Disk) (junk : FileHeader) (heap : Nat → Nat)
    (currentThread : Int) : Option Kernel := do
  let freeMap := ((Bitmap.new L.NUM_SECTORS).Mark 0).Mark 1
  let dir := Directory.new L.NUM_DIR_ENTRIES
  let a ← FileHeader.Allocate g junk freeMap (newFileHeader junk) L.FREE_MAP_FILE_SIZE
  if !a.1 then none
  else
    let b ← FileHeader.Allocate g junk a.2.1 (newFileHeader junk) L.DIRECTORY_FILE_SIZE
    if !b.1 then none
    else
      let d1 := b.2.2.WriteBack 1 (a.2.2.WriteBack 0 disk)
      let k0 : Kernel :=
        { disk := d1, freeMap := Bitmap.new L.NUM_SECTORS, dirFiles := fun _ => dir,
          listOpenFiles := [], directoryList := [],
          freeMapFile := ⟨newFileHeader junk, 0, []⟩,
          currentThread := currentThread, junk := junk, heap := heap }
      let freeMapFile ← OpenFile.create g L k0 0 "FREE_MAP_SECTOR".toList
      let k1 := { k0 with
        freeMapFile := freeMapFile
        listOpenFiles := FileList.Add L.FILE_NAME_MAX_LEN [] "FREE_MAP_SECTOR".toList }
      let l ← DirectoryList.Add g L k1 currentThread 1 ['/'] []
      let k2 := (k1.withDirectoryList l).withTable
        (FileList.Add L.FILE_NAME_MAX_LEN k1.listOpenFiles ['/'])
      let k3 ← Bitmap.WriteBack L k2 b.2.1 k2.freeMapFile
      let cwd ← DirectoryList.Get k3.directoryList currentThread
      Directory.WriteBack L k3 dir cwd

end FileSystem

/-! ## Predicates used in the statements -/

/-- The data slots in use of one header: `dataSectors[0 .. numSectors)`. -/
def dataSlots (r : RawFileHeader) : List Nat :=
  (List.range r.numSectors).map r.dataSectors

/-- Every sector recorded in a chain: for a header with a successor the
next-header slot `dataSectors[NUM_DIRECT - 1]`, then the sectors recorded in
the rest of the chain, then the header's own data slots in use. -/
def FileHeader.recorded (g : Geometry) : FileHeader → List Nat
  | .last r _ => dataSlots r
  | .link r _ n => r.dataSectors (g.NUM_DIRECT - 1) :: (recorded g n ++ dataSlots r)

/-- Slot `NUM_DIRECT - 1` mirrors the `next` pointer: it is `0` in the last
header and holds the successor's sector elsewhere. -/
def FileHeader.Linked (g : Geometry) : FileHeader → Prop
  | .last r _ => r.dataSectors (g.NUM_DIRECT - 1) = 0
  | .link r _ n => r.dataSectors (g.NUM_DIRECT - 1) = n.sector ∧ Linked g n

/-- Map `m'` is map `m` with the sectors `S` taken: they are pairwise
distinct, in range and clear in `m`, marked in `m'`, and no other bit differs. -/
def Bitmap.Took (m m' : Bitmap) (S : List Nat) : Prop :=
  m'.bits.length = m.bits.length ∧ S.Nodup ∧
  (∀ s ∈ S, s < m.bits.length ∧ m.Test s = false) ∧
  (∀ j, m'.Test j = (m.Test j || decide (j ∈ S))) ∧
  m'.CountClear + S.length = m.CountClear

/-- Well-formed chain: every header but the last holds
`(NUM_DIRECT - 1) * SECTOR_SIZE` bytes, the last one holds no more, every
header has `numSectors = DivRoundUp(numBytes, SECTOR_SIZE)`, and slot
`NUM_DIRECT - 1` is non-zero exactly in the headers that have a successor. -/
def FileHeader.WellFormed (g : Geometry) : FileHeader → Prop
  | .last r _ =>
    r.numBytes ≤ g.cap ∧ r.numSectors = DivRoundUp r.numBytes g.SECTOR_SIZE ∧
      r.dataSectors (g.NUM_DIRECT - 1) = 0
  | .link r _ n =>
    r.numBytes = g.cap ∧ r.numSectors = DivRoundUp r.numBytes g.SECTOR_SIZE ∧
      r.dataSectors (g.NUM_DIRECT - 1) ≠ 0 ∧ WellFormed g n

/-- Well-formedness of a chain can be computed. -/
instance FileHeader.decWellFormed (g : Geometry) : (h : FileHeader) → Decidable (h.WellFormed g)
  | .last r _ =>
    show Decidable (r.numBytes ≤ g.cap ∧ r.numSectors = DivRoundUp r.numBytes g.SECTOR_SIZE ∧
      r.dataSectors (g.NUM_DIRECT - 1) = 0) from inferInstance
  | .link r _ n =>
    have : Decidable (n.WellFormed g) := FileHeader.decWellFormed g n
    show Decidable (r.numBytes = g.cap ∧ r.numSectors = DivRoundUp r.numBytes g.SECTOR_SIZE ∧
      r.dataSectors (g.NUM_DIRECT - 1) ≠ 0 ∧ n.WellFormed g) from inferInstance

/-- The sector the specification assigns to a byte offset: the data slot with
index `(offset div SECTOR_SIZE) mod (NUM_DIRECT - 1)` of the header at position
`(offset div SECTOR_SIZE) div (NUM_DIRECT - 1)` of the chain. -/
def slotPerSpec (g : Geometry) (h : FileHeader) (offset : Nat) : Option Nat :=
  (h.chain.get? ((offset / g.SECTOR_SIZE) / (g.NUM_DIRECT - 1))).map
    (fun hd => hd.raw.dataSectors ((offset / g.SECTOR_SIZE) % (g.NUM_DIRECT - 1)))

/-- The number of sectors the specification says a file of `fileSize` bytes
needs: `ceil(fileSize / SECTOR_SIZE)` data sectors plus one sector for each
chained next header (a chain has `ceil(fileSize / ((NUM_DIRECT - 1) *
SECTOR_SIZE))` headers, one when the file is empty). -/
def sectorsNeededPerSpec (g : Geometry) (fileSize : Nat) : Nat :=
  DivRoundUp fileSize g.SECTOR_SIZE + (DivRoundUp fileSize g.cap - 1)

/-! ## Concrete inputs -/

/-- Uninitialised memory that happens to hold zeroes. -/
def zeroHeader : FileHeader := .last ⟨0, 0, fun _ => 0⟩ 0

/-- A free map of 64 sectors with sectors 0 and 1 marked. -/
def map64 : Bitmap := ((Bitmap.new 64).Mark 0).Mark 1

/-- A free map of 34 sectors with sectors 0 and 1 marked: 32 sectors are clear. -/
def map34 : Bitmap := ((Bitmap.new 34).Mark 0).Mark 1

/-- The result of `Allocate(map64, 5120)` on a fresh header with the stock geometry. -/
def allocExample : Bool × Bitmap × FileHeader :=
  (FileHeader.Allocate stdGeometry zeroHeader map64 zeroHeader 5120).getD
    (false, map64, zeroHeader)

/-- A well-formed chain of two headers with the stock geometry: the first is
full (3712 bytes in the sectors 100 … 128, next header in sector 50), the
second holds 128 bytes in sector 200. -/
def twoHeaderChain : FileHeader :=
  .link ⟨3712, 29, fun i => if i < 29 then 100 + i else 50⟩ 7
    (.last ⟨128, 1, fun i => if i = 0 then 200 else 0⟩ 50)

/-- A disk whose sectors all hold zero bytes. -/
def blankDisk : Disk := fun _ => .data (fun _ => 0)

/-- The stock machine right after `FileSystem(true)` run by thread 0. -/
def formatted : Option Kernel :=
  FileSystem.Format stdGeometry stdLimits blankDisk zeroHeader (fun _ => 0) 0

/-- `Create(name, 0)` followed by `Open(name)` on the freshly formatted disk:
the handle and the kernel. -/
def emptyFile (name : Name) : Option (OpenFile × Kernel) := do
  let k ← formatted
  let c ← FileSystem.Create stdGeometry stdLimits k name 0
  if !c.1 then none
  else
    let o ← FileSystem.Open stdGeometry stdLimits c.2 name
    match o.1 with
    | none => none
    | some h => pure (h, o.2)

/-- One `Write` of 7808 bytes to an empty file, then `ReadAt(buf, 7808, 0)`:
the count `Write` returns, `Length()` afterwards, the count `ReadAt` returns. -/
def run7808 : Option (Int × Nat × Int) := do
  let s ← emptyFile ['a']
  let w ← s.1.Write stdGeometry stdLimits s.2 (fun _ => 65) 7808
  let r ← w.2.2.ReadAt stdGeometry stdLimits w.2.1 (fun _ => 0) 7808 0
  pure (w.1, w.2.2.Length, r.1)

/-- One `Write` of 3713 bytes to an empty file: the count `Write` returns, and
`Length()` and the bytes held by each header afterwards. -/
def run3713 : Option (Int × Nat × List Nat) := do
  let s ← emptyFile ['a']
  let w ← s.1.Write stdGeometry stdLimits s.2 (fun _ => 65) 3713
  pure (w.1, w.2.2.Length, w.2.2.hdr.chain.map (fun hd => hd.raw.numBytes))

/-- `n` calls `Write(src, 13)` in a row. -/
def write13 (src : Nat → Nat) : Nat → Kernel → OpenFile → Option (Kernel × OpenFile)
  | 0, k, f => some (k, f)
  | n + 1, k, f =>
    match f.Write stdGeometry stdLimits k src 13 with
    | none => none
    | some w => if w.1 = 13 then write13 src n w.2.1 w.2.2 else none

/-- The run recorded in `userland/filetest2.c`: six writes of 13 bytes to an
empty file; `Length()` and `numSectors` afterwards. -/
def runSix13 : Option (Nat × Nat) := do
  let s ← emptyFile "archivo".toList
  let w ← write13 (fun _ => 99) 6 s.2 s.1
  pure (w.2.Length, w.2.hdr.raw.numSectors)

/-- Scenario "unlink while open": `Create("b", 0)`, `Open("b")`, `Remove("b")`,
`Open("b")`, `WriteAt("x", 1, 0)` through the first handle, then the handle is
closed and `Open("b")` is called again.  The result lists: the flag of
`Remove`, whether the second `Open` returned null, the count of `WriteAt`;
then whether the file's header sector and its data sector are still marked in the
persisted free map after the close, what the root directory's `Find("b")`
returns then, and whether the last `Open` returned a handle. -/
def runUnlinkWhileOpen : Option ((Bool × Bool × Int) × (Bool × Bool × Int × Bool)) := do
  let s ← emptyFile ['b']
  let r ← FileSystem.Remove stdGeometry stdLimits s.2 ['b']
  let o ← FileSystem.Open stdGeometry stdLimits r.2 ['b']
  let w ← s.1.WriteAt stdGeometry stdLimits o.2 (fun _ => 120) 1 0
  let k ← w.2.2.destroy stdGeometry stdLimits w.2.1
  let o2 ← FileSystem.Open stdGeometry stdLimits k ['b']
  pure ((r.1, o.1.isNone, w.1), (k.freeMap.Test s.1.hdr.sector,
    k.freeMap.Test (w.2.2.hdr.raw.dataSectors 0),
    Directory.Find stdLimits.FILE_NAME_MAX_LEN (k.dirFiles 1) ['b'], o2.1.isSome))

/-- Two handles on one empty file: the second writes 10 bytes, the first
writes 5 bytes, then the second writes 3 bytes at position 0.  The result
lists the count the last `WriteAt` returns, the `Length()` its handle reports,
the `FileLength()` of the chain fetched from the file's header sector
afterwards, and the `Length()` of a handle opened afterwards. -/
def runTwoHandles : Option (Int × Nat × Option Nat × Option Nat) := do
  let s ← emptyFile ['a']
  let o ← FileSystem.Open stdGeometry stdLimits s.2 ['a']
  match o.1 with
  | none => none
  | some h2 =>
    let w1 ← h2.WriteAt stdGeometry stdLimits o.2 (fun _ => 50) 10 0
    let w2 ← s.1.WriteAt stdGeometry stdLimits w1.2.1 (fun _ => 49) 5 0
    let w3 ← w1.2.2.WriteAt stdGeometry stdLimits w2.2.1 (fun _ => 51) 3 0
    let o3 ← FileSystem.Open stdGeometry stdLimits w3.2.1 ['a']
    pure (w3.1, w3.2.2.Length,
      (FileHeader.FetchFromFuel stdGeometry w3.2.1.disk (stdLimits.NUM_SECTORS + 1)
        w3.2.2.hdr.sector w3.2.2.hdr.sector).map FileHeader.FileLength,
      o3.1.map OpenFile.Length)

/-- A kernel with nothing in it; the default of the concrete states below. -/
def defaultKernel : Kernel :=
  { disk := blankDisk, freeMap := Bitmap.new 0, dirFiles := fun _ => Directory.new 0,
    listOpenFiles := [], directoryList := [], freeMapFile := ⟨zeroHeader, 0, []⟩,
    currentThread := 0, junk := zeroHeader, heap := fun _ => 0 }

/-- The handle and the kernel after `Create("b", 0)` and `Open("b")` on the
formatted disk. -/
def openB : OpenFile × Kernel := (emptyFile ['b']).getD (⟨zeroHeader, 0, []⟩, defaultKernel)

/-- The directory node of the current thread in `openB`. -/
def openBNode : DNode :=
  (DirectoryList.GetLock openB.2.directoryList openB.2.currentThread).getD
    ⟨⟨zeroHeader, 0, []⟩, [], none⟩

/-- The table entry of `"/b"` in `openB`. -/
def openBEntry : FData :=
  (FileList.Find stdLimits.FILE_NAME_MAX_LEN openB.2.listOpenFiles ['/', 'b']).getD (FData.new [])

/-- The sectors `Deallocate` clears, in the order it clears them: the data
slots in use of a header, then the sector of its next header and what that
header owns. -/
def FileHeader.owned : FileHeader → List Nat
  | .last r _ => dataSlots r
  | .link r _ n => dataSlots r ++ n.sector :: owned n

/-- The kernel after `Create("c", 300)` on the formatted disk, no handle
opened. -/
def closedC : Kernel :=
  ((formatted.bind fun k => FileSystem.Create stdGeometry stdLimits k ['c'] 300).map
    fun c => c.2).getD defaultKernel

/-- The directory node of the current thread in `closedC`. -/
def closedCNode : DNode :=
  (DirectoryList.GetLock closedC.directoryList closedC.currentThread).getD
    ⟨⟨zeroHeader, 0, []⟩, [], none⟩

/-- The directory entry of `"c"` in `closedC`. -/
def closedCEntry : DirectoryEntry :=
  (Directory.FindEntry stdLimits.FILE_NAME_MAX_LEN
    (closedC.dirFiles closedCNode.directoryFile.hdr.sector) ['c']).getD ⟨false, false, [], 0⟩

/-- The header chain of `"c"` as stored on the disk of `closedC`. -/
def closedCHeader : FileHeader :=
  (FileHeader.FetchFromFuel stdGeometry closedC.disk (stdLimits.NUM_SECTORS + 1)
    closedCEntry.sector closedC.junk.sector).getD zeroHeader

/-- The sectors holding the headers of a chain, first to last. -/
def FileHeader.headerSectors : FileHeader → List Nat
  | .last _ s => [s]
  | .link _ s n => s :: headerSectors n

/-- The chain is what the disk stores from the sector of its first header on:
each header is the image held by its sector, and slot `NUM_DIRECT - 1` names
the sector of the successor (`0` in the last header). -/
def FileHeader.OnDisk (g : Geometry) (d : Disk) : FileHeader → Prop
  | .last r s => (d s).asHeader = r ∧ r.dataSectors (g.NUM_DIRECT - 1) = 0
  | .link r s n => (d s).asHeader = r ∧ r.dataSectors (g.NUM_DIRECT - 1) = n.sector ∧
      n.sector ≠ 0 ∧ OnDisk g d n

/-- No data slot `dataSectors[0 .. NUM_DIRECT - 1)` of a header of the chain
holds a sector of `S`. -/
def FileHeader.SlotsAvoid (g : Geometry) (S : List Nat) : FileHeader → Prop
  | .last r _ => ∀ i < g.NUM_DIRECT - 1, r.dataSectors i ∉ S
  | .link r _ n => (∀ i < g.NUM_DIRECT - 1, r.dataSectors i ∉ S) ∧ SlotsAvoid g S n

/-- Whether the slots avoid `S` can be computed. -/
instance FileHeader.decSlotsAvoid (g : Geometry) (S : List Nat) :
    (h : FileHeader) → Decidable (h.SlotsAvoid g S)
  | .last r _ =>
    show Decidable (∀ i < g.NUM_DIRECT - 1, r.dataSectors i ∉ S) from inferInstance
  | .link r _ n =>
    have : Decidable (n.SlotsAvoid g S) := FileHeader.decSlotsAvoid g S n
    show Decidable ((∀ i < g.NUM_DIRECT - 1, r.dataSectors i ∉ S) ∧ n.SlotsAvoid g S) from
      inferInstance

/-- The kernel after `Create("a", 0)` and `Open("a")` on the formatted disk. -/
def helloKernel : Kernel := ((emptyFile ['a']).map fun s => s.2).getD defaultKernel

/-- The handle on `"/a"` in `helloKernel`, whose header is in sector 5. -/
def helloHandle : OpenFile :=
  ⟨(FileHeader.FetchFromFuel stdGeometry helloKernel.disk (stdLimits.NUM_SECTORS + 1) 5 5).getD
    zeroHeader, 0, ['/', 'a']⟩

/-- The bytes of `"hello"`. -/
def helloBytes : Nat → Nat := fun j => ([104, 101, 108, 108, 111] : List Nat).getD j 0

/-- The result of `WriteAt("hello", 5, 0)` through `helloHandle`. -/
def helloWrite : Int × Kernel × OpenFile :=
  (helloHandle.WriteAt stdGeometry stdLimits helloKernel helloBytes 5 0).getD
    (0, defaultKernel, ⟨zeroHeader, 0, []⟩)

/-- The documented run: `Create("a", 0)`, `Open("a")`, `WriteAt("hello", 5, 0)`,
the handle is closed, `Open("a")` again and `ReadAt(buf, 5, 0)` through the
new handle.  The result lists the count of `WriteAt`, the `Length()` of the
new handle, the count of `ReadAt` and the five bytes read. -/
def runHello : Option ((Int × Nat) × (Int × List Nat)) := do
  let s ← emptyFile ['a']
  let w ← s.1.WriteAt stdGeometry stdLimits s.2 helloBytes 5 0
  let k ← w.2.2.destroy stdGeometry stdLimits w.2.1
  let o ← FileSystem.Open stdGeometry stdLimits k ['a']
  match o.1 with
  | none => none
  | some h2 =>
    let r ← h2.ReadAt stdGeometry stdLimits o.2 (fun _ => 0) 5 0
    pure ((w.1, h2.Length), (r.1, (List.range 5).map r.2.1))

/-! ## Further operations and inputs -/

/-- `DirectoryList::GetLockFromDir`: the node whose lock is returned.  The loop
runs while `ptr->next != nullptr`, so the last node is never compared. -/
def DirectoryList.GetLockFromDir : List DNode → Name → Option DNode
  | [], _ => none
  | [_], _ => none
  | n :: m :: rest, name =>
    if n.directoryFile.fileName = name then some n
    else GetLockFromDir (m :: rest) name

/-- The stock machine right after `FileSystem(true)`, as a kernel. -/
def formattedKernel : Kernel := formatted.getD defaultKernel

/-- `Create("a", 200000)` on the freshly formatted disk (1024 sectors of 128 bytes). -/
def createTooBig : Option (Bool × Kernel) :=
  FileSystem.Create stdGeometry stdLimits formattedKernel ['a'] 200000

/-- The open-file table after `Add("/docs/note1")` on the empty table. -/
def tableNote1 : FileList := FileList.Add 9 [] "/docs/note1".toList

/-- The table `tableNote1` after `Add("/docs/note2")`. -/
def tableNote2 : FileList := FileList.Add 9 tableNote1 "/docs/note2".toList

/-- `DNode::Remove`: the thread ids different from `id` are kept (a node never
holds an id twice: `DirectoryList::Add` asserts `!Has(id)` before `Append`). -/
def DNode.removeThread (id : Int) (n : DNode) : DNode :=
  { n with threads := n.threads.filter (fun t => t ≠ id) }

/-- The destructor `~OpenFile` of a directory handle run by `delete ptr` inside
`DirectoryList::Remove`, which holds `listlock`: `listOpenFiles->Remove(name)`,
where the deferred `fileSystem->Remove(name)` of a tombstoned entry begins with
`CheckDirectoryUse`, acquires `listlock` a second time and does not return. -/
def closeUnderListLock (L : Limits) (k : Kernel) (name : Name) : Option Kernel :=
  match FileList.Find L.FILE_NAME_MAX_LEN k.listOpenFiles name with
  | none => some k
  | some fd =>
    if fd.inst > 1 then some (k.modifyEntry L name (FData.addInst (-1)))
    else if fd.deleted then none
    else some (k.withTable (FileList.unlink L.FILE_NAME_MAX_LEN name k.listOpenFiles))

/-- The loop of `DirectoryList::Remove`: the list afterwards and the node that
was unlinked because its last thread left; `none` when `ASSERT(false)` is
reached. -/
def DirectoryList.removeFrom (id : Int) : List DNode → Option (List DNode × Option DNode)
  | [] => none
  | n :: rest =>
    if DirectoryList.Has n id then
      if (n.removeThread id).threads.isEmpty then some (rest, some (n.removeThread id))
      else some (n.removeThread id :: rest, none)
    else (removeFrom id rest).map (fun r => (n :: r.1, r.2))

/-- `DirectoryList::Remove`. -/
def DirectoryList.Remove (L : Limits) (k : Kernel) (id : Int) : Option Kernel :=
  match DirectoryList.removeFrom id k.directoryList with
  | none => none
  | some (l, none) => some (k.withDirectoryList l)
  | some (l, some n) => closeUnderListLock L (k.withDirectoryList l) n.directoryFile.fileName

namespace FileSystem

/-- `FileSystem::CreateDir`: the returned flag and the kernel afterwards. -/
def CreateDir (g : Geometry) (L : Limits) (k : Kernel) (name : Name) :
    Option (Bool × Kernel) := do
  let k1 ← DirectoryList.CheckDirectoryUse g L k
  let k2 ← lockDir k1
  let cwd ← DirectoryList.Get k2.directoryList k2.currentThread
  let dir ← Directory.FetchFrom L k2 cwd
  if Directory.Find L.FILE_NAME_MAX_LEN dir name ≠ -1 then
    let k3 ← unlockDir k2
    pure (false, k3)
  else
    let freeMap ← Bitmap.FetchFrom L k2 k2.freeMapFile
    let found := freeMap.Find
    if found.1 = -1 then
      let k3 ← unlockDir k2
      pure (false, k3)
    else
      let added := Directory.Add L.FILE_NAME_MAX_LEN dir name (ofInt found.1) true
      if !added.1 then
        let k3 ← unlockDir k2
        pure (false, k3)
      else
        let r ← FileHeader.Allocate g k2.junk found.2 (newFileHeader k2.junk)
          L.DIRECTORY_FILE_SIZE
        if r.1 then
          let h := r.2.2.withSector (ofInt found.1)
          let k3 := k2.withDisk (h.WriteBack (ofInt found.1) k2.disk)
          let newDirOf ← OpenFile.create g L k3 (ofInt found.1) name
          let k4 := k3.withTable (FileList.Add L.FILE_NAME_MAX_LEN k3.listOpenFiles name)
          let k5 ← Directory.WriteBack L k4 (Directory.new L.NUM_DIR_ENTRIES) newDirOf
          let k6 ← Bitmap.WriteBack L k5 r.2.1 k5.freeMapFile
          let k7 ← Directory.WriteBack L k6 added.2 cwd
          let k8 ← OpenFile.destroy g L k7 newDirOf
          let k9 ← unlockDir k8
          pure (true, k9)
        else
          -- `this->Remove(name)` is entered with the directory lock held
          let undone ← Remove g L k2 name
          let k4 ← unlockDir undone.2
          pure (false, k4)

/-- `FileSystem::RemoveDir`: the returned flag and the kernel afterwards. -/
def RemoveDir (g : Geometry) (L : Limits) (k : Kernel) (name : Name) :
    Option (Bool × Kernel) := do
  let k1 ← DirectoryList.CheckDirectoryUse g L k
  let k2 ← lockDir k1
  let cwd ← DirectoryList.Get k2.directoryList k2.currentThread
  let dir ← Directory.FetchFrom L k2 cwd
  let sector := Directory.Find L.FILE_NAME_MAX_LEN dir name
  if sector = -1 then
    let k3 ← unlockDir k2
    pure (false, k3)
  else
    let targetOf ← OpenFile.create g L k2 (ofInt sector) name
    let k3 := k2.withTable (FileList.Add L.FILE_NAME_MAX_LEN k2.listOpenFiles name)
    let target ← Directory.FetchFrom L k3 targetOf
    if !target.IsEmpty then
      let k4 ← OpenFile.destroy g L k3 targetOf
      let k5 ← unlockDir k4
      pure (false, k5)
    else
      let k4 ← OpenFile.destroy g L k3 targetOf
      let k5 ← unlockDir k4
      Remove g L k5 name

/-- One step of the scan of `ChangeDir`: the characters up to the next `'/'`
(`pathsiguiente`) and what follows that `'/'` (`pathaux = &pathaux[i+1]`). -/
def nextSegment (p : Name) : Name × Name :=
  (p.takeWhile (fun c => c ≠ '/'), p.drop ((p.takeWhile (fun c => c ≠ '/')).length + 1))

/-- The segments the loop `while (strlen(pathaux) != 0)` of `ChangeDir` visits,
in order; the scan shortens `pathaux` in every round, `fuel` bounds the rounds. -/
def segmentsFuel : Nat → Name → List Name
  | 0, _ => []
  | fuel + 1, p =>
    if p = [] then [] else (nextSegment p).1 :: segmentsFuel fuel (nextSegment p).2

/-- The segments of `pathaux`. -/
def segments (p : Name) : List Name := segmentsFuel p.length p

/-- The body of the loop of `ChangeDir` for the segments still to visit: the
last value of `nuevoDirSector` (`none` when the function returns false inside
the loop) and the kernel. -/
def walkSegments (g : Geometry) (L : Limits) :
    List Name → Kernel → Directory → Int → Option (Option Int × Kernel)
  | [], k, _, nuevoDirSector => some (some nuevoDirSector, k)
  | pathsiguiente :: rest, k, dir, _ =>
    let nuevoDirSector := Directory.Find L.FILE_NAME_MAX_LEN dir pathsiguiente
    let tombstoned : Bool :=
      match FileList.Find L.FILE_NAME_MAX_LEN k.listOpenFiles pathsiguiente with
      | none => false
      | some fd => fd.deleted
    if nuevoDirSector < 0 ∨ tombstoned then some (none, k)
    else
      match OpenFile.create g L k (ofInt nuevoDirSector) pathsiguiente with
      | none => none
      | some nuevoDir =>
        let k1 := k.withTable (FileList.Add L.FILE_NAME_MAX_LEN k.listOpenFiles pathsiguiente)
        -- `ltemp->Acquire()`, or `listlock->Acquire()` when `ltemp` is null
        let blocked : Bool :=
          match DirectoryList.GetLockFromDir k1.directoryList pathsiguiente with
          | none => false
          | some n => n.dirlock.isSome
        if blocked then none
        else
          match Directory.FetchFrom L k1 nuevoDir with
          | none => none
          | some dir1 =>
            match OpenFile.destroy g L k1 nuevoDir with
            | none => none
            | some k2 => walkSegments g L rest k2 dir1 nuevoDirSector

/-- The part of `ChangeDir` before the loop: the directory the walk starts
in is fetched (through a fresh handle on the root for an absolute path, through
the working directory otherwise).  The result is the kernel, the directory
fetched, the first value of `nuevoDirSector` and `pathaux`. -/
def startWalk (g : Geometry) (L : Limits) (k1 : Kernel) (cwd : OpenFile) (path : Name) :
    Option (Kernel × Directory × Int × Name) :=
  if path.head? = some '/' then do
    let root ← OpenFile.create g L k1 1 ['/']
    let k2 :=
      if (FileList.Find L.FILE_NAME_MAX_LEN k1.listOpenFiles ['/']).isNone then
        k1.withTable (FileList.Add L.FILE_NAME_MAX_LEN k1.listOpenFiles ['/'])
      else k1
    let k3 ← lockDir k2
    let dir ← Directory.FetchFrom L k3 root
    let k4 ← unlockDir k3
    let k5 ← OpenFile.destroy g L k4 root
    pure (k5, dir, (1 : Int), path.drop 1)
  else do
    let k3 ← lockDir k1
    let dir ← Directory.FetchFrom L k3 cwd
    let k4 ← unlockDir k3
    pure (k4, dir, (-1 : Int), path)

/-- The part of `ChangeDir` after the loop: the calling thread leaves its
entry of the directory-use list and joins the entry of the new directory. -/
def moveThread (g : Geometry) (L : Limits) (k : Kernel) (nuevoDirSector : Int) (path : Name) :
    Option (Bool × Kernel) :=
  if nuevoDirSector ≠ -1 then
    if ofInt nuevoDirSector ≠ 1 then do
      let absolutepath ← FillPath k path
      let k6 := k.withTable (FileList.Add L.FILE_NAME_MAX_LEN k.listOpenFiles absolutepath)
      let k7 ← DirectoryList.Remove L k6 k6.currentThread
      let l ← DirectoryList.Add g L k7 k7.currentThread (ofInt nuevoDirSector) absolutepath
        k7.directoryList
      pure (true, k7.withDirectoryList l)
    else do
      let k6 ← DirectoryList.Remove L k k.currentThread
      let k7 := k6.withTable (FileList.Add L.FILE_NAME_MAX_LEN k6.listOpenFiles ['/'])
      let l ← DirectoryList.Add g L k7 k7.currentThread 1 ['/'] k7.directoryList
      pure (true, k7.withDirectoryList l)
  else pure (false, k)

/-- `FileSystem::ChangeDir`: the returned flag and the kernel afterwards. -/
def ChangeDir (g : Geometry) (L : Limits) (k : Kernel) (path : Name) :
    Option (Bool × Kernel) := do
  let k1 ← DirectoryList.CheckDirectoryUse g L k
  let cwd ← DirectoryList.Get k1.directoryList k1.currentThread
  if cwd.fileName = path then pure (true, k1)
  else
    let start ← startWalk g L k1 cwd path
    let walked ← walkSegments g L (segments start.2.2.2) start.1 start.2.1 start.2.2.1
    match walked.1 with
    | none => pure (false, walked.2)
    | some nuevoDirSector => moveThread g L walked.2 nuevoDirSector path

/-- `CheckSector` (with `AddToShadowBitmap`): the error flag and the shadow map. -/
def CheckSector (L : Limits) (sector : Nat) (shadowMap : Bitmap) : Bool × Bitmap :=
  if shadowMap.Test sector then (true, shadowMap)
  else (!decide (sector < L.NUM_SECTORS), shadowMap.Mark sector)

/-- `CheckFileHeader`: the error flag and the shadow map. -/
def CheckFileHeader (g : Geometry) (L : Limits) (rh : RawFileHeader) (shadowMap : Bitmap) :
    Bool × Bitmap :=
  (List.range rh.numSectors).foldl
    (fun acc i => ((acc.1 || (CheckSector L (rh.dataSectors i) acc.2).1),
      (CheckSector L (rh.dataSectors i) acc.2).2))
    (!decide (rh.numSectors ≤ g.NUM_DIRECT), shadowMap)

/-- `ptr->FetchFrom(ptr->sector)` on a header that is already part of a
fetched chain: `raw` is read again, `next` is replaced when slot
`NUM_DIRECT - 1` is not zero and kept otherwise. -/
def refetch (g : Geometry) (L : Limits) (d : Disk) (ptr : FileHeader) : Option FileHeader :=
  let raw := (d ptr.sector).asHeader
  if raw.dataSectors (g.NUM_DIRECT - 1) ≠ 0 then
    (FileHeader.FetchFromFuel g d (L.NUM_SECTORS + 1) (raw.dataSectors (g.NUM_DIRECT - 1))
      (raw.dataSectors (g.NUM_DIRECT - 1))).map (fun n => FileHeader.link raw ptr.sector n)
  else some (ptr.withRaw raw)

/-- The loop of `CheckDirectory` over the next headers of one file,
`for (ptr = h->next; ptr != nullptr; ptr = ptr->next)`, bounded by `fuel`. -/
def checkNextHeaders (g : Geometry) (L : Limits) (d : Disk) :
    Nat → Option FileHeader → Bool × Bitmap → Option (Bool × Bitmap)
  | _, none, acc => some acc
  | 0, some _, _ => none
  | fuel + 1, some ptr, acc =>
    match refetch g L d ptr with
    | none => none
    | some ptr1 =>
      checkNextHeaders g L d fuel ptr1.next
        ((acc.1 || (CheckSector L ptr.sector acc.2).1
            || (CheckFileHeader g L ptr1.raw (CheckSector L ptr.sector acc.2).2).1),
          (CheckFileHeader g L ptr1.raw (CheckSector L ptr.sector acc.2).2).2)

/-- `CheckDirectory` over the entries still to visit: the error flag, the names
seen so far (`knownNames`) and the shadow map. -/
def CheckDirectory (g : Geometry) (L : Limits) (k : Kernel) :
    List DirectoryEntry → Bool × List Name × Bitmap → Option (Bool × List Name × Bitmap)
  | [], acc => some acc
  | e :: rest, acc =>
    if e.inUse then
      let tooLong := decide (e.name.length > L.FILE_NAME_MAX_LEN)
      let repeated := acc.2.1.any (fun n => n = e.name)
      let knownNames := if repeated then acc.2.1 else acc.2.1 ++ [e.name]
      let s := CheckSector L e.sector acc.2.2
      match FileHeader.FetchFromFuel g k.disk (L.NUM_SECTORS + 1) e.sector k.junk.sector with
      | none => none
      | some h =>
        let c := CheckFileHeader g L h.raw s.2
        match checkNextHeaders g L k.disk (L.NUM_SECTORS + 1) h.next
            (acc.1 || tooLong || repeated || s.1 || c.1, c.2) with
        | none => none
        | some r => CheckDirectory g L k rest (r.1, knownNames, r.2)
    else CheckDirectory g L k rest acc

/-- `CheckBitmaps`: the error flag. -/
def CheckBitmaps (L : Limits) (freeMap shadowMap : Bitmap) : Bool :=
  (List.range L.NUM_SECTORS).any (fun i => freeMap.Test i != shadowMap.Test i)

/-- `FileSystem::Check`; `none` when a call inside does not return. -/
def Check (g : Geometry) (L : Limits) (k : Kernel) : Option Bool := do
  let shadow0 := ((Bitmap.new L.NUM_SECTORS).Mark 0).Mark 1
  let bitH ← FileHeader.FetchFromFuel g k.disk (L.NUM_SECTORS + 1) 0 k.junk.sector
  let e1 := !decide (bitH.raw.numBytes = L.FREE_MAP_FILE_SIZE)
  let e2 := !decide (bitH.raw.numSectors = L.FREE_MAP_FILE_SIZE / g.SECTOR_SIZE)
  let c1 := CheckFileHeader g L bitH.raw shadow0
  let dirH ← FileHeader.FetchFromFuel g k.disk (L.NUM_SECTORS + 1) 1 k.junk.sector
  let c2 := CheckFileHeader g L dirH.raw c1.2
  let freeMap ← Bitmap.FetchFrom L k k.freeMapFile
  let cwd ← DirectoryList.Get k.directoryList k.currentThread
  let dir ← Directory.FetchFrom L k cwd
  let c3 ← CheckDirectory g L k dir.table (e1 || e2 || c1.1 || c2.1, [], c2.2)
  pure (!(c3.1 || CheckBitmaps L freeMap c3.2.2))

end FileSystem

/-- Scenario "hierarchy": `CreateDir("d")`, `ChangeDir("d")`, `Create("x", 0)`,
`ChangeDir("/")`, `ChangeDir("/d")`, `Open("x")` on the formatted disk.  The
result lists the flags of the five calls and whether `Open` returned a handle. -/
def runHierarchy : Option (List Bool × Bool) := do
  let k0 ← formatted
  let a ← FileSystem.CreateDir stdGeometry stdLimits k0 ['d']
  let b ← FileSystem.ChangeDir stdGeometry stdLimits a.2 ['d']
  let c ← FileSystem.Create stdGeometry stdLimits b.2 ['x'] 0
  let d ← FileSystem.ChangeDir stdGeometry stdLimits c.2 ['/']
  let e ← FileSystem.ChangeDir stdGeometry stdLimits d.2 ['/', 'd']
  let o ← FileSystem.Open stdGeometry stdLimits e.2 ['x']
  pure ([a.1, b.1, c.1, d.1, e.1], o.1.isSome)

/-- Scenario "check": the same calls up to `ChangeDir("/")`.  The result lists
whether all four calls returned true, and what `Check()` returns right after
`ChangeDir("d")` and in the end. -/
def runCheck : Option (Bool × List (Option Bool)) := do
  let k0 ← formatted
  let a ← FileSystem.CreateDir stdGeometry stdLimits k0 ['d']
  let b ← FileSystem.ChangeDir stdGeometry stdLimits a.2 ['d']
  let c ← FileSystem.Create stdGeometry stdLimits b.2 ['x'] 0
  let d ← FileSystem.ChangeDir stdGeometry stdLimits c.2 ['/']
  pure (a.1 && b.1 && c.1 && d.1,
    [FileSystem.Check stdGeometry stdLimits b.2, FileSystem.Check stdGeometry stdLimits d.2])

/-- The kernel of scenario "check" in the end: the thread is back in the root
directory, which holds the directory `"d"`, which holds the file `"x"`. -/
def nestedKernel : Kernel :=
  ((do
    let k0 ← formatted
    let a ← FileSystem.CreateDir stdGeometry stdLimits k0 ['d']
    let b ← FileSystem.ChangeDir stdGeometry stdLimits a.2 ['d']
    let c ← FileSystem.Create stdGeometry stdLimits b.2 ['x'] 0
    let d ← FileSystem.ChangeDir stdGeometry stdLimits c.2 ['/']
    pure d.2) : Option Kernel).getD defaultKernel

/-- The kernel after `CreateDir("d")` on the formatted disk. -/
def dirKernel : Kernel :=
  ((formatted.bind fun k => FileSystem.CreateDir stdGeometry stdLimits k ['d']).map
    fun r => r.2).getD defaultKernel

/-- Two handles on one empty file: the first writes `"hello"` at 0, then the
second reads 5 bytes at 0.  The result lists the count `WriteAt` returns, the
`Length()` of the writer and of the other handle afterwards, and the count
`ReadAt` returns through the other handle. -/
def runStaleReader : Option ((Int × Nat) × (Nat × Int)) := do
  let s ← emptyFile ['a']
  let o ← FileSystem.Open stdGeometry stdLimits s.2 ['a']
  match o.1 with
  | none => none
  | some h2 =>
    let w ← s.1.WriteAt stdGeometry stdLimits o.2 helloBytes 5 0
    let r ← h2.ReadAt stdGeometry stdLimits w.2.1 (fun _ => 0) 5 0
    pure ((w.1, w.2.2.Length), (h2.Length, r.1))

/-- The directory node of the current thread in `nestedKernel`. -/
def nestedNode : DNode :=
  (DirectoryList.GetLock nestedKernel.directoryList nestedKernel.currentThread).getD
    ⟨⟨zeroHeader, 0, []⟩, [], none⟩

/-- The header chain of the directory `"d"` as stored on the disk of `nestedKernel`. -/
def nestedDirHeader : FileHeader :=
  (FileHeader.FetchFromFuel stdGeometry nestedKernel.disk (stdLimits.NUM_SECTORS + 1)
    (ofInt (Directory.Find stdLimits.FILE_NAME_MAX_LEN
      (nestedKernel.dirFiles nestedNode.directoryFile.hdr.sector) ['d']))
    (ofInt (Directory.Find stdLimits.FILE_NAME_MAX_LEN
      (nestedKernel.dirFiles nestedNode.directoryFile.hdr.sector) ['d']))).getD zeroHeader

/-- No lock of the open-file table is held, no entry is tombstoned and every
count is positive. -/
def FileList.Quiet (T : FileList) : Prop :=
  ∀ fd ∈ T, fd.condLock = none ∧ fd.deleted = false ∧ 1 ≤ fd.inst

/-- Whether a table is quiet can be computed. -/
instance FileList.decQuiet (T : FileList) : Decidable (FileList.Quiet T) :=
  inferInstanceAs (Decidable (∀ fd ∈ T, fd.condLock = none ∧ fd.deleted = false ∧ 1 ≤ fd.inst))

/-- Every segment is found: the walk of `ChangeDir` over the stored
directories alone.  Starting in `dir`, each segment must name an entry
(`Find` is not negative) whose header chain can be fetched; the walk goes on
in the directory stored in the file of that entry.  The result is the sector
found for the last segment (the start value when there is no segment), `none`
when a segment is missing. -/
def FileSystem.resolve (g : Geometry) (L : Limits) (d : Disk) (dirFiles : Nat → Directory) :
    List Name → Directory → Int → Option Int
  | [], _, cur => some cur
  | seg :: rest, dir, _ =>
    if Directory.Find L.FILE_NAME_MAX_LEN dir seg < 0 then none
    else
      match FileHeader.FetchFromFuel g d (L.NUM_SECTORS + 1)
          (ofInt (Directory.Find L.FILE_NAME_MAX_LEN dir seg))
          (ofInt (Directory.Find L.FILE_NAME_MAX_LEN dir seg)) with
      | none => none
      | some _ =>
        resolve g L d dirFiles rest (dirFiles (ofInt (Directory.Find L.FILE_NAME_MAX_LEN dir seg)))
          (Directory.Find L.FILE_NAME_MAX_LEN dir seg)

/-- The result of `WriteAt` of 200 bytes at 0 through `helloHandle`. -/
def write200 : Int × Kernel × OpenFile :=
  (helloHandle.WriteAt stdGeometry stdLimits helloKernel (fun j => j % 251) 200 0).getD
    (0, defaultKernel, ⟨zeroHeader, 0, []⟩)

/-- A second handle on `"/a"` that holds the header chain the writer holds
after that call. -/
def reader200 : OpenFile := ⟨write200.2.2.hdr, 0, ['/', 'a']⟩

/-- The directory node of the current thread in `dirKernel`. -/
def dirNode : DNode :=
  (DirectoryList.GetLock dirKernel.directoryList dirKernel.currentThread).getD
    ⟨⟨zeroHeader, 0, []⟩, [], none⟩

/-! ## Listing, live handles and further inputs -/

namespace FileSystem

/-- `FileSystem::List`: the kernel afterwards (what `dir->List(0)` prints is
not modelled).  The handle on the root is registered once
(`listOpenFiles->Add("/")`) and deregistered twice: by
`listOpenFiles->Remove("/")` and by `delete directoryFile`. -/
def List (g : Geometry) (L : Limits) (k : Kernel) : Option Kernel := do
  let k1 ← lockDir k
  let directoryFile ← OpenFile.create g L k1 1 ['/']
  let k2 := k1.withTable (FileList.Add L.FILE_NAME_MAX_LEN k1.listOpenFiles ['/'])
  let _ ← Directory.FetchFrom L k2 directoryFile
  let k3 ← FileList.Remove g L k2 ['/']
  let k4 ← OpenFile.destroy g L k3 directoryFile
  unlockDir k4

end FileSystem

/-- The names of the `OpenFile` objects the kernel itself keeps alive: the
handle `freeMapFile` and the directory handle of every node of the
directory-use list. -/
def Kernel.liveNames (k : Kernel) : List Name :=
  k.freeMapFile.fileName :: k.directoryList.map (fun n => n.directoryFile.fileName)

/-- The count `inst` the open-file table keeps for a path (`0` when the table
has no entry for it). -/
def Kernel.instOf (L : Limits) (k : Kernel) (path : Name) : Int :=
  match FileList.Find L.FILE_NAME_MAX_LEN k.listOpenFiles path with
  | some fd => fd.inst
  | none => 0

/-- Scenario "list": `List()` on the freshly formatted disk, no handle in the
hands of a caller.  The result lists, before and after the call, the count the
table keeps for `"/"` and the number of live handles named `"/"`. -/
def runList : Option ((Int × Nat) × (Int × Nat)) := do
  let k ← formatted
  let k1 ← FileSystem.List stdGeometry stdLimits k
  pure ((k.instOf stdLimits ['/'], k.liveNames.count ['/']),
    (k1.instOf stdLimits ['/'], k1.liveNames.count ['/']))

/-- Scenario "file as directory": `Create("x", 0)` and `ChangeDir("x")` on the
formatted disk.  The result lists the flag of `Create`, the `isDir` flag of
the entry of `"x"` in the root directory, the flag of `ChangeDir`, and the
name of the calling thread's working directory afterwards. -/
def runFileAsDir : Option ((Bool × Option Bool) × (Bool × Option Name)) := do
  let k ← formatted
  let c ← FileSystem.Create stdGeometry stdLimits k ['x'] 0
  let d ← FileSystem.ChangeDir stdGeometry stdLimits c.2 ['x']
  pure ((c.1, (Directory.FindEntry stdLimits.FILE_NAME_MAX_LEN (c.2.dirFiles 1) ['x']).map
      (fun e => e.isDir)),
    (d.1, (DirectoryList.Get d.2.directoryList d.2.currentThread).map (fun f => f.fileName)))

/-- The result of `Allocate(map64, 3000)` on a fresh header with the stock
geometry: one header of 24 sectors. -/
def alloc3000 : Bool × Bitmap × FileHeader :=
  (FileHeader.Allocate stdGeometry zeroHeader map64 zeroHeader 3000).getD
    (false, map64, zeroHeader)

/-- The header work of `WriteAt(from, 500, 3000)` on the chain of `alloc3000`
(five sectors, `23 … 27`, are touched). -/
def extend3000 : Option (Bool × Bitmap × FileHeader × FileHeader) :=
  OpenFile.extendCore stdGeometry zeroHeader alloc3000.2.1 alloc3000.2.2 500 5

/-- The byte the specification places at offset `o` of a file: byte
`o mod SECTOR_SIZE` of the sector `slotPerSpec` assigns to `o` (`0` when the
chain has no such header). -/
def fileByte (g : Geometry) (d : Disk) (h : FileHeader) (o : Nat) : Nat :=
  match slotPerSpec g h o with
  | some s => (d s).asData (o % g.SECTOR_SIZE)
  | none => 0

/-- The invariants of the directory-use list: a thread id occurs in at most
one node and at most once in it, every node holds at least one id, and no two
nodes have the same directory file name. -/
def DirectoryList.Inv (l : List DNode) : Prop :=
  (l.flatMap (fun n => n.threads)).Nodup ∧ (∀ n ∈ l, n.threads ≠ []) ∧
    (l.map (fun n => n.directoryFile.fileName)).Nodup

/-- Whether the invariants of the directory-use list hold can be computed. -/
instance DirectoryList.decInv (l : List DNode) : Decidable (DirectoryList.Inv l) :=
  inferInstanceAs (Decidable ((l.flatMap (fun n : DNode => n.threads)).Nodup ∧
    (∀ n ∈ l, n.threads ≠ []) ∧ (l.map (fun n : DNode => n.directoryFile.fileName)).Nodup))

/-- The counters of a table entry are consistent: `writings` is 0 or 1, a
writer excludes readers, and `readings` is not negative. -/
def FData.CountersOk (fd : FData) : Prop :=
  (fd.writings = 0 ∨ fd.writings = 1) ∧ (fd.writings = 1 → fd.readings = 0) ∧ 0 ≤ fd.readings

/-- Every entry of the table has consistent counters. -/
def FileList.Counters (T : FileList) : Prop := ∀ fd ∈ T, fd.CountersOk

/-- Whether the counters of a table are consistent can be computed. -/
instance FileList.decCounters (T : FileList) : Decidable (FileList.Counters T) :=
  inferInstanceAs (Decidable (∀ fd ∈ T,
    (fd.writings = 0 ∨ fd.writings = 1) ∧ (fd.writings = 1 → fd.readings = 0) ∧ 0 ≤ fd.readings))

/-- The states reached from a state with an empty open-file table by `Add`
and `Remove` on the table and by `ReadAt` and `WriteAt` on handles; `inside`
is the state of a `ReadAt` between its entry and exit bookkeeping. -/
inductive TableReached (g : Geometry) (L : Limits) : Kernel → Prop
  | start (k : Kernel) : k.listOpenFiles = [] → TableReached g L k
  | add (k : Kernel) (name : Name) : TableReached g L k →
      TableReached g L (k.withTable (FileList.Add L.FILE_NAME_MAX_LEN k.listOpenFiles name))
  | remove (k k1 : Kernel) (name : Name) : TableReached g L k →
      FileList.Remove g L k name = some k1 → TableReached g L k1
  | inside (k : Kernel) (f : OpenFile) (fd : FData) : TableReached g L k →
      FileList.Find L.FILE_NAME_MAX_LEN k.listOpenFiles f.fileName = some fd →
      fd.condLock = none →
      TableReached g L (k.modifyEntry L f.fileName (FData.addReadings 1))
  | readAt (k : Kernel) (f : OpenFile) (into : Nat → Nat) (n pos : Nat)
      (r : Int × (Nat → Nat) × Kernel) : TableReached g L k →
      f.ReadAt g L k into n pos = some r → TableReached g L r.2.2
  | writeAt (k : Kernel) (f : OpenFile) (src : Nat → Nat) (n pos : Nat)
      (r : Int × Kernel × OpenFile) : TableReached g L k →
      f.WriteAt g L k src n pos = some r → TableReached g L r.2.1

/-- A kernel whose table holds the entry of `"a"` while one `ReadAt` on it is
between its entry and exit bookkeeping. -/
def readingKernel : Kernel :=
  (defaultKernel.withTable (FileList.Add stdLimits.FILE_NAME_MAX_LEN defaultKernel.listOpenFiles
    ['a'])).modifyEntry stdLimits ['a'] (FData.addReadings 1)

/-! ## Inputs that reach the defects from the façade -/

/-- Scenario "remove after list": `Create("b", 0)` and `Open("b")` on the
formatted disk, then `List()`.  The result lists what `Remove("b")` returns
when called before `List()` and when called after it (`none`: the call stops
at an `ASSERT` and does not return). -/
def runRemoveOpenAfterList : Option (Option Bool × Option Bool) := do
  let s ← emptyFile ['b']
  let l ← FileSystem.List stdGeometry stdLimits s.2
  pure ((FileSystem.Remove stdGeometry stdLimits s.2 ['b']).map (fun r => r.1),
    (FileSystem.Remove stdGeometry stdLimits l ['b']).map (fun r => r.1))

/-- Scenario "create after a failed change of directory": `Create("a", 0)` on
the formatted disk, then `ChangeDir("/nope")`.  The result lists the flags of
these two calls and what a second `Create("a", 0)` returns when called before
`ChangeDir("/nope")` and when called after it (`none`: the call does not
return). -/
def runCreateAfterFailedChangeDir : Option ((Bool × Bool) × (Option Bool × Option Bool)) := do
  let k ← formatted
  let c ← FileSystem.Create stdGeometry stdLimits k ['a'] 0
  let d ← FileSystem.ChangeDir stdGeometry stdLimits c.2 "/nope".toList
  pure ((c.1, d.1), ((FileSystem.Create stdGeometry stdLimits c.2 ['a'] 0).map (fun r => r.1),
    (FileSystem.Create stdGeometry stdLimits d.2 ['a'] 0).map (fun r => r.1)))

/-- Scenario "directory not empty, after list": in the state of the
documented run (`CreateDir("d")`, `ChangeDir("d")`, `Create("x", 0)`,
`ChangeDir("/")`), what `RemoveDir("d")` returns when called at once and when
called after `List()` (`none`: the call does not return). -/
def runRemoveDirAfterList : Option (Option Bool × Option Bool) := do
  let l ← FileSystem.List stdGeometry stdLimits nestedKernel
  pure ((FileSystem.RemoveDir stdGeometry stdLimits nestedKernel ['d']).map (fun r => r.1),
    (FileSystem.RemoveDir stdGeometry stdLimits l ['d']).map (fun r => r.1))

/-- Scenario "change of directory after a failed one": `CreateDir("d")` on the
formatted disk, then `ChangeDir("/nope")`.  The result lists the flags of these
two calls and what `ChangeDir("d")` returns when called before
`ChangeDir("/nope")` and when called after it (`none`: the call does not
return). -/
def runChangeDirAfterFailed : Option ((Bool × Bool) × (Option Bool × Option Bool)) := do
  let k ← formatted
  let a ← FileSystem.CreateDir stdGeometry stdLimits k ['d']
  let n ← FileSystem.ChangeDir stdGeometry stdLimits a.2 "/nope".toList
  pure ((a.1, n.1), ((FileSystem.ChangeDir stdGeometry stdLimits a.2 ['d']).map (fun r => r.1),
    (FileSystem.ChangeDir stdGeometry stdLimits n.2 ['d']).map (fun r => r.1)))

/-- Scenario "remove in a directory with a long path": `CreateDir("directory")`,
`ChangeDir("directory")`, `Create("x", 0)` and `Remove("x")` on the formatted
disk; no handle on `"x"` is ever opened.  The result lists the flags of the
first three calls; the number of entries of the open-file table named
`"/directory/x"` before `Remove` and the flag `Remove` returns; then, after
`Remove`, the `deleted` flag of the table entry of `"/directory"`, what
`Find("x")` returns on the directory, and whether the header sector of `"x"`
is still marked in the persisted free map. -/
def runRemoveInLongDir :
    Option ((Bool × Bool × Bool) × (Nat × Bool) × (Option Bool × Int × Bool)) := do
  let k ← formatted
  let a ← FileSystem.CreateDir stdGeometry stdLimits k "directory".toList
  let b ← FileSystem.ChangeDir stdGeometry stdLimits a.2 "directory".toList
  let c ← FileSystem.Create stdGeometry stdLimits b.2 ['x'] 0
  let r ← FileSystem.Remove stdGeometry stdLimits c.2 ['x']
  let node ← DirectoryList.Get r.2.directoryList r.2.currentThread
  let x := Directory.Find stdLimits.FILE_NAME_MAX_LEN (r.2.dirFiles node.hdr.sector) ['x']
  pure ((a.1, b.1, c.1),
    ((c.2.listOpenFiles.filter (fun fd => fd.name = "/directory/x".toList)).length, r.1),
    ((FileList.Find stdLimits.FILE_NAME_MAX_LEN r.2.listOpenFiles "/directory".toList).map
      (fun fd => fd.deleted), x, r.2.freeMap.Test (ofInt x)))

/-- Scenario "read a file of 3840 bytes": `Create("a", 3840)` and `Open("a")`
on the formatted disk.  The result lists the flag of `Create`, the `Length()`
of the handle, and what `ReadAt(buf, 10, 0)` and `ReadAt(buf, 10, 3712)`
return (`none`: the call stops at an `ASSERT` and does not return). -/
def runRead3840 : Option (Bool × Nat × Option Int × Option Int) := do
  let k ← formatted
  let c ← FileSystem.Create stdGeometry stdLimits k ['a'] 3840
  let o ← FileSystem.Open stdGeometry stdLimits c.2 ['a']
  match o.1 with
  | none => none
  | some h =>
    pure (c.1, h.Length, (h.ReadAt stdGeometry stdLimits o.2 (fun _ => 0) 10 0).map (fun r => r.1),
      (h.ReadAt stdGeometry stdLimits o.2 (fun _ => 0) 10 3712).map (fun r => r.1))

namespace Bitmap

theorem firstClear_some : ∀ (l : List Bool) (i : Nat), firstClear l = some i →
    i < l.length ∧ l.getD i true = false := by
  intro l
  induction l with
  | nil => intro i h; simp [firstClear] at h
  | cons b bs ih =>
    intro i h
    cases b with
    | false =>
      simp [firstClear] at h
      subst h
      simp
    | true =>
      simp [firstClear] at h
      obtain ⟨j, hj, rfl⟩ := h
      have := ih j hj
      simpa using this

theorem firstClear_none : ∀ (l : List Bool), firstClear l = none ↔ l.count false = 0 := by
  intro l
  induction l with
  | nil => simp [firstClear]
  | cons b bs ih =>
    cases b with
    | false => simp [firstClear]
    | true => simpa [firstClear] using ih

theorem count_set_true : ∀ (l : List Bool) (i : Nat), i < l.length → l.getD i true = false →
    (l.set i true).count false + 1 = l.count false := by
  intro l
  induction l with
  | nil => intro i h; simp at h
  | cons b bs ih =>
    intro i hi hb
    cases i with
    | zero =>
      simp at hb
      subst hb
      simp
    | succ j =>
      simp at hi hb
      have := ih j hi (by simpa using hb)
      cases b <;> simp [List.count_cons] <;> omega

theorem getD_set_true (l : List Bool) (i j : Nat) (hi : i < l.length) :
    (l.set i true).getD j false = (l.getD j false || decide (j = i)) := by
  by_cases hji : j = i
  · subst hji
    simp [List.getD_eq_getElem?_getD, hi]
  · simp [List.getD_eq_getElem?_getD, List.getElem?_set, hji, Ne.symm hji]
    
end Bitmap

theorem DivRoundUp_le {n s k : Nat} (hs : 0 < s) (h : n ≤ k * s) : DivRoundUp n s ≤ k := by
  unfold DivRoundUp
  have h1 : n / s ≤ k := by
    calc n / s ≤ (k * s) / s := Nat.div_le_div_right h
      _ = k := Nat.mul_div_cancel k hs
  split
  · rename_i hpos
    have h2 : n / s ≠ k := by
      intro he
      have h3 : s * (n / s) + n % s = n := Nat.div_add_mod n s
      rw [he] at h3
      have h4 : s * k = k * s := Nat.mul_comm s k
      omega
    omega
  · omega

namespace Bitmap

theorem Took_refl (m : Bitmap) : Took m m [] := by
  refine ⟨rfl, List.nodup_nil, ?_, ?_, ?_⟩
  · intro s hs; simp at hs
  · intro j; simp
  · simp

theorem Took_trans {m m' m'' : Bitmap} {S S' : List Nat} (h : Took m m' S) (h' : Took m' m'' S') :
    Took m m'' (S ++ S') := by
  obtain ⟨hl, hn, hc, ht, hk⟩ := h
  obtain ⟨hl', hn', hc', ht', hk'⟩ := h'
  refine ⟨by rw [hl', hl], ?_, ?_, ?_, ?_⟩
  · rw [List.nodup_append]
    refine ⟨hn, hn', ?_⟩
    intro a ha ha'
    have h1 := (hc' a ha').2
    rw [ht a] at h1
    simp [ha] at h1
  · intro s hs
    rcases List.mem_append.1 hs with h1 | h1
    · exact hc s h1
    · have h2 := hc' s h1
      rw [ht s] at h2
      refine ⟨by rw [← hl]; exact h2.1, ?_⟩
      have h3 := h2.2
      simp at h3
      exact h3.1
  · intro j
    rw [ht' j, ht j]
    simp [Bool.or_assoc]
  · rw [List.length_append]; omega

theorem Find_took (m : Bitmap) (h : 0 < m.CountClear) :
    ∃ i : Nat, m.Find = ((i : Int), m.Mark i) ∧ Took m (m.Mark i) [i] := by
  unfold Find
  cases hf : firstClear m.bits with
  | none =>
    have := (firstClear_none m.bits).1 hf
    unfold CountClear at h
    omega
  | some i =>
    refine ⟨i, rfl, ?_⟩
    obtain ⟨hi, hb⟩ := firstClear_some m.bits i hf
    have hb' : m.bits.getD i false = false := by
      simp [List.getD_eq_getElem?_getD, hi] at hb ⊢
      exact hb
    refine ⟨by simp [Mark], by simp, ?_, ?_, ?_⟩
    · intro s hs
      simp at hs
      subst hs
      exact ⟨hi, hb'⟩
    · intro j
      simp only [Test, Mark]
      rw [getD_set_true _ _ _ hi]
      simp
    · simp only [CountClear, Mark, List.length_singleton]
      exact count_set_true _ _ hi hb

theorem Find_none (m : Bitmap) (h : m.CountClear = 0) : m.Find = (-1, m) := by
  unfold Find
  rw [(firstClear_none m.bits).2 h]

theorem Took_length_le {m m' : Bitmap} {S : List Nat} (h : Took m m' S) :
    S.length ≤ m.CountClear := by
  have := h.2.2.2.2
  omega

end Bitmap

theorem ofInt_natCast (i : Nat) (h : i < 4294967296) : ofInt (i : Int) = i := by
  unfold ofInt
  have : ((i : Int) % 4294967296) = (i : Int) := Int.emod_eq_of_lt (by omega) (by omega)
  rw [this]
  simp

theorem fillSlots_spec : ∀ (n lo : Nat) (m : Bitmap) (r : RawFileHeader),
    n ≤ m.CountClear → m.bits.length ≤ 4294967296 →
    Bitmap.Took m (fillSlots n lo m r).1
        ((List.range n).map (fun k => (fillSlots n lo m r).2.dataSectors (lo + k))) ∧
      (fillSlots n lo m r).2.numBytes = r.numBytes ∧
      (fillSlots n lo m r).2.numSectors = r.numSectors ∧
      ∀ j, (j < lo ∨ lo + n ≤ j) → (fillSlots n lo m r).2.dataSectors j = r.dataSectors j := by
  intro n
  induction n with
  | zero =>
    intro lo m r _ _
    simp [fillSlots, Bitmap.Took_refl]
  | succ n ih =>
    intro lo m r hc hl
    obtain ⟨i, hf, ht⟩ := Bitmap.Find_took m (by omega)
    have hi : i < m.bits.length := (ht.2.2.1 i (by simp)).1
    have hlen : (m.Mark i).bits.length = m.bits.length := ht.1
    have hcount : (m.Mark i).CountClear + 1 = m.CountClear := by simpa using ht.2.2.2.2
    have hrec := ih (lo + 1) (m.Mark i) (r.setSlot lo (ofInt (i : Int))) (by omega) (by omega)
    have hunf : fillSlots (n + 1) lo m r
        = fillSlots n (lo + 1) (m.Mark i) (r.setSlot lo (ofInt (i : Int))) := by
      simp [fillSlots, hf]
    rw [hunf]
    obtain ⟨h1, h2, h3, h4⟩ := hrec
    refine ⟨?_, ?_, ?_, ?_⟩
    · have hlo : (fillSlots n (lo + 1) (m.Mark i) (r.setSlot lo (ofInt (i : Int)))).2.dataSectors lo
          = i := by
        rw [h4 lo (Or.inl (by omega))]
        simp [RawFileHeader.setSlot, ofInt_natCast i (by omega)]
      have hlist : (List.range (n + 1)).map
            (fun k => (fillSlots n (lo + 1) (m.Mark i)
              (r.setSlot lo (ofInt (i : Int)))).2.dataSectors (lo + k))
          = [i] ++ (List.range n).map
            (fun k => (fillSlots n (lo + 1) (m.Mark i)
              (r.setSlot lo (ofInt (i : Int)))).2.dataSectors (lo + 1 + k)) := by
        rw [List.range_succ_eq_map, List.map_cons, List.map_map]
        simp only [Nat.add_zero, hlo, List.singleton_append, List.cons.injEq, true_and]
        apply List.map_congr_left
        intro k _
        simp only [Function.comp, Nat.succ_eq_add_one]
        congr 1
        omega
      rw [hlist]
      exact Bitmap.Took_trans ht h1
    · rw [h2]; rfl
    · rw [h3]; rfl
    · intro j hj
      rw [h4 j (by omega)]
      have : j ≠ lo := by omega
      simp [RawFileHeader.setSlot, this]

theorem toInt_resto_pos (sT ND : Nat) (hND : ND < 2147483648)
    (h : toInt (sT + 4294967296 - ND - 1) > 0) :
    ND + 1 < sT ∧ toInt (sT + 4294967296 - ND - 1) ≤ ((sT - ND - 1 : Nat) : Int) := by
  unfold toInt u32 at *
  split at h <;> constructor <;> omega

theorem ofInt_le (i : Int) (h : 0 ≤ i) : ofInt i ≤ i.toNat := by
  unfold ofInt
  omega

open FileHeader

theorem dataSlots_length (r : RawFileHeader) : (dataSlots r).length = r.numSectors := by
  simp [dataSlots]

theorem nested_size_le (g : Geometry) (sT : Nat)
    (h : toInt (sT + 4294967296 - g.NUM_DIRECT - 1) > 0) :
    DivRoundUp (ofInt (toInt (sT + 4294967296 - g.NUM_DIRECT - 1) * (g.SECTOR_SIZE : Int)))
      g.SECTOR_SIZE ≤ sT - g.NUM_DIRECT - 1 := by
  have hND : g.NUM_DIRECT < 2147483648 := by
    have := g.hCap
    have := g.hSector
    nlinarith
  obtain ⟨h1, h2⟩ := toInt_resto_pos sT g.NUM_DIRECT hND h
  apply DivRoundUp_le g.hSector
  set r := toInt (sT + 4294967296 - g.NUM_DIRECT - 1) with hr
  have h3 : ofInt (r * (g.SECTOR_SIZE : Int)) ≤ (r * (g.SECTOR_SIZE : Int)).toNat :=
    ofInt_le _ (by positivity)
  have h4 : (r * (g.SECTOR_SIZE : Int)).toNat = r.toNat * g.SECTOR_SIZE := by
    have : r = (r.toNat : Int) := by omega
    rw [this]
    norm_cast
  have h5 : r.toNat ≤ sT - g.NUM_DIRECT - 1 := by omega
  calc ofInt (r * (g.SECTOR_SIZE : Int)) ≤ r.toNat * g.SECTOR_SIZE := by omega
    _ ≤ (sT - g.NUM_DIRECT - 1) * g.SECTOR_SIZE := Nat.mul_le_mul_right _ h5

theorem AllocateFuel_spec (g : Geometry) (junk : FileHeader) :
    ∀ (fuel : Nat) (m : Bitmap) (this : FileHeader) (size : Nat),
      this.next = none → DivRoundUp size g.SECTOR_SIZE < fuel → m.bits.length ≤ 4294967296 →
      (m.CountClear < DivRoundUp size g.SECTOR_SIZE →
        ∃ h', AllocateFuel g junk fuel m this size = some (false, m, h')) ∧
      (DivRoundUp size g.SECTOR_SIZE ≤ m.CountClear →
        ∃ m' h', AllocateFuel g junk fuel m this size = some (true, m', h') ∧
          Bitmap.Took m m' (h'.recorded g) ∧
          (h'.recorded g).length ≤ DivRoundUp size g.SECTOR_SIZE ∧
          h'.sector = this.sector ∧ h'.Linked g) := by
  intro fuel
  induction fuel with
  | zero => intro m this size _ hf; omega
  | succ fuel ih =>
    intro m this size hnext hfuel hlen
    have hD := g.hDirect
    constructor
    · intro hlt
      simp only [AllocateFuel, hlt, if_true]
      exact ⟨_, rfl⟩
    · intro hge
      have hnlt : ¬ m.CountClear < DivRoundUp size g.SECTOR_SIZE := by omega
      by_cases hresto : toInt (DivRoundUp size g.SECTOR_SIZE + 4294967296 - g.NUM_DIRECT - 1) > 0
      · -- a next header is chained
        have hND : g.NUM_DIRECT < 2147483648 := by
          have := g.hCap
          have := g.hSector
          nlinarith
        obtain ⟨hbig, _⟩ := toInt_resto_pos _ _ hND hresto
        have hnest := nested_size_le g _ hresto
        obtain ⟨i, hfind, htook⟩ := Bitmap.Find_took m (by omega)
        have hi : i < m.bits.length := (htook.2.2.1 i (by simp)).1
        have hcount : (m.Mark i).CountClear + 1 = m.CountClear := by simpa using htook.2.2.2.2
        have hrec := (ih (m.Mark i) ((newFileHeader junk).withSector (ofInt (i : Int)))
          (ofInt (toInt (DivRoundUp size g.SECTOR_SIZE + 4294967296 - g.NUM_DIRECT - 1)
            * (g.SECTOR_SIZE : Int)))
          (by simp [newFileHeader, withSector, next]) (by omega)
          (by rw [htook.1]; exact hlen)).2 (by omega)
        obtain ⟨m2, n2, hcall, htook2, hlen2, hsec2, hlink2⟩ := hrec
        have hcount2 : m2.CountClear + (n2.recorded g).length = (m.Mark i).CountClear :=
          htook2.2.2.2.2
        have hgt : DivRoundUp size g.SECTOR_SIZE > g.NUM_DIRECT - 1 := by omega
        have hne : ((i : Int) = -1) = False := by
          simp
        have key : ∃ rawX : RawFileHeader,
            AllocateFuel g junk (fuel + 1) m this size
              = some (true, (fillSlots (g.NUM_DIRECT - 1) 0 m2 rawX).1,
                  link (fillSlots (g.NUM_DIRECT - 1) 0 m2 rawX).2 this.sector n2) ∧
            rawX.numSectors = g.NUM_DIRECT - 1 ∧ rawX.dataSectors (g.NUM_DIRECT - 1) = i := by
          exact ⟨_, by
            simp only [AllocateFuel, hnlt, hresto, hfind, if_true, if_false, hne, hcall, hgt]
            rfl, by rfl, by simp [RawFileHeader.setSlot, ofInt_natCast i (by omega)]⟩
        obtain ⟨rawX, hres, hnS, hslot⟩ := key
        obtain ⟨hf1, hf2, hf3, hf4⟩ := fillSlots_spec (g.NUM_DIRECT - 1) 0 m2 rawX
          (by omega) (by rw [htook2.1, htook.1]; exact hlen)
        have hsl : (fillSlots (g.NUM_DIRECT - 1) 0 m2 rawX).2.dataSectors (g.NUM_DIRECT - 1) = i := by
          rw [hf4 _ (Or.inr (by omega)), hslot]
        have hds : dataSlots (fillSlots (g.NUM_DIRECT - 1) 0 m2 rawX).2
            = (List.range (g.NUM_DIRECT - 1)).map
                (fun k => (fillSlots (g.NUM_DIRECT - 1) 0 m2 rawX).2.dataSectors (0 + k)) := by
          simp [dataSlots, hf3, hnS]
        refine ⟨_, _, hres, ?_, ?_, rfl, ?_⟩
        · simp only [recorded, hsl, hds]
          have := Bitmap.Took_trans htook (Bitmap.Took_trans htook2 hf1)
          simpa using this
        · simp only [recorded, List.length_cons, List.length_append, dataSlots_length, hf3, hnS]
          omega
        · refine ⟨?_, hlink2⟩
          rw [hsl, hsec2]
          simp [newFileHeader, withSector, sector, ofInt_natCast i (by omega)]
      · -- the file fits this header
        cases this with
        | link r s n => simp [next] at hnext
        | last r s =>
          have key : ∃ (nS : Nat) (rawX : RawFileHeader),
              AllocateFuel g junk (fuel + 1) m (last r s) size
                = some (true, (fillSlots nS 0 m rawX).1, last (fillSlots nS 0 m rawX).2 s) ∧
              rawX.numSectors = nS ∧ rawX.dataSectors (g.NUM_DIRECT - 1) = 0 ∧
              nS ≤ g.NUM_DIRECT - 1 ∧ nS ≤ DivRoundUp size g.SECTOR_SIZE := by
            exact ⟨_, _, by
              simp only [AllocateFuel, hnlt, hresto, if_false]
              rfl, by rfl, by simp [RawFileHeader.setSlot], by
                split <;> omega, by
                split <;> omega⟩
          obtain ⟨nS, rawX, hres, hnS, hslot, hle1, hle2⟩ := key
          obtain ⟨hf1, hf2, hf3, hf4⟩ := fillSlots_spec nS 0 m rawX (by omega) hlen
          have hds : dataSlots (fillSlots nS 0 m rawX).2
              = (List.range nS).map (fun k => (fillSlots nS 0 m rawX).2.dataSectors (0 + k)) := by
            simp [dataSlots, hf3, hnS]
          refine ⟨_, _, hres, ?_, ?_, rfl, ?_⟩
          · simp only [recorded, hds]
            exact hf1
          · simp only [recorded, dataSlots_length, hf3, hnS]
            exact hle2
          · simp only [Linked]
            rw [hf4 _ (Or.inr (by omega)), hslot]

open FileHeader

theorem mem_recorded_of_data (g : Geometry) : ∀ (h hd : FileHeader) (i : Nat),
    hd ∈ h.chain → i < hd.raw.numSectors → hd.raw.dataSectors i ∈ h.recorded g := by
  intro h
  induction h with
  | last r s =>
    intro hd i hmem hi
    simp only [chain, List.mem_singleton] at hmem
    subst hmem
    simp only [recorded, dataSlots, List.mem_map, List.mem_range]
    exact ⟨i, hi, rfl⟩
  | link r s n ih =>
    intro hd i hmem hi
    simp only [chain, List.mem_cons] at hmem
    simp only [recorded, List.mem_cons, List.mem_append]
    rcases hmem with rfl | hmem
    · right; right
      simp only [dataSlots, List.mem_map, List.mem_range]
      exact ⟨i, hi, rfl⟩
    · right; left
      exact ih hd i hmem hi

theorem mem_recorded_of_next (g : Geometry) : ∀ (h hd n : FileHeader),
    hd ∈ h.chain → hd.next = some n → hd.raw.dataSectors (g.NUM_DIRECT - 1) ∈ h.recorded g := by
  intro h
  induction h with
  | last r s =>
    intro hd n hmem hn
    simp only [chain, List.mem_singleton] at hmem
    subst hmem
    simp [next] at hn
  | link r s n' ih =>
    intro hd n hmem hn
    simp only [chain, List.mem_cons] at hmem
    simp only [recorded, List.mem_cons, List.mem_append]
    rcases hmem with rfl | hmem
    · left; rfl
    · right; left
      exact ih hd n hmem hn

theorem Linked_chain (g : Geometry) : ∀ (h hd n : FileHeader),
    h.Linked g → hd ∈ h.chain → hd.next = some n →
    hd.raw.dataSectors (g.NUM_DIRECT - 1) = n.sector := by
  intro h
  induction h with
  | last r s =>
    intro hd n _ hmem hn
    simp only [chain, List.mem_singleton] at hmem
    subst hmem
    simp [next] at hn
  | link r s n' ih =>
    intro hd n hl hmem hn
    simp only [chain, List.mem_cons] at hmem
    rcases hmem with rfl | hmem
    · simp only [next, Option.some.injEq] at hn
      subst hn
      exact hl.1
    · exact ih hd n hl.2 hmem hn

theorem Allocate_spec (g : Geometry) (junk : FileHeader) (m : Bitmap) (this : FileHeader)
    (size : Nat) (hfresh : this.next = none) (hbits : m.bits.length ≤ 4294967296) :
    (m.CountClear < DivRoundUp size g.SECTOR_SIZE →
        ∃ h', Allocate g junk m this size = some (false, m, h')) ∧
      (DivRoundUp size g.SECTOR_SIZE ≤ m.CountClear →
        ∃ m' h', Allocate g junk m this size = some (true, m', h') ∧
          Bitmap.Took m m' (h'.recorded g) ∧
          (h'.recorded g).length ≤ DivRoundUp size g.SECTOR_SIZE ∧
          h'.sector = this.sector ∧ h'.Linked g) :=
  AllocateFuel_spec g junk _ m this size hfresh (Nat.lt_succ_self _) hbits

/-- C6. Whenever `Allocate` on a fresh header returns true, every data slot in
use of every header of the resulting chain, and every next-header slot, holds
a sector below the size of the map that was clear before the call and is
marked after it; the next-header slot is the successor's sector; and no sector
is recorded twice in the chain. -/
theorem Allocate_records_fresh_distinct_sectors (g : Geometry) (junk this : FileHeader)
    (m m' : Bitmap) (fileSize : Nat) (h' : FileHeader)
    (hfresh : this.next = none) (hbits : m.bits.length ≤ 4294967296)
    (hret : Allocate g junk m this fileSize = some (true, m', h')) :
    (∀ hd ∈ h'.chain,
      (∀ i, i < hd.raw.numSectors →
        hd.raw.dataSectors i < m.bits.length ∧ m.Test (hd.raw.dataSectors i) = false ∧
          m'.Test (hd.raw.dataSectors i) = true) ∧
      (∀ n, hd.next = some n →
        hd.raw.dataSectors (g.NUM_DIRECT - 1) = n.sector ∧
        hd.raw.dataSectors (g.NUM_DIRECT - 1) < m.bits.length ∧
        m.Test (hd.raw.dataSectors (g.NUM_DIRECT - 1)) = false ∧
        m'.Test (hd.raw.dataSectors (g.NUM_DIRECT - 1)) = true)) ∧
    (h'.recorded g).Nodup := by
  obtain ⟨hlow, hhigh⟩ := Allocate_spec g junk m this fileSize hfresh hbits
  by_cases hc : m.CountClear < DivRoundUp fileSize g.SECTOR_SIZE
  · obtain ⟨h'', he⟩ := hlow hc
    rw [he] at hret
    simp at hret
  · obtain ⟨m2, h2, he, htook, _, _, hlinked⟩ := hhigh (by omega)
    rw [he] at hret
    simp only [Option.some.injEq, Prod.mk.injEq, true_and] at hret
    obtain ⟨rfl, rfl⟩ := hret
    obtain ⟨_, hnodup, hclear, htest, _⟩ := htook
    have hall : ∀ s ∈ h2.recorded g, s < m.bits.length ∧ m.Test s = false ∧ m2.Test s = true := by
      intro s hs
      refine ⟨(hclear s hs).1, (hclear s hs).2, ?_⟩
      rw [htest s]
      simp [hs]
    refine ⟨?_, hnodup⟩
    intro hd hmem
    constructor
    · intro i hi
      exact hall _ (mem_recorded_of_data g h2 hd i hmem hi)
    · intro n hn
      exact ⟨Linked_chain g h2 hd n hlinked hmem hn,
        hall _ (mem_recorded_of_next g h2 hd n hmem hn)⟩

open FileHeader

set_option maxRecDepth 100000 in
/-- Witness for C6: `Allocate(map64, 5120)` on a fresh header returns true, and
the theorem applies to its result. -/
theorem Allocate_records_fresh_distinct_sectors_witness :
    zeroHeader.next = none ∧ map64.bits.length ≤ 4294967296 ∧
    Allocate stdGeometry zeroHeader map64 zeroHeader 5120
      = some (true, allocExample.2.1, allocExample.2.2) ∧
    ((∀ hd ∈ allocExample.2.2.chain,
      (∀ i, i < hd.raw.numSectors →
        hd.raw.dataSectors i < map64.bits.length ∧ map64.Test (hd.raw.dataSectors i) = false ∧
          allocExample.2.1.Test (hd.raw.dataSectors i) = true) ∧
      (∀ n, hd.next = some n →
        hd.raw.dataSectors (stdGeometry.NUM_DIRECT - 1) = n.sector ∧
        hd.raw.dataSectors (stdGeometry.NUM_DIRECT - 1) < map64.bits.length ∧
        map64.Test (hd.raw.dataSectors (stdGeometry.NUM_DIRECT - 1)) = false ∧
        allocExample.2.1.Test (hd.raw.dataSectors (stdGeometry.NUM_DIRECT - 1)) = true)) ∧
    (allocExample.2.2.recorded stdGeometry).Nodup) :=
  ⟨rfl, by decide, by rfl,
    Allocate_records_fresh_distinct_sectors stdGeometry zeroHeader zeroHeader map64
      allocExample.2.1 5120 allocExample.2.2 rfl (by decide) (by rfl)⟩

set_option maxRecDepth 100000 in
/-- C4 (code at the failing input). `Allocate(freeMap, 5120)` with 128-byte
sectors returns true and leaves a chain of two headers whose `FileLength()` is
4864, not 5120: with `NUM_DIRECT = 30` the headers hold 3712 and 1152 bytes,
with `NUM_DIRECT = 32` they hold 3968 and 896 bytes. -/
theorem Allocate_5120_loses_two_sectors :
    (Allocate stdGeometry zeroHeader map64 zeroHeader 5120).map
        (fun r => (r.1, r.2.2.FileLength, r.2.2.chain.map (fun hd => hd.raw.numBytes)))
      = some (true, 4864, [3712, 1152]) ∧
    (Allocate specGeometry zeroHeader map64 zeroHeader 5120).map
        (fun r => (r.1, r.2.2.FileLength, r.2.2.chain.map (fun hd => hd.raw.numBytes)))
      = some (true, 4864, [3968, 896]) := by
  constructor <;> decide

set_option maxRecDepth 100000 in
/-- C4 (code at a second failing input). A file of 30 sectors (3840 bytes,
more than the 3712 one header addresses) is given a single header that claims
3840 bytes over 29 data sectors. -/
theorem Allocate_3840_single_header :
    (Allocate stdGeometry zeroHeader map64 zeroHeader 3840).map
        (fun r => (r.1, r.2.2.chain.map (fun hd => (hd.raw.numBytes, hd.raw.numSectors))))
      = some (true, [(3840, 29)]) := by
  decide

set_option maxRecDepth 100000 in
/-- C5 (code at the failing input). In a well-formed chain of two headers of
3712 and 128 bytes, offset 3839 is below `FileLength()` and lies in sector 29
of the file, which the specification places in slot 0 of the second header
(sector 200); `ByteToSector(3839)` returns slot 1 of the second header, which
is not in use (it holds 0). -/
theorem ByteToSector_off_by_one :
    twoHeaderChain.WellFormed stdGeometry ∧ 3839 < twoHeaderChain.FileLength ∧
    slotPerSpec stdGeometry twoHeaderChain 3839 = some 200 ∧
    twoHeaderChain.ByteToSector stdGeometry 3839 = some 0 := by
  refine ⟨by decide, by decide, by decide, by decide⟩

set_option maxRecDepth 100000 in
/-- C7 (code at the failing input). A file of 4096 bytes needs 32 data sectors
and one next header, 33 sectors; with only 32 sectors clear `Allocate` still
returns true (and builds a file of 3840 bytes). -/
theorem Allocate_true_with_too_few_sectors :
    map34.CountClear = 32 ∧ sectorsNeededPerSpec stdGeometry 4096 = 33 ∧
    (Allocate stdGeometry zeroHeader map34 zeroHeader 4096).map
        (fun r => (r.1, r.2.1.CountClear, r.2.2.FileLength))
      = some (true, 1, 3840) := by
  refine ⟨by decide, by decide, by decide⟩

/-- What decides the flag `Allocate` returns on a fresh header: it is false
exactly when the map has fewer clear sectors than
`DivRoundUp(fileSize, SECTOR_SIZE)`; next headers are not counted. -/
theorem Allocate_flag (g : Geometry) (junk this : FileHeader) (m : Bitmap) (fileSize : Nat)
    (hfresh : this.next = none) (hbits : m.bits.length ≤ 4294967296) :
    ∃ r, Allocate g junk m this fileSize = some r ∧
      (r.1 = false ↔ m.CountClear < DivRoundUp fileSize g.SECTOR_SIZE) := by
  obtain ⟨hlow, hhigh⟩ := Allocate_spec g junk m this fileSize hfresh hbits
  by_cases hc : m.CountClear < DivRoundUp fileSize g.SECTOR_SIZE
  · obtain ⟨h2, he⟩ := hlow hc
    exact ⟨_, he, by simp [hc]⟩
  · obtain ⟨m2, h2, he, _⟩ := hhigh (by omega)
    exact ⟨_, he, by simp [hc]⟩

/-- C1 (code at the failing input). On an empty file one `Write` of 7808 bytes
returns 7808, yet `Length()` is 7552 afterwards, so `ReadAt(buf, 7808, 0)` on
the same handle returns 7552 and cannot fill the buffer with the payload. -/
theorem Write_7808_reads_back_7552 : run7808 = some (7808, 7552, 7552) := by
  decide!

/-- C3 (code at the failing input). On an empty file one `Write` of 3713 bytes
returns 3713 and leaves `Length()` at 3840: the first header holds 3712 bytes
and the chained header is allocated for a whole sector, 128 bytes. -/
theorem Write_3713_length_3840 : run3713 = some (3713, 3840, [3712, 128]) := by
  decide!

/-- The documented run of `userland/filetest2.c`: six writes of 13 bytes leave
a file of 78 bytes in one sector. -/
theorem six_writes_of_13_bytes : runSix13 = some (78, 1) := by
  decide!

/-- C8 (code at the failing input). After `Remove("b")` on an open file and
the close of its only handle, the file's header sector and data sector are
still marked in the persisted free map, `"b"` is still an entry of the root
directory (in sector 5), and `Open("b")` returns a handle again. -/
theorem unlink_while_open_frees_nothing :
    runUnlinkWhileOpen = some ((false, true, 1), (true, true, 5, true)) := by
  decide!

/-- C2. With two handles open on one file (the second has written 10 bytes,
the first 5 bytes after it), a `WriteAt` through the second handle returns 3
while that handle holds a chain of 10 bytes and the chain fetched from the
file's header sector has 5 bytes; a handle opened afterwards reports
`Length() = 5`. -/
theorem stale_handle_chain_differs : runTwoHandles = some (3, 10, some 5, some 5) := by
  decide!

/-! ### The open-file table and the directory-use list as lists -/

theorem some_getD_of_isSome {α : Type} (x : Option α) (d : α) (h : x.isSome = true) :
    x = some (x.getD d) := by
  cases x with
  | none => simp at h
  | some v => rfl

namespace FileList

theorem Find_modify_proj {β : Type} (maxLen : Nat) (a b : Name) (f : FData → FData)
    (p : FData → β) (hname : ∀ e, (f e).name = e.name) (hp : ∀ e, p (f e) = p e) :
    ∀ l : FileList, (Find maxLen (modify maxLen a f l) b).map p = (Find maxLen l b).map p := by
  intro l
  induction l with
  | nil => rfl
  | cons fd rest ih =>
    simp only [modify]
    by_cases ha : strncmpEq a fd.name (maxLen + 1) = true
    · simp only [ha, if_true, Find, List.find?_cons, hname]
      by_cases hb : strncmpEq b fd.name (maxLen + 1) = true
      · simp [hb, hp]
      · simp [hb]
    · simp only [ha, Find, List.find?_cons, Bool.false_eq_true, if_false]
      by_cases hb : strncmpEq b fd.name (maxLen + 1) = true
      · simp [hb]
      · simp only [hb]
        exact ih

theorem Find_modify_self (maxLen : Nat) (a : Name) (f : FData → FData)
    (hname : ∀ e, (f e).name = e.name) :
    ∀ (l : FileList) (fd : FData), Find maxLen l a = some fd →
      Find maxLen (modify maxLen a f l) a = some (f fd) := by
  intro l
  induction l with
  | nil => intro fd h; simp [Find] at h
  | cons x rest ih =>
    intro fd h
    simp only [modify]
    by_cases ha : strncmpEq a x.name (maxLen + 1) = true
    · simp only [Find, List.find?_cons, ha] at h
      simp only [Option.some.injEq] at h
      subst h
      simp [Find, List.find?_cons, ha, hname]
    · simp only [Find, List.find?_cons, ha] at h
      simp only [ha, Find, List.find?_cons, Bool.false_eq_true, if_false]
      exact ih fd h

theorem modify_modify (maxLen : Nat) (a : Name) (f h : FData → FData)
    (hname : ∀ e, (h e).name = e.name) :
    ∀ l : FileList, modify maxLen a f (modify maxLen a h l) = modify maxLen a (f ∘ h) l := by
  intro l
  induction l with
  | nil => rfl
  | cons x rest ih =>
    simp only [modify]
    by_cases ha : strncmpEq a x.name (maxLen + 1) = true
    · simp [ha, modify, hname]
    · simp [ha, modify, ih]

theorem modify_eq_self (maxLen : Nat) (a : Name) (f : FData → FData) :
    ∀ (l : FileList), (∀ fd, Find maxLen l a = some fd → f fd = fd) →
      modify maxLen a f l = l := by
  intro l
  induction l with
  | nil => intro _; rfl
  | cons x rest ih =>
    intro h
    simp only [modify]
    by_cases ha : strncmpEq a x.name (maxLen + 1) = true
    · simp only [ha, if_true]
      rw [h x (by simp [Find, List.find?_cons, ha])]
    · simp only [ha]
      rw [ih (fun fd hfd => h fd (by simpa [Find, List.find?_cons, ha] using hfd))]
      simp

end FileList

namespace DirectoryList

theorem GetLock_any (l : List DNode) (id : Int) (n : DNode) (h : GetLock l id = some n) :
    l.any (fun x => Has x id) = true := by
  unfold GetLock at h
  have h1 := List.find?_some h
  have h2 := List.mem_of_find?_eq_some h
  exact List.any_eq_true.2 ⟨n, h2, h1⟩

theorem GetLock_modifyNode (id : Int) (f : DNode → DNode)
    (hHas : ∀ x, Has (f x) id = Has x id) :
    ∀ (l : List DNode) (n : DNode), GetLock l id = some n →
      GetLock (modifyNode id f l) id = some (f n) := by
  intro l
  induction l with
  | nil => intro n h; simp [GetLock] at h
  | cons x rest ih =>
    intro n h
    simp only [modifyNode]
    by_cases hx : Has x id = true
    · simp only [GetLock, List.find?_cons, hx, Option.some.injEq] at h
      subst h
      simp [GetLock, List.find?_cons, hx, hHas]
    · simp only [GetLock, List.find?_cons, hx] at h
      simp only [hx, GetLock, List.find?_cons, Bool.false_eq_true, if_false]
      exact ih n h

theorem modifyNode_modifyNode (id : Int) (f h : DNode → DNode)
    (hHas : ∀ x, Has (h x) id = Has x id) :
    ∀ l : List DNode, modifyNode id f (modifyNode id h l) = modifyNode id (f ∘ h) l := by
  intro l
  induction l with
  | nil => rfl
  | cons x rest ih =>
    simp only [modifyNode]
    by_cases hx : Has x id = true
    · simp [hx, modifyNode, hHas]
    · simp [hx, modifyNode, ih]

theorem modifyNode_eq_self (id : Int) (f : DNode → DNode) :
    ∀ (l : List DNode) (n : DNode), GetLock l id = some n → f n = n → modifyNode id f l = l := by
  intro l
  induction l with
  | nil => intro n h; simp [GetLock] at h
  | cons x rest ih =>
    intro n h hf
    simp only [modifyNode]
    by_cases hx : Has x id = true
    · simp only [GetLock, List.find?_cons, hx, Option.some.injEq] at h
      subst h
      simp [hx, hf]
    · simp only [GetLock, List.find?_cons, hx] at h
      simp only [hx]
      rw [ih n h hf]
      simp

theorem Get_eq_GetLock (l : List DNode) (id : Int) :
    Get l id = (GetLock l id).map (fun n => n.directoryFile) := rfl

end DirectoryList

open FileSystem

/-! ### The common prefix of the façade operations -/

theorem CheckDirectoryUse_of_node (g : Geometry) (L : Limits) (k : Kernel) (node : DNode)
    (hnode : DirectoryList.GetLock k.directoryList k.currentThread = some node) :
    DirectoryList.CheckDirectoryUse g L k = some k := by
  unfold DirectoryList.CheckDirectoryUse
  rw [DirectoryList.GetLock_any _ _ _ hnode]
  rfl

theorem lockDir_of_free (k : Kernel) (node : DNode)
    (hnode : DirectoryList.GetLock k.directoryList k.currentThread = some node)
    (hfree : node.dirlock = none) :
    lockDir k = some (withDirLock (some k.currentThread) k) := by
  unfold lockDir
  rw [hnode]
  simp [hfree]

theorem GetLock_withDirLock (k : Kernel) (node : DNode) (o : Option Int)
    (hnode : DirectoryList.GetLock k.directoryList k.currentThread = some node) :
    DirectoryList.GetLock (withDirLock o k).directoryList k.currentThread
      = some (node.withLock o) :=
  DirectoryList.GetLock_modifyNode k.currentThread (DNode.withLock o) (fun _ => rfl) _ _ hnode

theorem Get_withDirLock (k : Kernel) (node : DNode) (o : Option Int)
    (hnode : DirectoryList.GetLock k.directoryList k.currentThread = some node) :
    DirectoryList.Get (withDirLock o k).directoryList k.currentThread
      = some node.directoryFile := by
  rw [DirectoryList.Get_eq_GetLock, GetLock_withDirLock k node o hnode]
  rfl

theorem Get_of_node (k : Kernel) (node : DNode)
    (hnode : DirectoryList.GetLock k.directoryList k.currentThread = some node) :
    DirectoryList.Get k.directoryList k.currentThread = some node.directoryFile := by
  rw [DirectoryList.Get_eq_GetLock, hnode]
  rfl

/-- Releasing the directory lock taken by `lockDir` restores the list. -/
theorem unlockDir_of_locked (k k2 : Kernel) (node : DNode)
    (hnode : DirectoryList.GetLock k.directoryList k.currentThread = some node)
    (hfree : node.dirlock = none)
    (hthread : k2.currentThread = k.currentThread)
    (hlist : k2.directoryList = (withDirLock (some k.currentThread) k).directoryList) :
    unlockDir k2 = some (k2.withDirectoryList k.directoryList) := by
  unfold unlockDir
  rw [hlist, hthread, GetLock_withDirLock k node _ hnode]
  have h1 : (DNode.withLock (some k.currentThread) node).dirlock = some k.currentThread := rfl
  simp only [h1, if_true]
  have h2 : withDirLock none k2 = k2.withDirectoryList
      (DirectoryList.modifyNode k.currentThread (DNode.withLock none)
        (DirectoryList.modifyNode k.currentThread (DNode.withLock (some k.currentThread))
          k.directoryList)) := by
    unfold withDirLock
    rw [hlist, hthread]
    rfl
  rw [h2, DirectoryList.modifyNode_modifyNode k.currentThread (DNode.withLock none)
    (DNode.withLock (some k.currentThread)) (fun _ => rfl)]
  rw [DirectoryList.modifyNode_eq_self _ _ _ node hnode
    (by cases node; simp_all [Function.comp, DNode.withLock])]

theorem readSync_markDeleted (L : Limits) (k : Kernel) (a : Name) (file : OpenFile) :
    readSync L (markDeleted L a k) file = readSync L k file := by
  unfold readSync markDeleted Kernel.modifyEntry Kernel.withTable
  have h := FileList.Find_modify_proj L.FILE_NAME_MAX_LEN a file.fileName
    FData.withDeleted (fun e => e.condLock) (fun _ => rfl) (fun _ => rfl)
    k.listOpenFiles
  simp only []
  cases h1 : FileList.Find L.FILE_NAME_MAX_LEN
      (FileList.modify L.FILE_NAME_MAX_LEN a FData.withDeleted k.listOpenFiles)
      file.fileName <;>
    cases h2 : FileList.Find L.FILE_NAME_MAX_LEN k.listOpenFiles file.fileName <;>
    rw [h1, h2] at h <;> simp at h ⊢
  rw [h]

theorem FetchFrom_withDirLock (L : Limits) (k : Kernel) (o : Option Int) (file : OpenFile)
    (hsync : readSync L k file = true) :
    Directory.FetchFrom L (withDirLock o k) file = some (k.dirFiles file.hdr.sector) := by
  unfold Directory.FetchFrom
  have h : readSync L (withDirLock o k) file = readSync L k file := rfl
  rw [h, hsync]
  rfl

theorem FillPath_withDirLock (k : Kernel) (node : DNode) (o : Option Int) (name : Name)
    (hnode : DirectoryList.GetLock k.directoryList k.currentThread = some node) :
    FillPath (withDirLock o k) name = FillPath k name := by
  unfold FillPath
  have h1 : DirectoryList.Get (withDirLock o k).directoryList (withDirLock o k).currentThread
      = some node.directoryFile := Get_withDirLock k node o hnode
  rw [h1, Get_of_node k node hnode]

/-! ### `WriteAt` does not look at the `deleted` flag -/

namespace FileList

theorem modify_comm (maxLen : Nat) (a b : Name) (f h : FData → FData)
    (hf : ∀ e, (f e).name = e.name) (hh : ∀ e, (h e).name = e.name)
    (hcomm : ∀ e, f (h e) = h (f e)) :
    ∀ l : FileList, modify maxLen a f (modify maxLen b h l)
      = modify maxLen b h (modify maxLen a f l) := by
  intro l
  induction l with
  | nil => rfl
  | cons x rest ih =>
    by_cases ha : strncmpEq a x.name (maxLen + 1) = true <;>
      by_cases hb : strncmpEq b x.name (maxLen + 1) = true <;>
      simp [modify, ha, hb, hf, hh, hcomm, ih]

theorem Find_modify_cases (maxLen : Nat) (a b : Name) (f : FData → FData)
    (hname : ∀ e, (f e).name = e.name) :
    ∀ l : FileList,
      (Find maxLen l b = none ∧ Find maxLen (modify maxLen a f l) b = none) ∨
      ∃ fd, Find maxLen l b = some fd ∧
        (Find maxLen (modify maxLen a f l) b = some fd ∨
          Find maxLen (modify maxLen a f l) b = some (f fd)) := by
  intro l
  induction l with
  | nil => left; exact ⟨rfl, rfl⟩
  | cons x rest ih =>
    by_cases ha : strncmpEq a x.name (maxLen + 1) = true <;>
      by_cases hb : strncmpEq b x.name (maxLen + 1) = true
    · right; exact ⟨x, by simp [Find, hb], Or.inr (by simp [Find, modify, ha, hb, hname])⟩
    · have e1 : Find maxLen (x :: rest) b = Find maxLen rest b := by simp [Find, hb]
      have e2 : Find maxLen (modify maxLen a f (x :: rest)) b = Find maxLen rest b := by
        simp [Find, modify, ha, hb, hname]
      rw [e1, e2]
      cases hr : Find maxLen rest b with
      | none => left; exact ⟨rfl, rfl⟩
      | some fd => right; exact ⟨fd, rfl, Or.inl rfl⟩
    · right; exact ⟨x, by simp [Find, hb], Or.inl (by simp [Find, modify, ha, hb])⟩
    · have e1 : Find maxLen (x :: rest) b = Find maxLen rest b := by simp [Find, hb]
      have e2 : Find maxLen (modify maxLen a f (x :: rest)) b
          = Find maxLen (modify maxLen a f rest) b := by
        simp [Find, modify, ha, hb]
      rw [e1, e2]
      exact ih

end FileList

theorem setCondLock_markDeleted (L : Limits) (a name : Name) (o : Option Int) (k : Kernel) :
    setCondLock L name o (markDeleted L a k) = markDeleted L a (setCondLock L name o k) := by
  unfold setCondLock markDeleted Kernel.modifyEntry Kernel.withTable
  simp only []
  rw [FileList.modify_comm L.FILE_NAME_MAX_LEN name a (FData.withCondLock o) FData.withDeleted
    (fun _ => rfl) (fun _ => rfl) (fun _ => rfl)]

theorem writeSync_markDeleted (L : Limits) (k : Kernel) (a : Name) (file : OpenFile) :
    writeSync L (markDeleted L a k) file = writeSync L k file := by
  unfold writeSync markDeleted Kernel.modifyEntry Kernel.withTable
  simp only []
  rcases FileList.Find_modify_cases L.FILE_NAME_MAX_LEN a file.fileName FData.withDeleted
    (fun _ => rfl) k.listOpenFiles with h | ⟨fd, h1, h2 | h2⟩
  · rw [h.1, h.2]
  · rw [h1, h2]
  · rw [h1, h2]
    rfl

theorem BitmapFetchFrom_markDeleted (L : Limits) (k : Kernel) (a : Name) (file : OpenFile) :
    Bitmap.FetchFrom L (markDeleted L a k) file = Bitmap.FetchFrom L k file := by
  unfold Bitmap.FetchFrom
  rw [readSync_markDeleted]
  rfl

theorem BitmapWriteBack_markDeleted (L : Limits) (k : Kernel) (a : Name) (m : Bitmap)
    (file : OpenFile) :
    Bitmap.WriteBack L (markDeleted L a k) m file
      = (Bitmap.WriteBack L k m file).map (markDeleted L a) := by
  unfold Bitmap.WriteBack
  rw [writeSync_markDeleted]
  split <;> rfl

theorem extend_markDeleted (g : Geometry) (L : Limits) (k : Kernel) (a : Name)
    (hdr : FileHeader) (numBytes numSectors : Nat) :
    OpenFile.extend g L (markDeleted L a k) hdr numBytes numSectors
      = (OpenFile.extend g L k hdr numBytes numSectors).map
          (fun r => (r.1, markDeleted L a r.2.1, r.2.2)) := by
  unfold OpenFile.extend
  rw [BitmapFetchFrom_markDeleted]
  have hfile : (markDeleted L a k).freeMapFile = k.freeMapFile := rfl
  have hjunk : (markDeleted L a k).junk = k.junk := rfl
  rw [hfile, hjunk]
  cases Bitmap.FetchFrom L k k.freeMapFile with
  | none => rfl
  | some freeMap =>
    simp only []
    cases OpenFile.extendCore g k.junk freeMap hdr numBytes numSectors with
    | none => rfl
    | some r =>
      simp only []
      by_cases hflag : (!r.1) = true
      · simp [hflag]
      · simp only [hflag, if_false]
        have h2 : (markDeleted L a k).withDisk
              (r.2.2.1.WriteBack r.2.2.1.sector (markDeleted L a k).disk)
            = markDeleted L a (k.withDisk (r.2.2.1.WriteBack r.2.2.1.sector k.disk)) := rfl
        rw [h2, BitmapWriteBack_markDeleted]
        cases Bitmap.WriteBack L (k.withDisk (r.2.2.1.WriteBack r.2.2.1.sector k.disk))
            r.2.1 k.freeMapFile <;> rfl

theorem writeCore_markDeleted (g : Geometry) (L : Limits) (k : Kernel) (a : Name) (f : OpenFile)
    (src : Nat → Nat) (numBytes position firstSector lastSector numSectors : Nat) :
    OpenFile.writeCore g (markDeleted L a k) f src numBytes position firstSector lastSector
        numSectors
      = OpenFile.writeCore g k f src numBytes position firstSector lastSector numSectors := rfl

theorem withDisk_markDeleted (L : Limits) (k : Kernel) (a : Name) (d : Disk) :
    (markDeleted L a k).withDisk d = markDeleted L a (k.withDisk d) := rfl

/-- `WriteAt` on a kernel whose table carries one more `deleted` flag does what
it does without the flag: same count, same handle, and the same kernel up to
the flag. -/
theorem WriteAt_markDeleted (g : Geometry) (L : Limits) (k : Kernel) (a : Name) (f : OpenFile)
    (src : Nat → Nat) (numBytes position : Nat) :
    OpenFile.WriteAt g L (markDeleted L a k) f src numBytes position
      = (OpenFile.WriteAt g L k f src numBytes position).map
          (fun r => (r.1, markDeleted L a r.2.1, r.2.2)) := by
  unfold OpenFile.WriteAt
  by_cases hn : numBytes = 0
  · simp [hn]
  · simp only [hn, if_false]
    have hthread : (markDeleted L a k).currentThread = k.currentThread := rfl
    have hcases := FileList.Find_modify_cases L.FILE_NAME_MAX_LEN a f.fileName
      FData.withDeleted (fun _ => rfl) k.listOpenFiles
    have hlist : (markDeleted L a k).listOpenFiles
        = FileList.modify L.FILE_NAME_MAX_LEN a FData.withDeleted k.listOpenFiles := rfl
    rw [← hlist] at hcases
    rcases hcases with h | ⟨fd, h1, h2⟩
    · rw [h.2, h.1]
      rfl
    · have hex : ∃ fd2, FileList.Find L.FILE_NAME_MAX_LEN (markDeleted L a k).listOpenFiles
            f.fileName = some fd2 ∧ fd2.condLock = fd.condLock ∧ fd2.readings = fd.readings := by
        rcases h2 with h2 | h2
        · exact ⟨fd, h2, rfl, rfl⟩
        · exact ⟨_, h2, rfl, rfl⟩
      obtain ⟨fd2, hf2, hc, hr⟩ := hex
      rw [hf2, h1]
      simp only [hc, hr, hthread]
      by_cases hlock : fd.condLock.isSome = true
      · simp [hlock]
      · simp only [hlock, if_false]
        by_cases hread : fd.readings > 0
        · simp [hread]
        · simp only [hread, if_false, setCondLock_markDeleted, writeCore_markDeleted,
            extend_markDeleted]
          by_cases hpos : position > f.hdr.FileLength
          · simp only [hpos, if_true]
            rfl
          · simp only [hpos, if_false]
            by_cases hext : u32 (position + numBytes) > f.hdr.FileLength
            · simp only [hext, if_true]
              cases OpenFile.extend g L (setCondLock L f.fileName (some k.currentThread) k) f.hdr
                  numBytes (u32 (1 + DivRoundDown (u32 (position + numBytes - 1)) g.SECTOR_SIZE
                    + 4294967296 - DivRoundDown position g.SECTOR_SIZE)) with
              | none => rfl
              | some r =>
                obtain ⟨b, k1, h1⟩ := r
                cases b with
                | false =>
                  simp [setCondLock_markDeleted]
                | true =>
                  simp only [Option.map_some', writeCore_markDeleted]
                  cases OpenFile.writeCore g k1 { f with hdr := h1 } src
                      numBytes position (DivRoundDown position g.SECTOR_SIZE)
                      (DivRoundDown (u32 (position + numBytes - 1)) g.SECTOR_SIZE)
                      (u32 (1 + DivRoundDown (u32 (position + numBytes - 1)) g.SECTOR_SIZE
                        + 4294967296 - DivRoundDown position g.SECTOR_SIZE)) with
                  | none => rfl
                  | some d =>
                    simp [withDisk_markDeleted, setCondLock_markDeleted]
            · simp only [hext, if_false, writeCore_markDeleted]
              cases OpenFile.writeCore g (setCondLock L f.fileName (some k.currentThread) k)
                  { f with hdr := f.hdr } src
                  numBytes position (DivRoundDown position g.SECTOR_SIZE)
                  (DivRoundDown (u32 (position + numBytes - 1)) g.SECTOR_SIZE)
                  (u32 (1 + DivRoundDown (u32 (position + numBytes - 1)) g.SECTOR_SIZE
                    + 4294967296 - DivRoundDown position g.SECTOR_SIZE)) with
              | none => rfl
              | some d =>
                simp [withDisk_markDeleted, setCondLock_markDeleted]

open FileSystem

/-- The tombstone branch of `Remove` in a state whose working directory can be
fetched. If `name` is in the working directory of the calling thread and the
open-file table has an entry for its absolute path, `Remove(name)` returns
false and leaves the kernel as it was except that the entry carries the
`deleted` flag: the persisted directory, the persisted free map and the disk
are unchanged.  While the flag is set `Open(name)` returns null, and `WriteAt`
through any handle does what it does without the flag: it returns the same
count and leaves the same handle and, up to the flag, the same kernel. -/
theorem Remove_open_file_sets_deleted (g : Geometry) (L : Limits) (k : Kernel) (name abs : Name)
    (node : DNode) (fd : FData)
    (hnode : DirectoryList.GetLock k.directoryList k.currentThread = some node)
    (hfree : node.dirlock = none)
    (hsync : readSync L k node.directoryFile = true)
    (hname : Directory.Find L.FILE_NAME_MAX_LEN (k.dirFiles node.directoryFile.hdr.sector) name
      ≠ -1)
    (habs : FillPath k name = some abs)
    (hfd : FileList.Find L.FILE_NAME_MAX_LEN k.listOpenFiles abs = some fd) :
    Remove g L k name = some (false, markDeleted L abs k) ∧
    FileList.Find L.FILE_NAME_MAX_LEN (markDeleted L abs k).listOpenFiles abs
      = some fd.withDeleted ∧
    (markDeleted L abs k).dirFiles = k.dirFiles ∧
    (markDeleted L abs k).freeMap = k.freeMap ∧
    (markDeleted L abs k).disk = k.disk ∧
    Open g L (markDeleted L abs k) name = some (none, markDeleted L abs k) ∧
    (∀ (f : OpenFile) (src : Nat → Nat) (numBytes position : Nat),
      OpenFile.WriteAt g L (markDeleted L abs k) f src numBytes position
        = (OpenFile.WriteAt g L k f src numBytes position).map
            (fun r => (r.1, markDeleted L abs r.2.1, r.2.2))) := by
  have hfind : FileList.Find L.FILE_NAME_MAX_LEN (markDeleted L abs k).listOpenFiles abs
      = some fd.withDeleted :=
    FileList.Find_modify_self _ _ FData.withDeleted (fun _ => rfl) _ _ hfd
  refine ⟨?_, hfind, rfl, rfl, rfl, ?_,
    fun f src numBytes position => WriteAt_markDeleted g L k abs f src numBytes position⟩
  · unfold Remove
    have hget : DirectoryList.Get (withDirLock (some k.currentThread) k).directoryList
        (withDirLock (some k.currentThread) k).currentThread = some node.directoryFile :=
      Get_withDirLock k node _ hnode
    have hfd2 : FileList.Find L.FILE_NAME_MAX_LEN
        (withDirLock (some k.currentThread) k).listOpenFiles abs = some fd := hfd
    simp only [CheckDirectoryUse_of_node g L k node hnode, lockDir_of_free k node hnode hfree,
      Option.bind_eq_bind, Option.some_bind, hget,
      FetchFrom_withDirLock L k _ _ hsync, FillPath_withDirLock k node _ name hnode, habs,
      hname, if_false, hfd2]
    rw [unlockDir_of_locked k (markDeleted L abs (withDirLock (some k.currentThread) k)) node
      hnode hfree rfl rfl]
    rfl
  · unfold Open
    have hnode2 : DirectoryList.GetLock (markDeleted L abs k).directoryList
        (markDeleted L abs k).currentThread = some node := hnode
    have hget2 : DirectoryList.Get (markDeleted L abs k).directoryList
        (markDeleted L abs k).currentThread = some node.directoryFile := Get_of_node k node hnode
    have hfetch : Directory.FetchFrom L (markDeleted L abs k) node.directoryFile
        = some (k.dirFiles node.directoryFile.hdr.sector) := by
      unfold Directory.FetchFrom
      rw [readSync_markDeleted, hsync]
      rfl
    have hfill : FillPath (markDeleted L abs k) name = some abs := habs
    simp only [CheckDirectoryUse_of_node g L _ node hnode2, Option.bind_eq_bind,
      Option.some_bind, hget2, hfetch, hfill, hfind]
    simp [FData.withDeleted]

/-- The tombstone branch of `Remove` on the state after `Create("b", 0)` and `Open("b")` on the
formatted disk. -/
theorem Remove_open_file_sets_deleted_witness :
    DirectoryList.GetLock openB.2.directoryList openB.2.currentThread = some openBNode ∧
    openBNode.dirlock = none ∧
    readSync stdLimits openB.2 openBNode.directoryFile = true ∧
    Directory.Find stdLimits.FILE_NAME_MAX_LEN
      (openB.2.dirFiles openBNode.directoryFile.hdr.sector) ['b'] ≠ -1 ∧
    FillPath openB.2 ['b'] = some ['/', 'b'] ∧
    FileList.Find stdLimits.FILE_NAME_MAX_LEN openB.2.listOpenFiles ['/', 'b'] = some openBEntry ∧
    Remove stdGeometry stdLimits openB.2 ['b']
      = some (false, markDeleted stdLimits ['/', 'b'] openB.2) ∧
    Open stdGeometry stdLimits (markDeleted stdLimits ['/', 'b'] openB.2) ['b']
      = some (none, markDeleted stdLimits ['/', 'b'] openB.2) ∧
    (openB.1.WriteAt stdGeometry stdLimits (markDeleted stdLimits ['/', 'b'] openB.2)
      (fun _ => 120) 1 0).map (fun r => r.1) = some 1 :=
  have h1 : DirectoryList.GetLock openB.2.directoryList openB.2.currentThread = some openBNode :=
    some_getD_of_isSome _ _ (by decide!)
  have h2 : openBNode.dirlock = none := by decide!
  have h3 : readSync stdLimits openB.2 openBNode.directoryFile = true := by decide!
  have h4 : Directory.Find stdLimits.FILE_NAME_MAX_LEN
      (openB.2.dirFiles openBNode.directoryFile.hdr.sector) ['b'] ≠ -1 := by decide!
  have h5 : FillPath openB.2 ['b'] = some ['/', 'b'] := by decide!
  have h6 : FileList.Find stdLimits.FILE_NAME_MAX_LEN openB.2.listOpenFiles ['/', 'b']
      = some openBEntry := some_getD_of_isSome _ _ (by decide!)
  have h := Remove_open_file_sets_deleted stdGeometry stdLimits openB.2 ['b'] ['/', 'b']
    openBNode openBEntry h1 h2 h3 h4 h5 h6
  ⟨h1, h2, h3, h4, h5, h6, h.1, h.2.2.2.2.2.1, by decide!⟩

/-! ### `Deallocate` -/

namespace Bitmap

theorem Test_Clear (m : Bitmap) (i j : Nat) :
    (m.Clear i).Test j = (m.Test j && !decide (j = i)) := by
  unfold Clear Test
  simp only [List.getD_eq_getElem?_getD, List.getElem?_set]
  by_cases hji : j = i
  · subst hji
    by_cases hlt : j < m.bits.length
    · simp [hlt]
    · simp [hlt, List.getElem?_eq_none (Nat.le_of_not_lt hlt)]
  · simp [hji, Ne.symm hji]

theorem length_Clear (m : Bitmap) (i : Nat) : (m.Clear i).bits.length = m.bits.length := by
  simp [Clear]

end Bitmap

theorem clearSlots_spec (r : RawFileHeader) : ∀ (n i : Nat) (m : Bitmap),
    ((List.range' i n).map r.dataSectors).Nodup →
    (∀ s ∈ (List.range' i n).map r.dataSectors, m.Test s = true) →
    ∃ m2, clearSlots r n i m = some m2 ∧ m2.bits.length = m.bits.length ∧
      ∀ j, m2.Test j = (m.Test j && !decide (j ∈ (List.range' i n).map r.dataSectors)) := by
  intro n
  induction n with
  | zero =>
    intro i m _ _
    exact ⟨m, rfl, rfl, by simp⟩
  | succ n ih =>
    intro i m hnd hmk
    simp only [List.range'_succ, List.map_cons, List.nodup_cons] at hnd
    have hhead : m.Test (r.dataSectors i) = true := hmk _ (by simp [List.range'_succ])
    have hrest : ∀ s ∈ (List.range' (i + 1) n).map r.dataSectors,
        (m.Clear (r.dataSectors i)).Test s = true := by
      intro s hs
      rw [Bitmap.Test_Clear, hmk s (by simp only [List.range'_succ, List.map_cons]; exact List.mem_cons_of_mem _ hs)]
      have : s ≠ r.dataSectors i := by
        intro he
        rw [he] at hs
        exact hnd.1 hs
      simp [this]
    obtain ⟨m2, h1, h2, h3⟩ := ih (i + 1) (m.Clear (r.dataSectors i)) hnd.2 hrest
    refine ⟨m2, ?_, ?_, ?_⟩
    · simp only [clearSlots, hhead, if_true]
      exact h1
    · rw [h2, Bitmap.length_Clear]
    · intro j
      rw [h3 j, Bitmap.Test_Clear]
      simp only [List.range'_succ, List.map_cons, List.mem_cons]
      by_cases hj : j = r.dataSectors i <;> simp [hj, Bool.and_assoc]

theorem dataSlots_eq_range' (r : RawFileHeader) :
    dataSlots r = (List.range' 0 r.numSectors).map r.dataSectors := by
  unfold dataSlots
  rw [List.range_eq_range']

/-- `Deallocate` on a chain whose data sectors and next-header sectors are
pairwise distinct and marked returns, and clears exactly those sectors. -/
theorem Deallocate_spec : ∀ (h : FileHeader) (m : Bitmap),
    h.owned.Nodup → (∀ s ∈ h.owned, m.Test s = true) →
    ∃ m2, h.Deallocate m = some m2 ∧ m2.bits.length = m.bits.length ∧
      ∀ j, m2.Test j = (m.Test j && !decide (j ∈ h.owned)) := by
  intro h
  induction h with
  | last r s =>
    intro m hnd hmk
    simp only [FileHeader.owned, dataSlots_eq_range'] at hnd hmk ⊢
    simp only [FileHeader.Deallocate]
    exact clearSlots_spec r r.numSectors 0 m hnd hmk
  | link r s n ih =>
    intro m hnd hmk
    simp only [FileHeader.owned, dataSlots_eq_range'] at hnd hmk ⊢
    rw [List.nodup_append] at hnd
    obtain ⟨hnd1, hnd2, hdisj⟩ := hnd
    rw [List.nodup_cons] at hnd2
    obtain ⟨m1, h1, h2, h3⟩ := clearSlots_spec r r.numSectors 0 m hnd1
      (fun s hs => hmk s (List.mem_append_left _ hs))
    have hmk2 : ∀ s ∈ n.owned, (m1.Clear n.sector).Test s = true := by
      intro s hs
      rw [Bitmap.Test_Clear, h3 s, hmk s (List.mem_append_right _ (List.mem_cons_of_mem _ hs))]
      have hne : s ≠ n.sector := by
        intro he
        rw [he] at hs
        exact hnd2.1 hs
      have hnot : s ∉ (List.range' 0 r.numSectors).map r.dataSectors := by
        intro hin
        exact hdisj hin (List.mem_cons_of_mem _ hs)
      simp [hne, hnot]
    obtain ⟨m2, h4, h5, h6⟩ := ih (m1.Clear n.sector) hnd2.2 hmk2
    refine ⟨m2, ?_, ?_, ?_⟩
    · simp only [FileHeader.Deallocate, h1]
      exact h4
    · rw [h5, Bitmap.length_Clear, h2]
    · intro j
      rw [h6 j, Bitmap.Test_Clear, h3 j]
      simp only [List.mem_append, List.mem_cons]
      by_cases ha : j ∈ (List.range' 0 r.numSectors).map r.dataSectors <;>
        by_cases hb : j = n.sector <;> by_cases hc : j ∈ n.owned <;> simp [ha, hb, hc]

open FileSystem

/-! ### Physical removal -/

theorem readSync_of_writeSync (L : Limits) (k : Kernel) (file : OpenFile)
    (h : writeSync L k file = true) : readSync L k file = true := by
  unfold writeSync at h
  unfold readSync
  cases hf : FileList.Find L.FILE_NAME_MAX_LEN k.listOpenFiles file.fileName with
  | none => simp [hf] at h
  | some fd =>
    simp only [hf, Bool.and_eq_true] at h
    simp [h.1]

namespace Directory

theorem erase_of_find (maxLen : Nat) (name : Name) :
    ∀ (t : List DirectoryEntry) (e : DirectoryEntry),
      List.find? (fun x => x.inUse && strncmpEq x.name name maxLen) t = some e →
      List.countP (fun x => x.inUse && strncmpEq x.name name maxLen) t ≤ 1 →
      ∃ t2, erase maxLen name t = some t2 ∧
        List.find? (fun x => x.inUse && strncmpEq x.name name maxLen) t2 = none := by
  intro t
  induction t with
  | nil => intro e h; simp at h
  | cons x rest ih =>
    intro e h hc
    by_cases hx : (x.inUse && strncmpEq x.name name maxLen) = true
    · refine ⟨{ x with inUse := false } :: rest, by simp [erase, hx], ?_⟩
      rw [List.countP_cons] at hc
      simp only [hx, if_true] at hc
      have h0 : List.countP (fun x => x.inUse && strncmpEq x.name name maxLen) rest = 0 := by
        omega
      rw [List.countP_eq_zero] at h0
      rw [List.find?_cons]
      simp only [Bool.false_and]
      rw [List.find?_eq_none]
      exact h0
    · rw [List.find?_cons] at h
      simp only [hx] at h
      rw [List.countP_cons] at hc
      simp only [hx, Bool.false_eq_true, if_false, Nat.add_zero] at hc
      obtain ⟨t2, h1, h2⟩ := ih e h hc
      refine ⟨x :: t2, by simp [erase, hx, h1], ?_⟩
      rw [List.find?_cons]
      simp only [hx]
      exact h2

theorem Remove_then_Find (maxLen : Nat) (dir : Directory) (name : Name) (e : DirectoryEntry)
    (hfind : FindEntry maxLen dir name = some e)
    (hunique : List.countP (fun x => x.inUse && strncmpEq x.name name maxLen) dir.table ≤ 1) :
    Find maxLen (Remove maxLen dir name).2 name = -1 := by
  obtain ⟨t2, h1, h2⟩ := erase_of_find maxLen name dir.table e hfind hunique
  simp [Remove, h1, Find, FindEntry, h2]

end Directory

/-- The physical removal in a state that is consistent for the file. For a file name in the working directory of the calling thread with
no entry in the open-file table, whose stored header chain ends and records
pairwise distinct, marked sectors, `Remove(name)` returns true; afterwards
`Open(name)` returns null, the header sector and every data and next-header
sector of the file are clear in the persisted free map, and no other bit of
the map has changed. -/
theorem Remove_closed_file_frees_sectors (g : Geometry) (L : Limits) (k : Kernel)
    (name abs : Name) (node : DNode) (e : DirectoryEntry) (fileH : FileHeader)
    (hnode : DirectoryList.GetLock k.directoryList k.currentThread = some node)
    (hfree : node.dirlock = none)
    (hdirsync : writeSync L k node.directoryFile = true)
    (hmapsync : writeSync L k k.freeMapFile = true)
    (hentry : Directory.FindEntry L.FILE_NAME_MAX_LEN
      (k.dirFiles node.directoryFile.hdr.sector) name = some e)
    (hsector : e.sector < 4294967296)
    (hunique : List.countP (fun x => x.inUse && strncmpEq x.name name L.FILE_NAME_MAX_LEN)
      (k.dirFiles node.directoryFile.hdr.sector).table ≤ 1)
    (habs : FillPath k name = some abs)
    (hclosed : FileList.Find L.FILE_NAME_MAX_LEN k.listOpenFiles abs = none)
    (hchain : FileHeader.FetchFromFuel g k.disk (L.NUM_SECTORS + 1) e.sector k.junk.sector
      = some fileH)
    (hdistinct : fileH.owned.Nodup)
    (hmarked : ∀ s ∈ fileH.owned, k.freeMap.Test s = true) :
    ∃ k2, Remove g L k name = some (true, k2) ∧
      Open g L k2 name = some (none, k2) ∧
      (∀ s, s = e.sector ∨ s ∈ fileH.owned → k2.freeMap.Test s = false) ∧
      (∀ s, s ≠ e.sector → s ∉ fileH.owned → k2.freeMap.Test s = k.freeMap.Test s) ∧
      k2.freeMap.bits.length = k.freeMap.bits.length := by
  obtain ⟨m1, hdealloc, hlen1, htest1⟩ := Deallocate_spec fileH k.freeMap hdistinct hmarked
  have hsync := readSync_of_writeSync L k _ hdirsync
  have hFind : Directory.Find L.FILE_NAME_MAX_LEN (k.dirFiles node.directoryFile.hdr.sector) name
      = (e.sector : Int) := by
    simp [Directory.Find, hentry]
  have hofInt : ofInt (e.sector : Int) = e.sector := ofInt_natCast _ hsector
  have hne : ((e.sector : Int) = -1) = False := by
    simp only [eq_iff_iff, iff_false]
    omega
  let k2 : Kernel :=
    ((((withDirLock (some k.currentThread) k).withFreeMap (m1.Clear e.sector)).withDir
      node.directoryFile.hdr.sector
      (Directory.Remove L.FILE_NAME_MAX_LEN (k.dirFiles node.directoryFile.hdr.sector)
        name).2).withDirectoryList k.directoryList)
  refine ⟨k2, ?_, ?_, ?_, ?_, ?_⟩
  · unfold Remove
    have hget : DirectoryList.Get (withDirLock (some k.currentThread) k).directoryList
        (withDirLock (some k.currentThread) k).currentThread = some node.directoryFile :=
      Get_withDirLock k node _ hnode
    have hfd2 : FileList.Find L.FILE_NAME_MAX_LEN
        (withDirLock (some k.currentThread) k).listOpenFiles abs = none := hclosed
    have hdisk : (withDirLock (some k.currentThread) k).disk = k.disk := rfl
    have hjunk : (withDirLock (some k.currentThread) k).junk = k.junk := rfl
    have hfile : (withDirLock (some k.currentThread) k).freeMapFile = k.freeMapFile := rfl
    have hfetchmap : Bitmap.FetchFrom L (withDirLock (some k.currentThread) k) k.freeMapFile
        = some k.freeMap := by
      unfold Bitmap.FetchFrom
      have h : readSync L (withDirLock (some k.currentThread) k) k.freeMapFile
          = readSync L k k.freeMapFile := rfl
      rw [h, readSync_of_writeSync L k _ hmapsync]
      rfl
    have hwb1 : Bitmap.WriteBack L (withDirLock (some k.currentThread) k) (m1.Clear e.sector)
        k.freeMapFile
        = some ((withDirLock (some k.currentThread) k).withFreeMap (m1.Clear e.sector)) := by
      unfold Bitmap.WriteBack
      have h : writeSync L (withDirLock (some k.currentThread) k) k.freeMapFile
          = writeSync L k k.freeMapFile := rfl
      rw [h, hmapsync]
      rfl
    have hwb2 : Directory.WriteBack L
        ((withDirLock (some k.currentThread) k).withFreeMap (m1.Clear e.sector))
        (Directory.Remove L.FILE_NAME_MAX_LEN (k.dirFiles node.directoryFile.hdr.sector) name).2
        node.directoryFile
        = some (((withDirLock (some k.currentThread) k).withFreeMap (m1.Clear e.sector)).withDir
            node.directoryFile.hdr.sector
            (Directory.Remove L.FILE_NAME_MAX_LEN (k.dirFiles node.directoryFile.hdr.sector)
              name).2) := by
      unfold Directory.WriteBack
      have h : writeSync L
          ((withDirLock (some k.currentThread) k).withFreeMap (m1.Clear e.sector))
          node.directoryFile = writeSync L k node.directoryFile := rfl
      rw [h, hdirsync]
      rfl
    simp only [CheckDirectoryUse_of_node g L k node hnode, lockDir_of_free k node hnode hfree,
      Option.bind_eq_bind, Option.some_bind, hget,
      FetchFrom_withDirLock L k _ _ hsync, FillPath_withDirLock k node _ name hnode, habs,
      hFind, hne, if_false, hfd2, hofInt, hdisk, hjunk, hfile, hchain, hfetchmap, hdealloc,
      hwb1, hwb2]
    rw [unlockDir_of_locked k
      (((withDirLock (some k.currentThread) k).withFreeMap (m1.Clear e.sector)).withDir
        node.directoryFile.hdr.sector
        (Directory.Remove L.FILE_NAME_MAX_LEN (k.dirFiles node.directoryFile.hdr.sector)
          name).2) node hnode hfree rfl rfl]
    rfl
  · unfold Open
    have hnode2 : DirectoryList.GetLock k2.directoryList k2.currentThread = some node := hnode
    have hget2 : DirectoryList.Get k2.directoryList k2.currentThread
        = some node.directoryFile := Get_of_node k node hnode
    have hfetch : Directory.FetchFrom L k2 node.directoryFile
        = some (Directory.Remove L.FILE_NAME_MAX_LEN
            (k.dirFiles node.directoryFile.hdr.sector) name).2 := by
      unfold Directory.FetchFrom
      have h : readSync L k2 node.directoryFile = readSync L k node.directoryFile := rfl
      rw [h, hsync]
      simp [k2, Kernel.withDirectoryList, Kernel.withDir]
    have hfill : FillPath k2 name = some abs := habs
    simp only [CheckDirectoryUse_of_node g L _ node hnode2, Option.bind_eq_bind,
      Option.some_bind, hget2, hfetch, hfill,
      Directory.Remove_then_Find _ _ _ e hentry hunique]
    simp
  · intro s hs
    show (m1.Clear e.sector).Test s = false
    rw [Bitmap.Test_Clear, htest1 s]
    rcases hs with hs | hs
    · simp [hs]
    · simp [hs]
  · intro s hs1 hs2
    show (m1.Clear e.sector).Test s = k.freeMap.Test s
    rw [Bitmap.Test_Clear, htest1 s]
    simp [hs1, hs2]
  · show (m1.Clear e.sector).bits.length = k.freeMap.bits.length
    rw [Bitmap.length_Clear, hlen1]

open FileSystem

/-- The physical removal on the state after `Create("c", 300)` on the formatted disk;
the file has its header in sector 5 and its data in sectors 6, 7 and 8. -/
theorem Remove_closed_file_frees_sectors_witness :
    closedCEntry.sector = 5 ∧ closedCHeader.owned = [6, 7, 8] ∧
    (∀ s ∈ [5, 6, 7, 8], closedC.freeMap.Test s = true) ∧
    ∃ k2, Remove stdGeometry stdLimits closedC ['c'] = some (true, k2) ∧
      Open stdGeometry stdLimits k2 ['c'] = some (none, k2) ∧
      (∀ s, s = closedCEntry.sector ∨ s ∈ closedCHeader.owned → k2.freeMap.Test s = false) ∧
      (∀ s, s ≠ closedCEntry.sector → s ∉ closedCHeader.owned →
        k2.freeMap.Test s = closedC.freeMap.Test s) ∧
      k2.freeMap.bits.length = closedC.freeMap.bits.length :=
  ⟨by decide!, by decide!, by decide!,
    Remove_closed_file_frees_sectors stdGeometry stdLimits closedC ['c'] ['/', 'c']
      closedCNode closedCEntry closedCHeader
      (some_getD_of_isSome _ _ (by decide!)) (by decide!) (by decide!) (by decide!)
      (some_getD_of_isSome _ _ (by decide!)) (by decide!) (by decide!) (by decide!) (by decide!)
      (some_getD_of_isSome _ _ (by decide!)) (by decide!) (by decide!)⟩

/-! ### Chains stored on disk -/

namespace FileHeader

theorem LinkCount_setTail : ∀ (h t : FileHeader),
    (h.setTail t).LinkCount = h.LinkCount + t.LinkCount := by
  intro h t
  induction h with
  | last r s => simp [setTail, LinkCount]
  | link r s n ih => simp [setTail, LinkCount, ih]; omega

theorem withSector_self : ∀ h : FileHeader, h.withSector h.sector = h := by
  intro h
  cases h <;> rfl

theorem tail_sector_mem : ∀ h : FileHeader, h.tail.sector ∈ h.headerSectors := by
  intro h
  induction h with
  | last r s => simp [tail, sector, headerSectors]
  | link r s n ih => simp [tail, headerSectors, ih]

theorem sector_mem_headerSectors : ∀ h : FileHeader, h.sector ∈ h.headerSectors := by
  intro h
  cases h <;> simp [sector, headerSectors]

theorem sector_setTail_withRaw : ∀ (h : FileHeader) (r2 : RawFileHeader),
    (h.setTail (h.tail.withRaw r2)).sector = h.sector := by
  intro h r2
  cases h <;> simp [setTail, tail, withRaw, sector]

theorem headerSectors_setTail : ∀ (h : FileHeader) (r2 : RawFileHeader),
    (h.setTail (h.tail.withRaw r2)).headerSectors = h.headerSectors := by
  intro h r2
  induction h with
  | last r s => simp [setTail, tail, withRaw, headerSectors]
  | link r s n ih =>
    simp only [setTail, tail, headerSectors]
    rw [ih]

theorem OnDisk_congr (g : Geometry) (d d2 : Disk) : ∀ h : FileHeader,
    (∀ s ∈ h.headerSectors, d2 s = d s) → OnDisk g d h → OnDisk g d2 h := by
  intro h
  induction h with
  | last r s =>
    intro hs hd
    simp only [OnDisk, headerSectors] at *
    rw [hs s (by simp)]
    exact hd
  | link r s n ih =>
    intro hs hd
    simp only [OnDisk, headerSectors] at *
    rw [hs s (by simp)]
    exact ⟨hd.1, hd.2.1, hd.2.2.1, ih (fun x hx => hs x (by simp [hx])) hd.2.2.2⟩

theorem OnDisk_inj (g : Geometry) (d : Disk) : ∀ a b : FileHeader,
    OnDisk g d a → OnDisk g d b → a.sector = b.sector → a = b := by
  intro a
  induction a with
  | last r s =>
    intro b ha hb hs
    cases b with
    | last r2 s2 =>
      simp only [OnDisk, sector] at *
      subst hs
      rw [← ha.1, ← hb.1]
    | link r2 s2 n2 =>
      simp only [OnDisk, sector] at *
      subst hs
      have h1 : r = r2 := by rw [← ha.1, ← hb.1]
      subst h1
      exact absurd (hb.2.1.symm.trans ha.2) hb.2.2.1
  | link r s n ih =>
    intro b ha hb hs
    cases b with
    | last r2 s2 =>
      simp only [OnDisk, sector] at *
      subst hs
      have h1 : r = r2 := by rw [← ha.1, ← hb.1]
      subst h1
      exact absurd (ha.2.1.symm.trans hb.2) ha.2.2.1
    | link r2 s2 n2 =>
      simp only [OnDisk, sector] at *
      subst hs
      have h1 : r = r2 := by rw [← ha.1, ← hb.1]
      subst h1
      have h2 : n = n2 := ih n2 ha.2.2.2 hb.2.2.2 (ha.2.1.symm.trans hb.2.1)
      rw [h2]

theorem mem_headerSectors_of_onDisk (g : Geometry) (d : Disk) : ∀ (h : FileHeader) (s : Nat),
    OnDisk g d h → s ∈ h.headerSectors →
    ∃ m, OnDisk g d m ∧ m.sector = s ∧ m.LinkCount ≤ h.LinkCount := by
  intro h
  induction h with
  | last r s0 =>
    intro s hd hs
    simp only [headerSectors, List.mem_singleton] at hs
    exact ⟨last r s0, hd, hs.symm, Nat.le_refl _⟩
  | link r s0 n ih =>
    intro s hd hs
    simp only [headerSectors, List.mem_cons] at hs
    rcases hs with hs | hs
    · exact ⟨link r s0 n, hd, hs.symm, Nat.le_refl _⟩
    · obtain ⟨m, h1, h2, h3⟩ := ih s hd.2.2.2 hs
      exact ⟨m, h1, h2, by simp only [LinkCount]; omega⟩

theorem headerSectors_nodup (g : Geometry) (d : Disk) : ∀ h : FileHeader,
    OnDisk g d h → h.headerSectors.Nodup := by
  intro h
  induction h with
  | last r s => intro _; simp [headerSectors]
  | link r s n ih =>
    intro hd
    simp only [headerSectors, List.nodup_cons]
    refine ⟨?_, ih hd.2.2.2⟩
    intro hs
    obtain ⟨m, h1, h2, h3⟩ := mem_headerSectors_of_onDisk g d n s hd.2.2.2 hs
    have := OnDisk_inj g d (link r s n) m hd h1 h2.symm
    rw [← this] at h3
    simp only [LinkCount] at h3
    omega

theorem OnDisk_setTail (g : Geometry) (d : Disk) (r2 : RawFileHeader) : ∀ h : FileHeader,
    OnDisk g d h → h.headerSectors.Nodup →
    r2.dataSectors (g.NUM_DIRECT - 1) = h.tail.raw.dataSectors (g.NUM_DIRECT - 1) →
    OnDisk g (d.write h.tail.sector (.header r2)) (h.setTail (h.tail.withRaw r2)) := by
  intro h
  induction h with
  | last r s =>
    intro hd _ hr
    simp only [OnDisk, setTail, tail, withRaw, sector, raw, Disk.write, if_true,
      SectorData.asHeader] at *
    exact ⟨trivial, hr.trans hd.2⟩
  | link r s n ih =>
    intro hd hn hr
    simp only [headerSectors, List.nodup_cons] at hn
    have hne : s ≠ n.tail.sector := fun e => hn.1 (e ▸ tail_sector_mem n)
    simp only [OnDisk, setTail, tail, Disk.write, hne, if_false] at *
    refine ⟨hd.1, ?_, ?_, ih hd.2.2.2 hn.2 hr⟩
    · rw [sector_setTail_withRaw]; exact hd.2.1
    · rw [sector_setTail_withRaw]; exact hd.2.2.1

theorem SlotsAvoid_tail (g : Geometry) (S : List Nat) : ∀ h : FileHeader,
    SlotsAvoid g S h → ∀ i < g.NUM_DIRECT - 1, h.tail.raw.dataSectors i ∉ S := by
  intro h
  induction h with
  | last r s => intro hs; exact hs
  | link r s n ih => intro hs; exact ih hs.2

theorem SlotsAvoid_setTail (g : Geometry) (S : List Nat) (r2 : RawFileHeader) :
    ∀ h : FileHeader, SlotsAvoid g S h → (∀ i < g.NUM_DIRECT - 1, r2.dataSectors i ∉ S) →
    SlotsAvoid g S (h.setTail (h.tail.withRaw r2)) := by
  intro h
  induction h with
  | last r s => intro _ h2; exact h2
  | link r s n ih => intro hs h2; exact ⟨hs.1, ih hs.2 h2⟩

theorem ByteToSector_avoid (g : Geometry) (S : List Nat) : ∀ (h : FileHeader) (off s : Nat),
    SlotsAvoid g S h → ByteToSector g h off = some s → s ∉ S := by
  have hpos : 0 < (g.NUM_DIRECT - 1) * g.SECTOR_SIZE :=
    Nat.mul_pos (by have := g.hDirect; omega) g.hSector
  have hidx : ∀ off, ¬ off > (g.NUM_DIRECT - 1) * g.SECTOR_SIZE - 1 →
      off / g.SECTOR_SIZE < g.NUM_DIRECT - 1 := by
    intro off ho
    rw [Nat.div_lt_iff_lt_mul g.hSector]
    omega
  intro h
  induction h with
  | last r s0 =>
    intro off s hs hb
    simp only [ByteToSector] at hb
    split at hb
    · simp at hb
    · rename_i ho
      simp only [Option.some.injEq] at hb
      rw [← hb]
      exact hs _ (hidx off ho)
  | link r s0 n ih =>
    intro off s hs hb
    simp only [ByteToSector] at hb
    split at hb
    · exact ih _ s hs.2 hb
    · rename_i ho
      simp only [Option.some.injEq] at hb
      rw [← hb]
      exact hs.1 _ (hidx off ho)

theorem fetch_of_onDisk (g : Geometry) (d : Disk) : ∀ (h : FileHeader) (fuel : Nat),
    OnDisk g d h → h.LinkCount < fuel → FetchFromFuel g d fuel h.sector h.sector = some h := by
  intro h
  induction h with
  | last r s =>
    intro fuel hd hf
    cases fuel with
    | zero => omega
    | succ fuel =>
      simp only [OnDisk] at hd
      simp only [FetchFromFuel, sector, hd.1, hd.2, ne_eq, not_true_eq_false, if_false]
  | link r s n ih =>
    intro fuel hd hf
    cases fuel with
    | zero => omega
    | succ fuel =>
      simp only [OnDisk] at hd
      simp only [LinkCount] at hf
      have h1 := ih fuel hd.2.2.2 (by omega)
      show FetchFromFuel g d (fuel + 1) s s = some (link r s n)
      simp only [FetchFromFuel, hd.1, hd.2.1, ne_eq, hd.2.2.1, not_false_eq_true,
        if_true, h1]

theorem onDisk_of_fetch (g : Geometry) (d : Disk) : ∀ (fuel s own : Nat) (h : FileHeader),
    FetchFromFuel g d fuel s own = some h →
    OnDisk g d (h.withSector s) ∧ h.sector = own ∧ h.LinkCount < fuel := by
  intro fuel
  induction fuel with
  | zero => intro s own h hf; simp [FetchFromFuel] at hf
  | succ fuel ih =>
    intro s own h hf
    simp only [FetchFromFuel] at hf
    split at hf
    · rename_i hne
      split at hf
      · simp at hf
      · rename_i n hn
        simp only [Option.some.injEq] at hf
        subst hf
        obtain ⟨h1, h2, h3⟩ := ih _ _ n hn
        rw [← h2, withSector_self] at h1
        refine ⟨?_, rfl, by simp only [LinkCount]; omega⟩
        simp only [withSector, OnDisk]
        exact ⟨trivial, h2.symm, by rw [h2]; exact hne, h1⟩
    · rename_i hne
      simp only [Option.some.injEq] at hf
      subst hf
      refine ⟨?_, rfl, by simp [LinkCount]⟩
      simp only [withSector, OnDisk]
      exact ⟨trivial, by simpa using hne⟩

end FileHeader

/-! ### What a write does to the stored chain -/

theorem writeSectors_agree (g : Geometry) (hdr : FileHeader) (fs : Nat) (buf : Nat → Nat)
    (S : List Nat) (hs : hdr.SlotsAvoid g S) :
    ∀ (n i : Nat) (d d2 : Disk), writeSectors g hdr fs buf n i d = some d2 →
      ∀ s ∈ S, d2 s = d s := by
  intro n
  induction n with
  | zero =>
    intro i d d2 h s _
    simp only [writeSectors, Option.some.injEq] at h
    rw [h]
  | succ n ih =>
    intro i d d2 h s hsS
    simp only [writeSectors] at h
    split at h
    · simp at h
    · rename_i t ht
      rw [ih _ _ _ h s hsS]
      have hne := FileHeader.ByteToSector_avoid g S hdr _ t hs ht
      simp only [Disk.write]
      rw [if_neg]
      intro e
      exact hne (e ▸ hsS)

theorem writeCore_agree (g : Geometry) (k : Kernel) (f : OpenFile) (src : Nat → Nat)
    (nb pos fs ls ns : Nat) (S : List Nat) (d2 : Disk) (hs : f.hdr.SlotsAvoid g S)
    (h : OpenFile.writeCore g k f src nb pos fs ls ns = some d2) : ∀ s ∈ S, d2 s = k.disk s := by
  unfold OpenFile.writeCore at h
  simp only at h
  split at h
  · simp at h
  · split at h
    · simp at h
    · exact writeSectors_agree g f.hdr fs _ S hs _ _ _ _ h

namespace FileHeader

theorem withRaw_raw : ∀ h : FileHeader, h.withRaw h.raw = h := by
  intro h
  cases h <;> rfl

theorem WriteBack_tail_withRaw : ∀ (h : FileHeader) (r2 : RawFileHeader) (s : Nat) (d : Disk),
    (h.tail.withRaw r2).WriteBack s d = d.write s (.header r2) := by
  intro h
  induction h with
  | last r s0 => intro r2 s d; rfl
  | link r s0 n ih => intro r2 s d; exact ih r2 s d

theorem sector_tail_withRaw : ∀ (h : FileHeader) (r2 : RawFileHeader),
    (h.tail.withRaw r2).sector = h.tail.sector := by
  intro h
  induction h with
  | last r s0 => intro r2; rfl
  | link r s0 n ih => intro r2; exact ih r2

theorem UpdateRaw_spec (g : Geometry) (m : Bitmap) (this : FileHeader) (size : Nat)
    (hm : m.bits.length ≤ 4294967296) (h : (UpdateRaw g m this size).1 = true) :
    ∃ r2, (UpdateRaw g m this size).2.2 = this.withRaw r2 ∧
      r2.dataSectors (g.NUM_DIRECT - 1) = this.raw.dataSectors (g.NUM_DIRECT - 1) ∧
      ∀ i, r2.dataSectors i = this.raw.dataSectors i ∨ m.Test (r2.dataSectors i) = false := by
  unfold UpdateRaw at h ⊢
  simp only at h ⊢
  generalize hT : (if (g.NUM_DIRECT - 1) * g.SECTOR_SIZE < u32 (this.raw.numBytes + size)
    then (g.NUM_DIRECT - 1) * g.SECTOR_SIZE else u32 (this.raw.numBytes + size)) = nT at h ⊢
  by_cases hnn : DivRoundUp nT g.SECTOR_SIZE = 0
  · rw [if_pos hnn]
    exact ⟨this.raw, (withRaw_raw this).symm, rfl, fun i => Or.inl rfl⟩
  · rw [if_neg hnn] at h ⊢
    by_cases hc : m.CountClear
        < u32 (DivRoundUp nT g.SECTOR_SIZE + 4294967296 - this.raw.numSectors)
    · rw [if_pos hc] at h
      simp at h
    · rw [if_neg hc]
      have hTle : nT ≤ (g.NUM_DIRECT - 1) * g.SECTOR_SIZE := by
        rw [← hT]; split <;> omega
      have hnnle : DivRoundUp nT g.SECTOR_SIZE ≤ g.NUM_DIRECT - 1 := DivRoundUp_le g.hSector hTle
      have hcap := g.hCap
      have hND : g.NUM_DIRECT - 1 < 4294967296 := by
        have h1 : g.NUM_DIRECT * 1 ≤ g.NUM_DIRECT * g.SECTOR_SIZE :=
          Nat.mul_le_mul_left _ g.hSector
        omega
      have hle : DivRoundUp nT g.SECTOR_SIZE - this.raw.numSectors ≤ m.CountClear := by
        by_cases h1 : this.raw.numSectors ≤ DivRoundUp nT g.SECTOR_SIZE
        · have h2 : u32 (DivRoundUp nT g.SECTOR_SIZE + 4294967296 - this.raw.numSectors)
              = DivRoundUp nT g.SECTOR_SIZE - this.raw.numSectors := by
            unfold u32; omega
          rw [h2] at hc
          omega
        · omega
      obtain ⟨htook, _, _, hkeep⟩ := fillSlots_spec
        (DivRoundUp nT g.SECTOR_SIZE - this.raw.numSectors) this.raw.numSectors m
        { this.raw with numBytes := nT } hle hm
      refine ⟨_, rfl, ?_, ?_⟩
      · show (fillSlots _ _ m _).2.dataSectors (g.NUM_DIRECT - 1) = _
        rw [hkeep]
        omega
      · intro i
        show (fillSlots _ _ m _).2.dataSectors i = _ ∨ m.Test ((fillSlots _ _ m _).2.dataSectors i)
          = false
        by_cases hi : i < this.raw.numSectors ∨
            this.raw.numSectors + (DivRoundUp nT g.SECTOR_SIZE - this.raw.numSectors) ≤ i
        · left
          rw [hkeep i hi]
        · right
          apply (htook.2.2.1 _ _).2
          rw [List.mem_map]
          refine ⟨i - this.raw.numSectors, ?_, ?_⟩
          · rw [List.mem_range]; omega
          · congr 1; omega

end FileHeader

theorem extendCore_same (g : Geometry) (junk : FileHeader) (m : Bitmap) (hdr : FileHeader)
    (nb ns : Nat) (r : Bool × Bitmap × FileHeader × FileHeader)
    (hm : m.bits.length ≤ 4294967296)
    (he : OpenFile.extendCore g junk m hdr nb ns = some r) (hflag : r.1 = true)
    (hsame : r.2.2.2.LinkCount = hdr.LinkCount) :
    ∃ r2, r.2.2.1 = hdr.tail.withRaw r2 ∧ r.2.2.2 = hdr.setTail (hdr.tail.withRaw r2) ∧
      r2.dataSectors (g.NUM_DIRECT - 1) = hdr.tail.raw.dataSectors (g.NUM_DIRECT - 1) ∧
      ∀ i, r2.dataSectors i = hdr.tail.raw.dataSectors i ∨ m.Test (r2.dataSectors i) = false := by
  unfold OpenFile.extendCore at he
  simp only at he
  split at he
  · simp only [Option.some.injEq] at he
    rw [← he] at hflag
    simp at hflag
  · rename_i hupd
    simp only [Bool.not_eq_true, Bool.not_eq_false_eq_eq_true, Bool.not_eq_true_eq_eq_false] at hupd
    obtain ⟨r2, h1, h2, h3⟩ := FileHeader.UpdateRaw_spec g m hdr.tail nb hm (by simpa using hupd)
    split at he
    · split at he
      · simp only [Option.some.injEq] at he
        rw [← he] at hflag
        simp at hflag
      · split at he
        · simp at he
        · simp only [Option.some.injEq] at he
          rw [← he] at hsame
          simp only [FileHeader.LinkCount_setTail, FileHeader.LinkCount] at hsame
          omega
    · simp only [Option.some.injEq] at he
      rw [← he]
      exact ⟨r2, h1, by simp only [h1], h2, h3⟩

theorem extend_onDisk (g : Geometry) (L : Limits) (k : Kernel) (hdr : FileHeader) (nb ns : Nat)
    (k1 : Kernel) (hdr1 : FileHeader)
    (hd : hdr.OnDisk g k.disk)
    (hmarked : ∀ s ∈ hdr.headerSectors, k.freeMap.Test s = true)
    (hslots : hdr.SlotsAvoid g hdr.headerSectors)
    (hmap : k.freeMap.bits.length ≤ 4294967296)
    (he : OpenFile.extend g L k hdr nb ns = some (true, k1, hdr1))
    (hsame : hdr1.LinkCount = hdr.LinkCount) :
    hdr1.OnDisk g k1.disk ∧ hdr1.headerSectors = hdr.headerSectors ∧
      hdr1.sector = hdr.sector ∧ hdr1.SlotsAvoid g hdr.headerSectors := by
  unfold OpenFile.extend at he
  unfold Bitmap.FetchFrom at he
  split at he
  · simp at he
  · rename_i fm hfm
    split at hfm
    · simp only [Option.some.injEq] at hfm
      subst hfm
      split at he
      · simp at he
      · rename_i r hr
        split at he
        · simp at he
        · rename_i hflag
          unfold Bitmap.WriteBack at he
          simp only at he
          split at he
          · simp at he
          · rename_i k2 hk2
            split at hk2
            · simp only [Option.some.injEq, Prod.mk.injEq, true_and] at he hk2
              obtain ⟨hk, hh⟩ := he
              subst hh
              obtain ⟨r2, h1, h2, h3, h4⟩ := extendCore_same g k.junk k.freeMap hdr nb ns r hmap hr
                (by simpa using hflag) hsame
              have hdisk : k1.disk = k.disk.write hdr.tail.sector (.header r2) := by
                rw [← hk, ← hk2, h1, FileHeader.WriteBack_tail_withRaw,
                  FileHeader.sector_tail_withRaw]
                rfl
              rw [hdisk, h2]
              refine ⟨FileHeader.OnDisk_setTail g k.disk r2 hdr hd
                  (FileHeader.headerSectors_nodup g k.disk hdr hd) h3,
                FileHeader.headerSectors_setTail hdr r2,
                FileHeader.sector_setTail_withRaw hdr r2,
                FileHeader.SlotsAvoid_setTail g _ r2 hdr hslots ?_⟩
              intro i hi hmem
              rcases h4 i with h5 | h5
              · rw [h5] at hmem
                exact FileHeader.SlotsAvoid_tail g _ hdr hslots i hi hmem
              · rw [hmarked _ hmem] at h5
                simp at h5
            · simp at hk2
    · simp at hfm

theorem WriteAt_onDisk (g : Geometry) (L : Limits) (k : Kernel) (f : OpenFile) (src : Nat → Nat)
    (numBytes position : Nat) (r : Int × Kernel × OpenFile)
    (hd : f.hdr.OnDisk g k.disk)
    (hmarked : ∀ s ∈ f.hdr.headerSectors, k.freeMap.Test s = true)
    (hslots : f.hdr.SlotsAvoid g f.hdr.headerSectors)
    (hmap : k.freeMap.bits.length ≤ 4294967296)
    (hwrite : f.WriteAt g L k src numBytes position = some r)
    (hcount : r.1 ≠ 0)
    (hsame : r.2.2.hdr.LinkCount = f.hdr.LinkCount) :
    r.2.2.hdr.OnDisk g r.2.1.disk ∧ r.2.2.hdr.sector = f.hdr.sector ∧
      r.2.2.fileName = f.fileName := by
  unfold OpenFile.WriteAt at hwrite
  split at hwrite
  · simp at hwrite
  · split at hwrite
    · simp at hwrite
    · split at hwrite
      · simp at hwrite
      · split at hwrite
        · simp at hwrite
        · simp only at hwrite
          split at hwrite
          · simp only [Option.some.injEq] at hwrite
            rw [← hwrite] at hcount
            simp at hcount
          · split at hwrite
            · simp at hwrite
            · simp only [Option.some.injEq] at hwrite
              rw [← hwrite] at hcount
              simp at hcount
            · rename_i k1 hdr1 hext
              split at hwrite
              · simp at hwrite
              · rename_i d hcore
                simp only [Option.some.injEq] at hwrite
                subst hwrite
                have key : hdr1.OnDisk g k1.disk ∧ hdr1.headerSectors = f.hdr.headerSectors ∧
                    hdr1.sector = f.hdr.sector ∧ hdr1.SlotsAvoid g f.hdr.headerSectors := by
                  split at hext
                  · exact extend_onDisk g L (setCondLock L f.fileName (some k.currentThread) k) f.hdr _ _
                      k1 hdr1 hd hmarked hslots hmap hext hsame
                  · simp only [Option.some.injEq, Prod.mk.injEq, true_and] at hext
                    obtain ⟨h1, h2⟩ := hext
                    subst h1 h2
                    exact ⟨hd, rfl, rfl, hslots⟩
                obtain ⟨h1, h2, h3, h4⟩ := key
                have hagree := writeCore_agree g k1 _ src _ _ _ _ _ f.hdr.headerSectors d h4 hcore
                refine ⟨?_, h3, rfl⟩
                exact FileHeader.OnDisk_congr g k1.disk d hdr1 (by rw [h2]; exact hagree) h1

/-- A write that adds no header keeps the stored chain. For a handle whose in-memory header chain is the chain
stored on disk from the file's header sector, in a state where the header
sectors of the chain are marked in the persisted free map (of at most 2^32
bits) and no data slot of the chain holds one of them: after a `WriteAt`
through the handle that returns a non-zero count and adds no header to the
chain, the chain fetched from the file's header sector equals the chain the
writer holds, and a handle constructed afterwards on that sector reports the
same `Length()` and answers every `ReadAt` as the writer's handle does. -/
theorem WriteAt_keeps_stored_chain (g : Geometry) (L : Limits) (k : Kernel) (f : OpenFile)
    (src : Nat → Nat) (numBytes position sector : Nat) (r : Int × Kernel × OpenFile)
    (hfetch : FileHeader.FetchFromFuel g k.disk (L.NUM_SECTORS + 1) sector sector = some f.hdr)
    (hmarked : ∀ s ∈ f.hdr.headerSectors, k.freeMap.Test s = true)
    (hslots : f.hdr.SlotsAvoid g f.hdr.headerSectors)
    (hmap : k.freeMap.bits.length ≤ 4294967296)
    (hwrite : f.WriteAt g L k src numBytes position = some r)
    (hcount : r.1 ≠ 0)
    (hsame : r.2.2.hdr.LinkCount = f.hdr.LinkCount) :
    FileHeader.FetchFromFuel g r.2.1.disk (L.NUM_SECTORS + 1) sector sector = some r.2.2.hdr ∧
    ∃ o, OpenFile.create g L r.2.1 sector f.fileName = some o ∧ o.Length = r.2.2.Length ∧
      ∀ (k2 : Kernel) (into : Nat → Nat) (n pos : Nat),
        o.ReadAt g L k2 into n pos = r.2.2.ReadAt g L k2 into n pos := by
  obtain ⟨h1, h2, h3⟩ := FileHeader.onDisk_of_fetch g k.disk _ _ _ _ hfetch
  rw [← h2, FileHeader.withSector_self] at h1
  obtain ⟨h4, h5, h6⟩ := WriteAt_onDisk g L k f src numBytes position r h1 hmarked hslots hmap
    hwrite hcount hsame
  have h7 := FileHeader.fetch_of_onDisk g r.2.1.disk r.2.2.hdr (L.NUM_SECTORS + 1) h4
    (by rw [hsame]; exact h3)
  rw [h5, h2] at h7
  refine ⟨h7, ⟨r.2.2.hdr, 0, f.fileName⟩, ?_, rfl, ?_⟩
  · unfold OpenFile.create
    rw [h7]
  · intro k2 into n pos
    rw [← h6]
    rfl

/-- The lemma above on `WriteAt("hello", 5, 0)` through the handle on the empty
file `"a"`, together with the documented run (write, close, reopen, read). -/
theorem WriteAt_keeps_stored_chain_witness :
    helloWrite.1 = 5 ∧ runHello = some ((5, 5), (5, [104, 101, 108, 108, 111])) ∧
    FileHeader.FetchFromFuel stdGeometry helloWrite.2.1.disk (stdLimits.NUM_SECTORS + 1) 5 5
      = some helloWrite.2.2.hdr ∧
    ∃ o, OpenFile.create stdGeometry stdLimits helloWrite.2.1 5 helloHandle.fileName = some o ∧
      o.Length = helloWrite.2.2.Length ∧
      ∀ (k2 : Kernel) (into : Nat → Nat) (n pos : Nat),
        o.ReadAt stdGeometry stdLimits k2 into n pos
          = helloWrite.2.2.ReadAt stdGeometry stdLimits k2 into n pos :=
  ⟨by decide!, by decide!,
    WriteAt_keeps_stored_chain stdGeometry stdLimits helloKernel helloHandle helloBytes 5 0 5
      helloWrite (by unfold helloHandle; dsimp only; exact some_getD_of_isSome _ _ (by decide!))
      (by decide!) (by decide!) (by decide!) (some_getD_of_isSome _ _ (by decide!))
      (by decide!) (by decide!)⟩

open FileSystem

/-! ### The undo path of `Create`, the table's name comparison, `GetLockFromDir` -/

/-- C11 (code at the failing input). On the freshly formatted disk the free map
has clear sectors and the root directory has a free entry, but 200000 bytes
need 1563 data sectors and fewer are clear: `Allocate` returns false and
`Create("a", 200000)` does not return, because its undo step `Remove("a")`
acquires the directory lock that `Create` itself still holds. -/
theorem Create_undo_never_returns :
    formatted.isSome = true ∧
    0 < formattedKernel.freeMap.CountClear ∧
    (Directory.Add 9 (formattedKernel.dirFiles 1) ['a'] 5 false).1 = true ∧
    formattedKernel.freeMap.CountClear < DivRoundUp 200000 128 ∧
    ((lockDir formattedKernel).bind fun k2 => lockDir k2).isNone = true ∧
    createTooBig.isNone = true := by
  decide!

/-- C13 (code at the failing input). `Add("/docs/note2")` after
`Add("/docs/note1")` creates no entry of its own: the two paths differ, yet
the second call raises `inst` of the entry of `"/docs/note1"` to 2, and
`Find("/docs/note2")` returns the entry named `"/docs/note1"`. -/
theorem Add_other_path_changes_entry :
    "/docs/note1".toList ≠ "/docs/note2".toList ∧
    (FileList.Find 9 tableNote1 "/docs/note1".toList).map (fun fd => fd.inst) = some 1 ∧
    tableNote2.length = 1 ∧
    (FileList.Find 9 tableNote2 "/docs/note1".toList).map (fun fd => fd.inst) = some 2 ∧
    (FileList.Find 9 tableNote2 "/docs/note2".toList).map (fun fd => fd.name)
      = some "/docs/note1".toList := by
  decide

/-- The last node of the directory-use list is never returned by
`GetLockFromDir`, whatever its name. -/
theorem GetLockFromDir_append_last : ∀ (l : List DNode) (n : DNode) (name : Name),
    (∀ m ∈ l, m.directoryFile.fileName ≠ name) →
    DirectoryList.GetLockFromDir (l ++ [n]) name = none := by
  intro l
  induction l with
  | nil => intro n name _; rfl
  | cons a rest ih =>
    intro n name h
    have hne : a.directoryFile.fileName ≠ name := h a (by simp)
    have hrest := ih n name (fun m hm => h m (by simp [hm]))
    cases rest with
    | nil => simp [DirectoryList.GetLockFromDir, hne]
    | cons b rest2 =>
      simp only [List.cons_append, DirectoryList.GetLockFromDir, hne, if_false] at hrest ⊢
      exact hrest

/-- C17 (code at the failing input). After `FileSystem(true)` the
directory-use list has one node, whose directory file is named `"/"`, and
`GetLockFromDir("/")` returns null. -/
theorem GetLockFromDir_misses_last_node :
    formattedKernel.directoryList.map (fun n => n.directoryFile.fileName) = [['/']] ∧
    (DirectoryList.GetLockFromDir formattedKernel.directoryList ['/']).isNone = true := by
  decide!

open FileSystem

/-! ### `Create` on its early failure paths -/

theorem Directory.insert_none_of_full (e : DirectoryEntry) : ∀ t : List DirectoryEntry,
    (∀ x ∈ t, x.inUse = true) → Directory.insert e t = none := by
  intro t
  induction t with
  | nil => intro _; rfl
  | cons x rest ih =>
    intro h
    have hx : x.inUse = true := h x (by simp)
    simp [Directory.insert, hx, ih (fun y hy => h y (by simp [hy]))]

theorem unlock_after_lock (k : Kernel) (node : DNode)
    (hnode : DirectoryList.GetLock k.directoryList k.currentThread = some node)
    (hfree : node.dirlock = none) :
    unlockDir (withDirLock (some k.currentThread) k) = some k :=
  unlockDir_of_locked k (withDirLock (some k.currentThread) k) node hnode hfree rfl rfl

/-- The failing exits of `Create` in a state whose files can be read. When the calling thread's directory lock is free and the directory
and free-map files can be read, `Create(name, size)` returns false and leaves
the whole kernel state, so also the persisted free map and the persisted
directory, as it was whenever `name` is already in the working directory, or
the free map has no clear sector, or every entry of the directory is in use. -/
theorem Create_fails_without_changes (g : Geometry) (L : Limits) (k : Kernel) (name : Name)
    (initialSize : Nat) (node : DNode)
    (hnode : DirectoryList.GetLock k.directoryList k.currentThread = some node)
    (hfree : node.dirlock = none)
    (hsync : readSync L k node.directoryFile = true)
    (hmapsync : readSync L k k.freeMapFile = true)
    (hcase : Directory.Find L.FILE_NAME_MAX_LEN (k.dirFiles node.directoryFile.hdr.sector) name
        ≠ -1 ∨
      k.freeMap.CountClear = 0 ∨
      (∀ e ∈ (k.dirFiles node.directoryFile.hdr.sector).table, e.inUse = true)) :
    Create g L k name initialSize = some (false, k) := by
  unfold Create
  have hget : DirectoryList.Get (withDirLock (some k.currentThread) k).directoryList
      (withDirLock (some k.currentThread) k).currentThread = some node.directoryFile :=
    Get_withDirLock k node _ hnode
  have hfile : (withDirLock (some k.currentThread) k).freeMapFile = k.freeMapFile := rfl
  have hfetchmap : Bitmap.FetchFrom L (withDirLock (some k.currentThread) k) k.freeMapFile
      = some k.freeMap := by
    unfold Bitmap.FetchFrom
    have h : readSync L (withDirLock (some k.currentThread) k) k.freeMapFile
        = readSync L k k.freeMapFile := rfl
    rw [h, hmapsync]
    rfl
  have hunlock := unlock_after_lock k node hnode hfree
  simp only [CheckDirectoryUse_of_node g L k node hnode, lockDir_of_free k node hnode hfree,
    Option.bind_eq_bind, Option.some_bind, hget, FetchFrom_withDirLock L k _ _ hsync, hfile,
    hfetchmap]
  by_cases hname : Directory.Find L.FILE_NAME_MAX_LEN
      (k.dirFiles node.directoryFile.hdr.sector) name ≠ -1
  · rw [if_pos hname, hunlock]
    rfl
  · rw [if_neg hname]
    by_cases hfound : k.freeMap.Find.1 = -1
    · rw [if_pos hfound, hunlock]
      rfl
    · rw [if_neg hfound]
      rcases hcase with h1 | h2 | h3
      · exact absurd h1 hname
      · rw [Bitmap.Find_none k.freeMap h2] at hfound
        exact absurd rfl hfound
      · have hadd : (Directory.Add L.FILE_NAME_MAX_LEN
            (k.dirFiles node.directoryFile.hdr.sector) name (ofInt k.freeMap.Find.1) false).1
            = false := by
          unfold Directory.Add
          rw [if_neg hname, Directory.insert_none_of_full _ _ h3]
        simp only [hadd, Bool.not_false, if_true, hunlock]
        rfl

/-- The lemma above on `Create("c", 300)` in the state where `"c"` already exists. -/
theorem Create_fails_without_changes_witness :
    Create stdGeometry stdLimits closedC ['c'] 300 = some (false, closedC) :=
  Create_fails_without_changes stdGeometry stdLimits closedC ['c'] 300 closedCNode
    (some_getD_of_isSome _ _ (by decide!)) (by decide!) (by decide!) (by decide!)
    (Or.inl (by decide!))

/-! ### `UpdateRaw` and `Deallocate` -/

theorem le_DivRoundUp_mul (n s : Nat) (hs : 0 < s) : n ≤ DivRoundUp n s * s := by
  unfold DivRoundUp
  have h1 := Nat.div_add_mod' n s
  have h2 := Nat.mod_lt n hs
  split
  · rw [Nat.add_mul]
    omega
  · rw [Nat.add_mul]
    omega

theorem DivRoundUp_mono {a b s : Nat} (hs : 0 < s) (h : a ≤ b) :
    DivRoundUp a s ≤ DivRoundUp b s :=
  DivRoundUp_le hs (Nat.le_trans h (le_DivRoundUp_mul b s hs))

theorem DivRoundUp_eq_zero {n s : Nat} (hs : 0 < s) (h : DivRoundUp n s = 0) : n = 0 := by
  have := le_DivRoundUp_mul n s hs
  rw [h] at this
  omega

/-- C19. For a header with `numBytes ≤ (NUM_DIRECT-1)*SECTOR_SIZE` and
`numSectors = DivRoundUp(numBytes, SECTOR_SIZE)`, a call `UpdateRaw(map, extra)`
that returns true (the sum `numBytes + extra` not wrapping, the map of at most
2^32 bits) sets `numBytes` to `min(numBytes + extra, (NUM_DIRECT-1)*SECTOR_SIZE)`
and `numSectors` to `DivRoundUp` of that, fills exactly the slots from the old
to the new `numSectors` with sectors taken from the map (clear before, marked
after, pairwise distinct, no other bit changed), and leaves every other slot,
in particular slot `NUM_DIRECT - 1`, the header's sector and its `next`
pointer unchanged. -/
theorem UpdateRaw_extends_header (g : Geometry) (m : Bitmap) (this : FileHeader) (extra : Nat)
    (hbytes : this.raw.numBytes ≤ g.cap)
    (hsectors : this.raw.numSectors = DivRoundUp this.raw.numBytes g.SECTOR_SIZE)
    (hsum : this.raw.numBytes + extra < 4294967296)
    (hmap : m.bits.length ≤ 4294967296)
    (htrue : (FileHeader.UpdateRaw g m this extra).1 = true) :
    (FileHeader.UpdateRaw g m this extra).2.2.raw.numBytes
      = min (this.raw.numBytes + extra) g.cap ∧
    (FileHeader.UpdateRaw g m this extra).2.2.raw.numSectors
      = DivRoundUp (min (this.raw.numBytes + extra) g.cap) g.SECTOR_SIZE ∧
    this.raw.numSectors ≤ (FileHeader.UpdateRaw g m this extra).2.2.raw.numSectors ∧
    (FileHeader.UpdateRaw g m this extra).2.2.raw.numSectors ≤ g.NUM_DIRECT - 1 ∧
    Bitmap.Took m (FileHeader.UpdateRaw g m this extra).2.1
      ((List.range ((FileHeader.UpdateRaw g m this extra).2.2.raw.numSectors
          - this.raw.numSectors)).map
        (fun i => (FileHeader.UpdateRaw g m this extra).2.2.raw.dataSectors
          (this.raw.numSectors + i))) ∧
    (∀ j, j < this.raw.numSectors ∨
        (FileHeader.UpdateRaw g m this extra).2.2.raw.numSectors ≤ j →
      (FileHeader.UpdateRaw g m this extra).2.2.raw.dataSectors j = this.raw.dataSectors j) ∧
    (FileHeader.UpdateRaw g m this extra).2.2.raw.dataSectors (g.NUM_DIRECT - 1)
      = this.raw.dataSectors (g.NUM_DIRECT - 1) ∧
    (FileHeader.UpdateRaw g m this extra).2.2.next = this.next ∧
    (FileHeader.UpdateRaw g m this extra).2.2.sector = this.sector := by
  have hu : u32 (this.raw.numBytes + extra) = this.raw.numBytes + extra := by
    unfold u32; omega
  have hcapdef : g.cap = (g.NUM_DIRECT - 1) * g.SECTOR_SIZE := rfl
  have hT : (if (g.NUM_DIRECT - 1) * g.SECTOR_SIZE < u32 (this.raw.numBytes + extra)
      then (g.NUM_DIRECT - 1) * g.SECTOR_SIZE else u32 (this.raw.numBytes + extra))
      = min (this.raw.numBytes + extra) g.cap := by
    rw [hu, hcapdef]
    split <;> omega
  have hTle : min (this.raw.numBytes + extra) g.cap ≤ (g.NUM_DIRECT - 1) * g.SECTOR_SIZE := by
    rw [hcapdef]; omega
  have hTge : this.raw.numBytes ≤ min (this.raw.numBytes + extra) g.cap := by omega
  have hnnle : DivRoundUp (min (this.raw.numBytes + extra) g.cap) g.SECTOR_SIZE
      ≤ g.NUM_DIRECT - 1 := DivRoundUp_le g.hSector hTle
  have hold : this.raw.numSectors
      ≤ DivRoundUp (min (this.raw.numBytes + extra) g.cap) g.SECTOR_SIZE := by
    rw [hsectors]; exact DivRoundUp_mono g.hSector hTge
  unfold FileHeader.UpdateRaw at htrue ⊢
  simp only at htrue ⊢
  rw [hT] at htrue ⊢
  generalize hnT : min (this.raw.numBytes + extra) g.cap = nT at *
  by_cases hnn : DivRoundUp nT g.SECTOR_SIZE = 0
  · rw [if_pos hnn]
    have h0 : nT = 0 := DivRoundUp_eq_zero g.hSector hnn
    have hs0 : this.raw.numSectors = 0 := by omega
    have hb0 : this.raw.numBytes = 0 := by omega
    refine ⟨?_, ?_, ?_, ?_, ?_, fun j _ => rfl, rfl, rfl, rfl⟩
    · show this.raw.numBytes = nT
      omega
    · show this.raw.numSectors = DivRoundUp nT g.SECTOR_SIZE
      omega
    · show this.raw.numSectors ≤ this.raw.numSectors
      omega
    · show this.raw.numSectors ≤ g.NUM_DIRECT - 1
      omega
    · show Bitmap.Took m m ((List.range (this.raw.numSectors - this.raw.numSectors)).map _)
      simp only [Nat.sub_self, List.range_zero, List.map_nil]
      exact Bitmap.Took_refl m
  · rw [if_neg hnn] at htrue ⊢
    by_cases hc : m.CountClear
        < u32 (DivRoundUp nT g.SECTOR_SIZE + 4294967296 - this.raw.numSectors)
    · rw [if_pos hc] at htrue
      simp at htrue
    · rw [if_neg hc]
      have hcap := g.hCap
      have hND : g.NUM_DIRECT - 1 < 4294967296 := by
        have h1 : g.NUM_DIRECT * 1 ≤ g.NUM_DIRECT * g.SECTOR_SIZE :=
          Nat.mul_le_mul_left _ g.hSector
        omega
      have hle : DivRoundUp nT g.SECTOR_SIZE - this.raw.numSectors ≤ m.CountClear := by
        have h2 : u32 (DivRoundUp nT g.SECTOR_SIZE + 4294967296 - this.raw.numSectors)
            = DivRoundUp nT g.SECTOR_SIZE - this.raw.numSectors := by
          unfold u32; omega
        rw [h2] at hc
        omega
      obtain ⟨htook, hnb, _, hkeep⟩ := fillSlots_spec
        (DivRoundUp nT g.SECTOR_SIZE - this.raw.numSectors) this.raw.numSectors m
        { this.raw with numBytes := nT } hle hmap
      have hraw : ∀ (r : RawFileHeader), (this.withRaw r).raw = r := by
        intro r; cases this <;> rfl
      have hnext : ∀ (r : RawFileHeader), (this.withRaw r).next = this.next := by
        intro r; cases this <;> rfl
      have hsec : ∀ (r : RawFileHeader), (this.withRaw r).sector = this.sector := by
        intro r; cases this <;> rfl
      simp only [hraw, hnext, hsec]
      refine ⟨hnb, trivial, hold, hnnle, htook, ?_, ?_, trivial, trivial⟩
      · intro j hj
        apply hkeep
        omega
      · apply hkeep
        omega

/-- Witness for C19: `UpdateRaw(map64, 300)` on an empty header. -/
theorem UpdateRaw_extends_header_witness :
    (FileHeader.UpdateRaw stdGeometry map64 zeroHeader 300).2.2.raw.numBytes = 300 ∧
    (FileHeader.UpdateRaw stdGeometry map64 zeroHeader 300).2.2.raw.numSectors = 3 ∧
    (List.range 3).map (FileHeader.UpdateRaw stdGeometry map64 zeroHeader 300).2.2.raw.dataSectors
      = [2, 3, 4] ∧
    Bitmap.Took map64 (FileHeader.UpdateRaw stdGeometry map64 zeroHeader 300).2.1
      ((List.range ((FileHeader.UpdateRaw stdGeometry map64 zeroHeader 300).2.2.raw.numSectors
          - zeroHeader.raw.numSectors)).map
        (fun i => (FileHeader.UpdateRaw stdGeometry map64 zeroHeader 300).2.2.raw.dataSectors
          (zeroHeader.raw.numSectors + i))) :=
  ⟨by decide, by decide, by decide,
    (UpdateRaw_extends_header stdGeometry map64 zeroHeader 300 (by decide) (by decide)
      (by decide) (by decide) (by decide)).2.2.2.2.1⟩

/-- C20. For a header chain whose data sectors and next-header sectors are
pairwise distinct and all marked in the map, `Deallocate(map)` completes (no
`ASSERT` fails) and clears exactly those sectors: every one of them is clear
afterwards and every other bit of the map, the bit of the first header's own
sector among them, is unchanged. -/
theorem Deallocate_clears_exactly_owned (h : FileHeader) (m : Bitmap)
    (hdistinct : h.owned.Nodup) (hmarked : ∀ s ∈ h.owned, m.Test s = true) :
    ∃ m2, h.Deallocate m = some m2 ∧ m2.bits.length = m.bits.length ∧
      (∀ s ∈ h.owned, m2.Test s = false) ∧
      (∀ j, j ∉ h.owned → m2.Test j = m.Test j) ∧
      (h.sector ∉ h.owned → m2.Test h.sector = m.Test h.sector) := by
  obtain ⟨m2, h1, h2, h3⟩ := Deallocate_spec h m hdistinct hmarked
  refine ⟨m2, h1, h2, ?_, ?_, ?_⟩
  · intro s hs
    rw [h3 s]
    simp [hs]
  · intro j hj
    rw [h3 j]
    simp [hj]
  · intro hj
    rw [h3]
    simp [hj]

/-- Witness for C20: the chain of two headers `Allocate(map64, 5120)` builds,
with the map that call leaves. -/
theorem Deallocate_clears_exactly_owned_witness :
    allocExample.2.2.LinkCount = 1 ∧ allocExample.2.2.owned.length = 39 ∧
    ∃ m2, allocExample.2.2.Deallocate allocExample.2.1 = some m2 ∧
      m2.bits.length = allocExample.2.1.bits.length ∧
      (∀ s ∈ allocExample.2.2.owned, m2.Test s = false) ∧
      (∀ j, j ∉ allocExample.2.2.owned → m2.Test j = allocExample.2.1.Test j) ∧
      (allocExample.2.2.sector ∉ allocExample.2.2.owned →
        m2.Test allocExample.2.2.sector = allocExample.2.1.Test allocExample.2.2.sector) :=
  ⟨by decide!, by decide!,
    Deallocate_clears_exactly_owned allocExample.2.2 allocExample.2.1 (by decide!)
      (by decide!)⟩

open FileSystem

/-- C18 (code at the failing input). After `CreateDir("d")`, `ChangeDir("d")`,
`Create("x", 0)` and `ChangeDir("/")`, all successful, `Check()` returns
false: it walks only the entries of the calling thread's directory, so the
header sector of `"x"` is marked in the persisted free map and not in the
shadow map.  Right after `ChangeDir("d")` it returns false as well (the walk
starts in `"/d"`, not in the root). -/
theorem Check_false_with_subdirectory :
    runCheck = some (true, [some false, some false]) := by
  decide!

/-- C14. With two handles open on one empty file,
`WriteAt("hello", 5, 0)` through the first returns 5 and its `Length()` is 5,
while the second handle still reports `Length() = 0` and its
`ReadAt(buf, 5, 0)` returns 0. -/
theorem other_handle_keeps_stale_length : runStaleReader = some ((5, 5), (0, 0)) := by
  decide!

/-- The guard `nuevoDirSector != -1`: `ChangeDir("")` on the formatted disk returns false,
although the empty path has no segment that could be missing. -/
theorem ChangeDir_empty_path_false :
    (ChangeDir stdGeometry stdLimits formattedKernel []).map (fun r => r.1) = some false := by
  decide!

open FileSystem

/-! ### A handle opened and closed again -/

theorem strncmpEq_self (a : Name) (n : Nat) : strncmpEq a a n = true := by
  simp [strncmpEq]

namespace FileList

theorem Find_append_new (maxLen : Nat) (name : Name) : ∀ (T : FileList),
    Find maxLen T name = none →
    Find maxLen (T ++ [FData.new name]) name = some (FData.new name) := by
  intro T h
  unfold Find at h ⊢
  rw [List.find?_append, h]
  simp [List.find?_cons, FData.new, strncmpEq_self]

theorem unlink_append_new (maxLen : Nat) (name : Name) : ∀ (T : FileList),
    Find maxLen T name = none → unlink maxLen name (T ++ [FData.new name]) = T := by
  intro T
  induction T with
  | nil =>
    intro _
    simp [unlink, FData.new, strncmpEq_self]
  | cons x rest ih =>
    intro h
    by_cases hx : strncmpEq name x.name (maxLen + 1) = true
    · simp [Find, List.find?_cons, hx] at h
    · simp only [Find, List.find?_cons, hx] at h
      simp [unlink, hx, ih h]

theorem Add_of_none (maxLen : Nat) (name : Name) (T : FileList)
    (h : Find maxLen T name = none) : Add maxLen T name = T ++ [FData.new name] := by
  unfold Add
  cases T with
  | nil => rfl
  | cons x rest => simp [h]

theorem Add_of_some (maxLen : Nat) (name : Name) (T : FileList) (fd : FData)
    (h : Find maxLen T name = some fd) :
    Add maxLen T name = modify maxLen name (FData.addInst 1) T := by
  unfold Add
  cases T with
  | nil => simp [Find] at h
  | cons x rest => simp [h]

theorem addInst_cancel (fd : FData) : FData.addInst (-1) (FData.addInst 1 fd) = fd := by
  cases fd
  simp [FData.addInst]

/-- Closing a handle right after it was registered leaves the table as it was
before the registration. -/
theorem Remove_Add (g : Geometry) (L : Limits) (k : Kernel) (name : Name)
    (h : ∀ fd, Find L.FILE_NAME_MAX_LEN k.listOpenFiles name = some fd → 1 ≤ fd.inst) :
    Remove g L (k.withTable (Add L.FILE_NAME_MAX_LEN k.listOpenFiles name)) name = some k := by
  unfold Remove
  cases hf : Find L.FILE_NAME_MAX_LEN k.listOpenFiles name with
  | none =>
    have h1 : (k.withTable (Add L.FILE_NAME_MAX_LEN k.listOpenFiles name)).listOpenFiles
        = k.listOpenFiles ++ [FData.new name] := Add_of_none _ _ _ hf
    rw [h1, Find_append_new _ _ _ hf]
    have h2 : ¬ (FData.new name).inst > 1 := by simp [FData.new]
    simp only [h2, if_false]
    unfold DeleteFData
    rw [h1, Find_append_new _ _ _ hf, unlink_append_new _ _ _ hf]
    simp only [FData.new, Bool.false_eq_true, if_false]
    rfl
  | some fd =>
    have h1 : (k.withTable (Add L.FILE_NAME_MAX_LEN k.listOpenFiles name)).listOpenFiles
        = modify L.FILE_NAME_MAX_LEN name (FData.addInst 1) k.listOpenFiles :=
      Add_of_some _ _ _ fd hf
    rw [h1, Find_modify_self _ _ (FData.addInst 1) (fun _ => rfl) _ _ hf]
    have h2 : (FData.addInst 1 fd).inst > 1 := by
      have := h fd hf
      simp only [FData.addInst]
      omega
    simp only [h2, if_true]
    unfold Kernel.modifyEntry
    rw [h1, modify_modify _ _ (FData.addInst (-1)) (FData.addInst 1) (fun _ => rfl),
      modify_eq_self _ _ (FData.addInst (-1) ∘ FData.addInst 1) _ (fun x _ => addInst_cancel x)]
    rfl

end FileList

theorem readSync_Add (L : Limits) (k : Kernel) (file : OpenFile)
    (h : ∀ fd, FileList.Find L.FILE_NAME_MAX_LEN k.listOpenFiles file.fileName = some fd →
      fd.condLock = none) :
    readSync L (k.withTable (FileList.Add L.FILE_NAME_MAX_LEN k.listOpenFiles file.fileName))
      file = true := by
  unfold readSync
  cases hf : FileList.Find L.FILE_NAME_MAX_LEN k.listOpenFiles file.fileName with
  | none =>
    have h1 : (k.withTable (FileList.Add L.FILE_NAME_MAX_LEN k.listOpenFiles
        file.fileName)).listOpenFiles = k.listOpenFiles ++ [FData.new file.fileName] :=
      FileList.Add_of_none _ _ _ hf
    rw [h1, FileList.Find_append_new _ _ _ hf]
    simp [FData.new]
  | some fd =>
    have h1 : (k.withTable (FileList.Add L.FILE_NAME_MAX_LEN k.listOpenFiles
        file.fileName)).listOpenFiles
        = FileList.modify L.FILE_NAME_MAX_LEN file.fileName (FData.addInst 1) k.listOpenFiles :=
      FileList.Add_of_some _ _ _ fd hf
    rw [h1, FileList.Find_modify_self _ _ (FData.addInst 1) (fun _ => rfl) _ _ hf]
    simp [FData.addInst, h fd hf]

theorem create_of_fetch (g : Geometry) (L : Limits) (k : Kernel) (sector : Nat) (name : Name)
    (hdr : FileHeader)
    (h : FileHeader.FetchFromFuel g k.disk (L.NUM_SECTORS + 1) sector sector = some hdr) :
    OpenFile.create g L k sector name = some ⟨hdr, 0, name⟩ ∧ hdr.sector = sector := by
  unfold OpenFile.create
  rw [h]
  exact ⟨rfl, (FileHeader.onDisk_of_fetch g k.disk _ _ _ _ h).2.1⟩

/-- The exit of `RemoveDir` on a directory in use, in a state whose working
directory can be fetched. For a name found in the working directory of the calling thread whose
stored directory table (the directory held by the file whose header is in the
sector found) has at least one entry in use, `RemoveDir(name)` returns false
and leaves the whole kernel state as it was: the persisted directory, the
persisted free map and the open-file table. -/
theorem RemoveDir_nonempty_fails (g : Geometry) (L : Limits) (k : Kernel) (name : Name)
    (node : DNode) (hdr : FileHeader)
    (hnode : DirectoryList.GetLock k.directoryList k.currentThread = some node)
    (hfree : node.dirlock = none)
    (hsync : readSync L k node.directoryFile = true)
    (hname : Directory.Find L.FILE_NAME_MAX_LEN (k.dirFiles node.directoryFile.hdr.sector) name
      ≠ -1)
    (hfetch : FileHeader.FetchFromFuel g k.disk (L.NUM_SECTORS + 1)
      (ofInt (Directory.Find L.FILE_NAME_MAX_LEN (k.dirFiles node.directoryFile.hdr.sector)
        name))
      (ofInt (Directory.Find L.FILE_NAME_MAX_LEN (k.dirFiles node.directoryFile.hdr.sector)
        name)) = some hdr)
    (htable : ∀ fd, FileList.Find L.FILE_NAME_MAX_LEN k.listOpenFiles name = some fd →
      fd.condLock = none ∧ 1 ≤ fd.inst)
    (hnonempty : (k.dirFiles (ofInt (Directory.Find L.FILE_NAME_MAX_LEN
      (k.dirFiles node.directoryFile.hdr.sector) name))).IsEmpty = false) :
    RemoveDir g L k name = some (false, k) := by
  unfold RemoveDir
  have hget : DirectoryList.Get (withDirLock (some k.currentThread) k).directoryList
      (withDirLock (some k.currentThread) k).currentThread = some node.directoryFile :=
    Get_withDirLock k node _ hnode
  obtain ⟨hcreate, hsector⟩ := create_of_fetch g L (withDirLock (some k.currentThread) k) _ name
    hdr hfetch
  have hread : Directory.FetchFrom L
      ((withDirLock (some k.currentThread) k).withTable
        (FileList.Add L.FILE_NAME_MAX_LEN (withDirLock (some k.currentThread) k).listOpenFiles
          name)) ⟨hdr, 0, name⟩
      = some (k.dirFiles hdr.sector) := by
    unfold Directory.FetchFrom
    rw [readSync_Add L (withDirLock (some k.currentThread) k) ⟨hdr, 0, name⟩
      (fun fd hfd => (htable fd hfd).1)]
    rfl
  have hclose : OpenFile.destroy g L
      ((withDirLock (some k.currentThread) k).withTable
        (FileList.Add L.FILE_NAME_MAX_LEN (withDirLock (some k.currentThread) k).listOpenFiles
          name)) ⟨hdr, 0, name⟩
      = some (withDirLock (some k.currentThread) k) :=
    FileList.Remove_Add g L (withDirLock (some k.currentThread) k) name
      (fun fd hfd => (htable fd hfd).2)
  simp only [CheckDirectoryUse_of_node g L k node hnode, lockDir_of_free k node hnode hfree,
    Option.bind_eq_bind, Option.some_bind, hget, FetchFrom_withDirLock L k _ _ hsync,
    hname, if_false, hcreate, hread, hsector, hnonempty, Bool.not_false, if_true, hclose,
    unlock_after_lock k node hnode hfree]
  rfl

open FileSystem

/-- The lemma above on the documented run `CreateDir("d")`, `ChangeDir("d")`,
`Create("x", 0)`, `ChangeDir("/")`, then `RemoveDir("d")`. -/
theorem RemoveDir_nonempty_fails_witness :
    RemoveDir stdGeometry stdLimits nestedKernel ['d'] = some (false, nestedKernel) :=
  have hnone : FileList.Find stdLimits.FILE_NAME_MAX_LEN nestedKernel.listOpenFiles ['d']
      = none := by decide!
  RemoveDir_nonempty_fails stdGeometry stdLimits nestedKernel ['d'] nestedNode nestedDirHeader
    (some_getD_of_isSome _ _ (by decide!)) (by decide!) (by decide!) (by decide!)
    (some_getD_of_isSome _ _ (by decide!))
    (fun _ h => nomatch hnone.symm.trans h) (by decide!)

/-! ### Reading back what was written -/

theorem writeSectors_other (g : Geometry) (hdr : FileHeader) (fs : Nat) (buf : Nat → Nat) :
    ∀ (n i : Nat) (d d2 : Disk) (s : Nat), writeSectors g hdr fs buf n i d = some d2 →
      (∀ j, i ≤ j → j < i + n → hdr.ByteToSector g (u32 (j * g.SECTOR_SIZE)) ≠ some s) →
      d2 s = d s := by
  intro n
  induction n with
  | zero =>
    intro i d d2 s h _
    simp only [writeSectors, Option.some.injEq] at h
    rw [h]
  | succ n ih =>
    intro i d d2 s h hne
    simp only [writeSectors] at h
    split at h
    · simp at h
    · rename_i t ht
      rw [ih (i + 1) _ d2 s h (fun j h1 h2 => hne j (by omega) (by omega))]
      have h0 := hne i (Nat.le_refl _) (by omega)
      rw [ht] at h0
      simp only [Disk.write]
      rw [if_neg]
      intro e
      exact h0 (by rw [e])

theorem writeSectors_written (g : Geometry) (hdr : FileHeader) (fs : Nat) (buf : Nat → Nat) :
    ∀ (n i : Nat) (d d2 : Disk), writeSectors g hdr fs buf n i d = some d2 →
      (∀ j1 j2, i ≤ j1 → j1 < j2 → j2 < i + n →
        hdr.ByteToSector g (u32 (j1 * g.SECTOR_SIZE))
          ≠ hdr.ByteToSector g (u32 (j2 * g.SECTOR_SIZE))) →
      ∀ j, i ≤ j → j < i + n →
        ∃ s, hdr.ByteToSector g (u32 (j * g.SECTOR_SIZE)) = some s ∧
          d2 s = .data (fun t => buf ((j - fs) * g.SECTOR_SIZE + t)) := by
  intro n
  induction n with
  | zero => intro i d d2 _ _ j h1 h2; omega
  | succ n ih =>
    intro i d d2 h hinj j h1 h2
    simp only [writeSectors] at h
    split at h
    · simp at h
    · rename_i t ht
      by_cases hj : j = i
      · subst hj
        refine ⟨t, ht, ?_⟩
        rw [writeSectors_other g hdr fs buf n (j + 1) _ d2 t h ?_]
        · simp [Disk.write]
        · intro j2 h3 h4 e
          exact hinj j j2 (Nat.le_refl _) (by omega) (by omega) (by rw [ht, e])
      · exact ih (i + 1) _ d2 h
          (fun j1 j2 a b c => hinj j1 j2 (by omega) b (by omega)) j (by omega) (by omega)

theorem readSectors_spec (g : Geometry) (d : Disk) (hdr : FileHeader) (fs : Nat) :
    ∀ (n i : Nat) (buf : Nat → Nat), fs ≤ i →
      (∀ j, i ≤ j → j < i + n → ∃ s, hdr.ByteToSector g (u32 (j * g.SECTOR_SIZE)) = some s) →
      ∃ buf2, readSectors g d hdr fs n i buf = some buf2 ∧
        (∀ x, x < (i - fs) * g.SECTOR_SIZE → buf2 x = buf x) ∧
        (∀ j s x, i ≤ j → j < i + n →
          hdr.ByteToSector g (u32 (j * g.SECTOR_SIZE)) = some s →
          (j - fs) * g.SECTOR_SIZE ≤ x → x < (j - fs + 1) * g.SECTOR_SIZE →
          buf2 x = (d s).asData (x - (j - fs) * g.SECTOR_SIZE)) := by
  intro n
  induction n with
  | zero =>
    intro i buf _ _
    exact ⟨buf, rfl, fun _ _ => rfl, fun j s x h1 h2 => by omega⟩
  | succ n ih =>
    intro i buf hfs hall
    obtain ⟨s0, hs0⟩ := hall i (Nat.le_refl _) (by omega)
    have hstep : i + 1 - fs = i - fs + 1 := by omega
    obtain ⟨buf2, h1, h2, h3⟩ := ih (i + 1)
      (fun j =>
        if (i - fs) * g.SECTOR_SIZE ≤ j ∧ j < (i - fs + 1) * g.SECTOR_SIZE
        then (d s0).asData (j - (i - fs) * g.SECTOR_SIZE) else buf j)
      (by omega) (fun j a b => hall j (by omega) (by omega))
    rw [hstep] at h2
    refine ⟨buf2, ?_, ?_, ?_⟩
    · simp only [readSectors, hs0]
      exact h1
    · intro x hx
      have hle : (i - fs) * g.SECTOR_SIZE ≤ (i - fs + 1) * g.SECTOR_SIZE :=
        Nat.mul_le_mul_right _ (by omega)
      rw [h2 x (by omega)]
      show (if (i - fs) * g.SECTOR_SIZE ≤ x ∧ x < (i - fs + 1) * g.SECTOR_SIZE
        then (d s0).asData (x - (i - fs) * g.SECTOR_SIZE) else buf x) = buf x
      rw [if_neg]
      omega
    · intro j s x a b hs hlo hhi
      by_cases hj : j = i
      · subst hj
        rw [hs0] at hs
        simp only [Option.some.injEq] at hs
        subst hs
        rw [h2 x hhi]
        show (if (j - fs) * g.SECTOR_SIZE ≤ x ∧ x < (j - fs + 1) * g.SECTOR_SIZE
          then (d s0).asData (x - (j - fs) * g.SECTOR_SIZE) else buf x) = _
        rw [if_pos ⟨hlo, hhi⟩]
      · exact h3 j s x (by omega) (by omega) hs hlo hhi

theorem div_bounds (x s : Nat) (hs : 0 < s) : x / s * s ≤ x ∧ x < (x / s + 1) * s := by
  have h1 := Nat.div_add_mod' x s
  have h2 := Nat.mod_lt x hs
  rw [Nat.add_mul]
  omega

theorem readCore_after_write (g : Geometry) (d0 d : Disk) (heap : Nat → Nat) (f2 : OpenFile)
    (src into buf2 : Nat → Nat) (n pos : Nat)
    (hn : 0 < n) (hrange : pos + n ≤ f2.hdr.FileLength) (hsmall : pos + n < 4294967296)
    (hw : writeSectors g f2.hdr (DivRoundDown pos g.SECTOR_SIZE)
      (fun j => if pos - DivRoundDown pos g.SECTOR_SIZE * g.SECTOR_SIZE ≤ j ∧
          j < pos - DivRoundDown pos g.SECTOR_SIZE * g.SECTOR_SIZE + n
        then src (j - (pos - DivRoundDown pos g.SECTOR_SIZE * g.SECTOR_SIZE)) else buf2 j)
      (u32 (1 + DivRoundDown (u32 (pos + n - 1)) g.SECTOR_SIZE + 4294967296
        - DivRoundDown pos g.SECTOR_SIZE))
      (DivRoundDown pos g.SECTOR_SIZE) d0 = some d)
    (hinj : ∀ j1 j2, pos / g.SECTOR_SIZE ≤ j1 → j1 < j2 → j2 ≤ (pos + n - 1) / g.SECTOR_SIZE →
      f2.hdr.ByteToSector g (u32 (j1 * g.SECTOR_SIZE))
        ≠ f2.hdr.ByteToSector g (u32 (j2 * g.SECTOR_SIZE))) :
    ∃ into2, OpenFile.readCore g d heap f2 into n pos = some (n, into2) ∧
      ∀ t, t < n → into2 t = src t := by
  have hSS := g.hSector
  have hu1 : u32 (pos + n) = pos + n := by unfold u32; omega
  have hu2 : u32 (pos + n - 1) = pos + n - 1 := by unfold u32; omega
  unfold DivRoundDown at hw
  rw [hu2] at hw
  generalize hfs : pos / g.SECTOR_SIZE = fs at *
  generalize hls : (pos + n - 1) / g.SECTOR_SIZE = ls at *
  have hfl : fs ≤ ls := by
    rw [← hfs, ← hls]
    exact Nat.div_le_div_right (by omega)
  have hlsle : ls ≤ pos + n - 1 := by
    rw [← hls]
    exact Nat.div_le_self _ _
  have hns : u32 (1 + ls + 4294967296 - fs) = 1 + ls - fs := by unfold u32; omega
  rw [hns] at hw
  have hP1 : fs * g.SECTOR_SIZE ≤ pos := by
    rw [← hfs]
    exact (div_bounds pos g.SECTOR_SIZE hSS).1
  have hP2 : pos + n - 1 < (ls + 1) * g.SECTOR_SIZE := by
    rw [← hls]
    exact (div_bounds (pos + n - 1) g.SECTOR_SIZE hSS).2
  have hP3 : (1 + ls - fs) * g.SECTOR_SIZE = (ls + 1) * g.SECTOR_SIZE - fs * g.SECTOR_SIZE := by
    rw [← Nat.sub_mul]
    congr 1
    omega
  have hwritten := writeSectors_written g f2.hdr fs _ (1 + ls - fs) fs d0 d hw
    (fun j1 j2 a b c => hinj j1 j2 a b (by omega))
  obtain ⟨buf3, hr1, _, hr3⟩ := readSectors_spec g d f2.hdr fs (1 + ls - fs) fs heap
    (Nat.le_refl _)
    (fun j a b => by
      obtain ⟨s, hs, _⟩ := hwritten j a b
      exact ⟨s, hs⟩)
  have hlen : ¬ pos ≥ f2.hdr.FileLength := by omega
  have hclip : ¬ u32 (pos + n) > f2.hdr.FileLength := by rw [hu1]; omega
  refine ⟨fun j => if j < n then buf3 (pos - fs * g.SECTOR_SIZE + j) else into j, ?_, ?_⟩
  · unfold OpenFile.readCore
    simp only [hlen, if_false, hclip, DivRoundDown, hu2, hfs, hls, hr1]
  · intro t ht
    simp only [ht, if_true]
    generalize hx : pos - fs * g.SECTOR_SIZE + t = x
    have hxlt : x < g.SECTOR_SIZE * (1 + ls - fs) := by
      rw [Nat.mul_comm, hP3]
      omega
    have hq : x / g.SECTOR_SIZE < 1 + ls - fs := Nat.div_lt_of_lt_mul hxlt
    obtain ⟨hb1, hb2⟩ := div_bounds x g.SECTOR_SIZE hSS
    generalize x / g.SECTOR_SIZE = q at hq hb1 hb2
    have hj : fs + q - fs = q := by omega
    obtain ⟨s, hs, hds⟩ := hwritten (fs + q) (by omega) (by omega)
    rw [hr3 (fs + q) s x (by omega) (by omega) hs (by rw [hj]; exact hb1)
      (by rw [hj]; exact hb2), hds, hj]
    simp only [SectorData.asData]
    have hback : q * g.SECTOR_SIZE + (x - q * g.SECTOR_SIZE) = x := by omega
    rw [hback, if_pos (by omega)]
    congr 1
    omega

theorem extend_frame (g : Geometry) (L : Limits) (k : Kernel) (hdr : FileHeader) (nb ns : Nat)
    (r : Bool × Kernel × FileHeader) (h : OpenFile.extend g L k hdr nb ns = some r) :
    r.2.1.listOpenFiles = k.listOpenFiles ∧ r.2.1.heap = k.heap := by
  unfold OpenFile.extend at h
  split at h
  · simp at h
  · split at h
    · simp at h
    · split at h
      · simp only [Option.some.injEq] at h
        rw [← h]
        exact ⟨rfl, rfl⟩
      · unfold Bitmap.WriteBack at h
        simp only at h
        split at h
        · simp at h
        · rename_i k2 hk2
          split at hk2
          · simp only [Option.some.injEq] at h hk2
            rw [← h, ← hk2]
            exact ⟨rfl, rfl⟩
          · simp at hk2

theorem writeCore_result (g : Geometry) (k : Kernel) (f : OpenFile) (src : Nat → Nat)
    (nb pos fs ls ns : Nat) (d : Disk)
    (h : OpenFile.writeCore g k f src nb pos fs ls ns = some d) :
    ∃ buf2 : Nat → Nat, writeSectors g f.hdr fs
      (fun j => if pos - fs * g.SECTOR_SIZE ≤ j ∧ j < pos - fs * g.SECTOR_SIZE + nb
        then src (j - (pos - fs * g.SECTOR_SIZE)) else buf2 j) ns fs k.disk = some d := by
  unfold OpenFile.writeCore at h
  simp only at h
  split at h
  · simp at h
  · split at h
    · simp at h
    · exact ⟨_, h⟩

/-- Reading what was written through a handle that holds the same chain. For two handles on the same path: after a `WriteAt` through
one of them returns a non-zero count, if the other handle holds the header
chain the writer holds after the call (each handle keeps the copy it fetched
when it was opened or last extended the file itself), the written range lies
within that length (and below 2^32) and the written sectors are named by
pairwise distinct data slots, then `ReadAt` of the written range through the
other handle returns the same count and exactly the bytes written, and both
handles report the same `Length()`. -/
theorem WriteAt_then_ReadAt_other_handle (g : Geometry) (L : Limits) (k : Kernel)
    (f1 f2 : OpenFile) (src into : Nat → Nat) (n pos : Nat) (r : Int × Kernel × OpenFile)
    (hname : f2.fileName = f1.fileName)
    (hwrite : f1.WriteAt g L k src n pos = some r)
    (hcount : r.1 ≠ 0)
    (hhdr : f2.hdr = r.2.2.hdr)
    (hrange : pos + n ≤ r.2.2.Length)
    (hsmall : pos + n < 4294967296)
    (hinj : ∀ j1 j2, pos / g.SECTOR_SIZE ≤ j1 → j1 < j2 → j2 ≤ (pos + n - 1) / g.SECTOR_SIZE →
      f2.hdr.ByteToSector g (u32 (j1 * g.SECTOR_SIZE))
        ≠ f2.hdr.ByteToSector g (u32 (j2 * g.SECTOR_SIZE))) :
    ∃ into2 k2, f2.ReadAt g L r.2.1 into n pos = some (r.1, into2, k2) ∧
      (∀ t, t < n → into2 t = src t) ∧ f2.Length = r.2.2.Length := by
  have hlen : f2.Length = r.2.2.Length := by
    unfold OpenFile.Length
    rw [hhdr]
  unfold OpenFile.WriteAt at hwrite
  split at hwrite
  · simp at hwrite
  · rename_i hn0
    split at hwrite
    · simp at hwrite
    · rename_i fd hfd
      split at hwrite
      · simp at hwrite
      · rename_i hlock
        split at hwrite
        · simp at hwrite
        · simp only at hwrite
          split at hwrite
          · simp only [Option.some.injEq] at hwrite
            rw [← hwrite] at hcount
            simp at hcount
          · split at hwrite
            · simp at hwrite
            · simp only [Option.some.injEq] at hwrite
              rw [← hwrite] at hcount
              simp at hcount
            · rename_i k1 hdr1 hext
              split at hwrite
              · simp at hwrite
              · rename_i d hcore
                simp only [Option.some.injEq] at hwrite
                subst hwrite
                have htable : k1.listOpenFiles
                    = (setCondLock L f1.fileName (some k.currentThread) k).listOpenFiles := by
                  split at hext
                  · exact (extend_frame g L _ _ _ _ _ hext).1
                  · simp only [Option.some.injEq, Prod.mk.injEq, true_and] at hext
                    rw [← hext.1]
                obtain ⟨buf2, hw⟩ := writeCore_result g k1 _ src n pos _ _ _ d hcore
                have hhdr2 : f2.hdr = hdr1 := hhdr
                rw [← hhdr2] at hw
                have hrange2 : pos + n ≤ f2.hdr.FileLength := by
                  rw [hhdr2]; exact hrange
                have hnpos : 0 < n := Nat.pos_of_ne_zero hn0
                have hfind : FileList.Find L.FILE_NAME_MAX_LEN
                    (setCondLock L f1.fileName none (k1.withDisk d)).listOpenFiles f2.fileName
                    = some (FData.withCondLock none
                        (FData.withCondLock (some k.currentThread) fd)) := by
                  rw [hname]
                  have h1 : (setCondLock L f1.fileName none (k1.withDisk d)).listOpenFiles
                      = FileList.modify L.FILE_NAME_MAX_LEN f1.fileName (FData.withCondLock none)
                          (FileList.modify L.FILE_NAME_MAX_LEN f1.fileName
                            (FData.withCondLock (some k.currentThread)) k.listOpenFiles) := by
                    show FileList.modify L.FILE_NAME_MAX_LEN f1.fileName
                      (FData.withCondLock none) k1.listOpenFiles = _
                    rw [htable]
                    rfl
                  rw [h1]
                  exact FileList.Find_modify_self _ _ (FData.withCondLock none) (fun _ => rfl) _ _
                    (FileList.Find_modify_self _ _ (FData.withCondLock (some k.currentThread))
                      (fun _ => rfl) _ _ hfd)
                unfold OpenFile.ReadAt
                rw [if_neg hn0, hfind]
                have hc1 : ¬ (FData.withCondLock none
                    (FData.withCondLock (some k.currentThread) fd)).condLock
                    = some (setCondLock L f1.fileName none (k1.withDisk d)).currentThread := by
                  simp [FData.withCondLock]
                have hc2 : (FData.withCondLock none
                    (FData.withCondLock (some k.currentThread) fd)).condLock.isSome = false := rfl
                simp only [hc1, if_false, hc2, Bool.false_eq_true]
                obtain ⟨into2, hread, hbytes⟩ := readCore_after_write g k1.disk d
                  (Kernel.modifyEntry L f2.fileName (FData.addReadings 1)
                    (setCondLock L f1.fileName none (k1.withDisk d))).heap
                  f2 src into buf2 n pos hnpos hrange2 hsmall hw hinj
                have hdisk : (Kernel.modifyEntry L f2.fileName (FData.addReadings 1)
                    (setCondLock L f1.fileName none (k1.withDisk d))).disk = d := rfl
                rw [hdisk, hread]
                exact ⟨into2, _, rfl, hbytes, hlen⟩

/-- The lemma above on 200 bytes written at 0 through the handle on the empty
file `"a"` (two sectors), read through a second handle that holds the
writer's chain. -/
theorem WriteAt_then_ReadAt_other_handle_witness :
    write200.1 = 200 ∧
    ∃ into2 k2, reader200.ReadAt stdGeometry stdLimits write200.2.1 (fun _ => 0) 200 0
        = some (write200.1, into2, k2) ∧
      (∀ t, t < 200 → into2 t = (fun j => j % 251) t) ∧
      reader200.Length = write200.2.2.Length :=
  ⟨by decide!,
    WriteAt_then_ReadAt_other_handle stdGeometry stdLimits helloKernel helloHandle reader200
      (fun j => j % 251) (fun _ => 0) 200 0 write200 (by decide!)
      (some_getD_of_isSome _ _ (by decide!)) (by decide!) (by unfold reader200; dsimp only)
      (by decide!) (by decide)
      (fun j1 j2 h0 h12 h2 => by
        have e : (0 + 200 - 1) / stdGeometry.SECTOR_SIZE = 1 := by decide
        rw [e] at h2
        have e1 : j1 = 0 := by omega
        have e2 : j2 = 1 := by omega
        subst e1 e2
        decide!)⟩

open FileSystem

/-! ### `ChangeDir` -/

namespace FileList

theorem mem_of_Find (maxLen : Nat) (T : FileList) (a : Name) (fd : FData)
    (h : Find maxLen T a = some fd) : fd ∈ T :=
  List.mem_of_find?_eq_some h

theorem mem_unlink (maxLen : Nat) (a : Name) : ∀ (T : FileList) (x : FData),
    x ∈ unlink maxLen a T → x ∈ T := by
  intro T
  induction T with
  | nil => intro x h; simp [unlink] at h
  | cons y rest ih =>
    intro x h
    simp only [unlink] at h
    split at h
    · exact List.mem_cons_of_mem _ h
    · rcases List.mem_cons.1 h with h1 | h1
      · rw [h1]; exact List.mem_cons_self _ _
      · exact List.mem_cons_of_mem _ (ih x h1)

theorem mem_modify (maxLen : Nat) (a : Name) (f : FData → FData) : ∀ (T : FileList) (x : FData),
    x ∈ modify maxLen a f T → x ∈ T ∨ ∃ fd, Find maxLen T a = some fd ∧ x = f fd := by
  intro T
  induction T with
  | nil => intro x h; simp [modify] at h
  | cons y rest ih =>
    intro x h
    simp only [modify] at h
    by_cases hy : strncmpEq a y.name (maxLen + 1) = true
    · simp only [hy, if_true] at h
      rcases List.mem_cons.1 h with h1 | h1
      · exact Or.inr ⟨y, by simp [Find, List.find?_cons, hy], h1⟩
      · exact Or.inl (List.mem_cons_of_mem _ h1)
    · simp only [hy, Bool.false_eq_true, if_false] at h
      rcases List.mem_cons.1 h with h1 | h1
      · rw [h1]; exact Or.inl (List.mem_cons_self _ _)
      · rcases ih x h1 with h2 | ⟨fd, h2, h3⟩
        · exact Or.inl (List.mem_cons_of_mem _ h2)
        · exact Or.inr ⟨fd, by simp [Find, List.find?_cons, hy]; exact h2, h3⟩

theorem Quiet_unlink (maxLen : Nat) (a : Name) (T : FileList) (h : Quiet T) :
    Quiet (unlink maxLen a T) :=
  fun x hx => h x (mem_unlink maxLen a T x hx)

theorem Quiet_modify (maxLen : Nat) (a : Name) (f : FData → FData) (T : FileList) (h : Quiet T)
    (hf : ∀ fd, Find maxLen T a = some fd →
      (f fd).condLock = none ∧ (f fd).deleted = false ∧ 1 ≤ (f fd).inst) :
    Quiet (modify maxLen a f T) := by
  intro x hx
  rcases mem_modify maxLen a f T x hx with h1 | ⟨fd, h2, h3⟩
  · exact h x h1
  · rw [h3]; exact hf fd h2

theorem Quiet_Add (maxLen : Nat) (a : Name) (T : FileList) (h : Quiet T) :
    Quiet (Add maxLen T a) := by
  cases hf : Find maxLen T a with
  | none =>
    rw [Add_of_none _ _ _ hf]
    intro x hx
    rcases List.mem_append.1 hx with h1 | h1
    · exact h x h1
    · simp only [List.mem_singleton] at h1
      rw [h1]
      simp [FData.new]
  | some fd =>
    rw [Add_of_some _ _ _ fd hf]
    apply Quiet_modify _ _ _ _ h
    intro fd2 hfd2
    have := h fd2 (mem_of_Find _ _ _ _ hfd2)
    simp only [FData.addInst]
    exact ⟨this.1, this.2.1, by omega⟩

theorem Find_Add_isSome (maxLen : Nat) (a : Name) (T : FileList) :
    (Find maxLen (Add maxLen T a) a).isSome = true := by
  cases hf : Find maxLen T a with
  | none => rw [Add_of_none _ _ _ hf, Find_append_new _ _ _ hf]; rfl
  | some fd =>
    rw [Add_of_some _ _ _ fd hf, Find_modify_self _ _ (FData.addInst 1) (fun _ => rfl) _ _ hf]
    rfl

/-- Closing a handle in a quiet table changes the table alone and leaves it quiet. -/
theorem Remove_quiet (g : Geometry) (L : Limits) (k : Kernel) (name : Name)
    (hq : Quiet k.listOpenFiles) :
    ∃ T2, Remove g L k name = some (k.withTable T2) ∧ Quiet T2 := by
  unfold Remove
  cases hf : Find L.FILE_NAME_MAX_LEN k.listOpenFiles name with
  | none => exact ⟨k.listOpenFiles, rfl, hq⟩
  | some fd =>
    have hfd := hq fd (mem_of_Find _ _ _ _ hf)
    by_cases hi : fd.inst > 1
    · simp only [hi, if_true]
      refine ⟨_, rfl, Quiet_modify _ _ _ _ hq ?_⟩
      intro fd2 hfd2
      rw [hf] at hfd2
      simp only [Option.some.injEq] at hfd2
      subst hfd2
      simp only [FData.addInst]
      exact ⟨hfd.1, hfd.2.1, by omega⟩
    · simp only [hi, if_false]
      unfold DeleteFData
      rw [hf]
      simp only [hfd.2.1, Bool.false_eq_true, if_false]
      exact ⟨_, rfl, Quiet_unlink _ _ _ hq⟩

end FileList

theorem closeUnderListLock_quiet (L : Limits) (k : Kernel) (name : Name)
    (hq : FileList.Quiet k.listOpenFiles) :
    ∃ T2, closeUnderListLock L k name = some (k.withTable T2) ∧ FileList.Quiet T2 := by
  unfold closeUnderListLock
  cases hf : FileList.Find L.FILE_NAME_MAX_LEN k.listOpenFiles name with
  | none => exact ⟨k.listOpenFiles, rfl, hq⟩
  | some fd =>
    have hfd := hq fd (FileList.mem_of_Find _ _ _ _ hf)
    by_cases hi : fd.inst > 1
    · simp only [hi, if_true]
      refine ⟨_, rfl, FileList.Quiet_modify _ _ _ _ hq ?_⟩
      intro fd2 hfd2
      rw [hf] at hfd2
      simp only [Option.some.injEq] at hfd2
      subst hfd2
      simp only [FData.addInst]
      exact ⟨hfd.1, hfd.2.1, by omega⟩
    · simp only [hi, if_false, hfd.2.1, Bool.false_eq_true]
      exact ⟨_, rfl, FileList.Quiet_unlink _ _ _ hq⟩

theorem GetLockFromDir_mem : ∀ (l : List DNode) (name : Name) (n : DNode),
    DirectoryList.GetLockFromDir l name = some n → n ∈ l := by
  intro l
  induction l with
  | nil => intro name n h; simp [DirectoryList.GetLockFromDir] at h
  | cons a rest ih =>
    intro name n h
    cases rest with
    | nil => simp [DirectoryList.GetLockFromDir] at h
    | cons b rest2 =>
      simp only [DirectoryList.GetLockFromDir] at h
      split at h
      · simp only [Option.some.injEq] at h
        rw [← h]; exact List.mem_cons_self _ _
      · exact List.mem_cons_of_mem _ (ih name n h)

/-- In a quiet state the loop of `ChangeDir` finds what the walk over the
stored directories finds, and leaves the kernel as it was. -/
theorem walkSegments_spec (g : Geometry) (L : Limits) : ∀ (segs : List Name) (k : Kernel)
    (dir : Directory) (cur final : Int),
    FileList.Quiet k.listOpenFiles → (∀ n ∈ k.directoryList, n.dirlock = none) →
    resolve g L k.disk k.dirFiles segs dir cur = some final →
    walkSegments g L segs k dir cur = some (some final, k) := by
  intro segs
  induction segs with
  | nil =>
    intro k dir cur final _ _ h
    simp only [resolve, Option.some.injEq] at h
    simp [walkSegments, h]
  | cons seg rest ih =>
    intro k dir cur final hq hl h
    simp only [resolve] at h
    split at h
    · simp at h
    · rename_i hfound
      split at h
      · simp at h
      · rename_i hdr hfetch
        obtain ⟨hcreate, hsector⟩ := create_of_fetch g L k _ seg hdr hfetch
        have htomb : (match FileList.Find L.FILE_NAME_MAX_LEN k.listOpenFiles seg with
            | none => false
            | some fd => fd.deleted) = false := by
          cases hf : FileList.Find L.FILE_NAME_MAX_LEN k.listOpenFiles seg with
          | none => rfl
          | some fd => exact (hq fd (FileList.mem_of_Find _ _ _ _ hf)).2.1
        have hblocked : (match DirectoryList.GetLockFromDir
            (k.withTable (FileList.Add L.FILE_NAME_MAX_LEN k.listOpenFiles seg)).directoryList
              seg with
            | none => false
            | some n => n.dirlock.isSome) = false := by
          cases hg : DirectoryList.GetLockFromDir
              (k.withTable (FileList.Add L.FILE_NAME_MAX_LEN k.listOpenFiles seg)).directoryList
              seg with
          | none => rfl
          | some n =>
            have hmem : n ∈ k.directoryList := GetLockFromDir_mem _ _ _ hg
            simp [hl n hmem]
        have hread : Directory.FetchFrom L
            (k.withTable (FileList.Add L.FILE_NAME_MAX_LEN k.listOpenFiles seg)) ⟨hdr, 0, seg⟩
            = some (k.dirFiles hdr.sector) := by
          unfold Directory.FetchFrom
          rw [readSync_Add L k ⟨hdr, 0, seg⟩
            (fun fd hfd => (hq fd (FileList.mem_of_Find _ _ _ _ hfd)).1)]
          rfl
        have hclose : OpenFile.destroy g L
            (k.withTable (FileList.Add L.FILE_NAME_MAX_LEN k.listOpenFiles seg)) ⟨hdr, 0, seg⟩
            = some k :=
          FileList.Remove_Add g L k seg
            (fun fd hfd => (hq fd (FileList.mem_of_Find _ _ _ _ hfd)).2.2)
        simp only [walkSegments, htomb, hfound, Bool.false_eq_true, or_self, if_false, hcreate,
          hblocked, hread, hclose, hsector]
        exact ih k _ _ final hq hl h

open FileSystem

namespace DirectoryList

theorem Has_removeThread_self (n : DNode) (tid : Int) : Has (n.removeThread tid) tid = false := by
  simp [Has, DNode.removeThread]

theorem Has_removeThread_other (n : DNode) (tid t : Int) (h : t ≠ tid) :
    Has (n.removeThread tid) t = Has n t := by
  simp [Has, DNode.removeThread, h]

theorem removeFrom_spec (tid : Int) : ∀ (l : List DNode) (node : DNode),
    GetLock l tid = some node → List.countP (fun n => Has n tid) l ≤ 1 →
    ∃ l2 dn, removeFrom tid l = some (l2, dn) ∧
      (∀ n ∈ l2, Has n tid = false) ∧
      (∀ t, t ≠ tid → Get l2 t = Get l t) ∧
      (∀ n ∈ l2, ∃ m ∈ l, n.directoryFile = m.directoryFile) := by
  intro l
  induction l with
  | nil => intro node h; simp [GetLock] at h
  | cons n rest ih =>
    intro node hnode hcount
    by_cases hn : Has n tid = true
    · rw [List.countP_cons] at hcount
      simp only [hn, if_true] at hcount
      have h0 : List.countP (fun n => Has n tid) rest = 0 := by omega
      rw [List.countP_eq_zero] at h0
      have hrest : ∀ m ∈ rest, Has m tid = false := by
        intro m hm
        have := h0 m hm
        simpa using this
      by_cases he : (n.removeThread tid).threads.isEmpty = true
      · refine ⟨rest, some (n.removeThread tid), by simp [removeFrom, hn, he], hrest, ?_,
          fun m hm => ⟨m, List.mem_cons_of_mem _ hm, rfl⟩⟩
        intro t ht
        have hnt : Has n t = false := by
          have hall : (n.threads.filter (fun x => x ≠ tid)) = [] := by
            simpa [DNode.removeThread, List.isEmpty_iff] using he
          rw [List.filter_eq_nil_iff] at hall
          simp only [Has, decide_eq_false_iff_not]
          intro hmem
          have := hall t hmem
          simp at this
          exact ht this
        simp [Get, List.find?_cons, hnt]
      · refine ⟨n.removeThread tid :: rest, none, by simp [removeFrom, hn, he], ?_, ?_, ?_⟩
        · intro m hm
          rcases List.mem_cons.1 hm with h1 | h1
          · rw [h1]; exact Has_removeThread_self n tid
          · exact hrest m h1
        · intro t ht
          simp only [Get, List.find?_cons, Has_removeThread_other n tid t ht]
          cases Has n t <;> rfl
        · intro m hm
          rcases List.mem_cons.1 hm with h1 | h1
          · exact ⟨n, List.mem_cons_self _ _, by rw [h1]; rfl⟩
          · exact ⟨m, List.mem_cons_of_mem _ h1, rfl⟩
    · have hn2 : Has n tid = false := by simpa using hn
      simp only [GetLock, List.find?_cons, hn2] at hnode
      rw [List.countP_cons] at hcount
      obtain ⟨l2, dn, h1, h2, h3, h4⟩ := ih node hnode (by omega)
      refine ⟨n :: l2, dn, by simp [removeFrom, hn2, h1], ?_, ?_, ?_⟩
      · intro m hm
        rcases List.mem_cons.1 hm with h5 | h5
        · rw [h5]; exact hn2
        · exact h2 m h5
      · intro t ht
        have := h3 t ht
        simp only [Get, List.find?_cons] at this ⊢
        cases Has n t
        · exact this
        · rfl
      · intro m hm
        rcases List.mem_cons.1 hm with h5 | h5
        · exact ⟨n, List.mem_cons_self _ _, by rw [h5]⟩
        · obtain ⟨m2, h6, h7⟩ := h4 m h5
          exact ⟨m2, List.mem_cons_of_mem _ h6, h7⟩

theorem Add_spec (g : Geometry) (L : Limits) (k : Kernel) (tid : Int) (sector : Nat)
    (name : Name) (hdr : FileHeader)
    (hfetch : FileHeader.FetchFromFuel g k.disk (L.NUM_SECTORS + 1) sector sector = some hdr) :
    ∀ l : List DNode, (∀ n ∈ l, Has n tid = false) →
    ∃ l2 n2, Add g L k tid sector name l = some l2 ∧ GetLock l2 tid = some n2 ∧
      n2.directoryFile.fileName = name ∧
      ((∀ n ∈ l, n.directoryFile.fileName ≠ name) → n2.directoryFile.hdr.sector = sector) ∧
      (∀ t, t ≠ tid → Get l2 t = Get l t) := by
  obtain ⟨hcreate, hsector⟩ := create_of_fetch g L k sector name hdr hfetch
  intro l
  induction l with
  | nil =>
    intro _
    refine ⟨[⟨⟨hdr, 0, name⟩, [tid], none⟩], ⟨⟨hdr, 0, name⟩, [tid], none⟩, ?_, ?_, rfl,
      fun _ => hsector, ?_⟩
    · simp [Add, hcreate]
    · simp [GetLock, Has]
    · intro t ht
      simp [Get, Has, ht]
  | cons n rest ih =>
    intro hall
    have hn : Has n tid = false := hall n (List.mem_cons_self _ _)
    by_cases hname : n.directoryFile.fileName = name
    · refine ⟨{ n with threads := n.threads ++ [tid] } :: rest,
        { n with threads := n.threads ++ [tid] }, ?_, ?_, hname, ?_, ?_⟩
      · simp [Add, hn, hname]
      · simp [GetLock, Has]
      · intro hne
        exact absurd hname (hne n (List.mem_cons_self _ _))
      · intro t ht
        have h1 : Has { n with threads := n.threads ++ [tid] } t = Has n t := by
          simp [Has, ht]
        simp only [Get, List.find?_cons, h1]
        cases Has n t <;> rfl
    · obtain ⟨l2, n2, h1, h2, h3, h4, h5⟩ := ih (fun m hm => hall m (List.mem_cons_of_mem _ hm))
      refine ⟨n :: l2, n2, ?_, ?_, h3, ?_, ?_⟩
      · simp [Add, hn, hname, h1]
      · simp only [GetLock, List.find?_cons, hn]
        exact h2
      · intro hne
        exact h4 (fun m hm => hne m (List.mem_cons_of_mem _ hm))
      · intro t ht
        have := h5 t ht
        simp only [Get, List.find?_cons] at this ⊢
        cases Has n t
        · exact this
        · rfl

theorem Remove_spec (L : Limits) (k : Kernel) (node : DNode)
    (hq : FileList.Quiet k.listOpenFiles)
    (hnode : GetLock k.directoryList k.currentThread = some node)
    (honce : List.countP (fun n => Has n k.currentThread) k.directoryList ≤ 1) :
    ∃ l2 T2, Remove L k k.currentThread = some ((k.withDirectoryList l2).withTable T2) ∧
      FileList.Quiet T2 ∧
      (∀ n ∈ l2, Has n k.currentThread = false) ∧
      (∀ t, t ≠ k.currentThread → Get l2 t = Get k.directoryList t) ∧
      (∀ n ∈ l2, ∃ m ∈ k.directoryList, n.directoryFile = m.directoryFile) := by
  obtain ⟨l2, dn, h1, h2, h3, h4⟩ := removeFrom_spec k.currentThread k.directoryList node hnode
    honce
  unfold Remove
  rw [h1]
  cases dn with
  | none => exact ⟨l2, k.listOpenFiles, rfl, hq, h2, h3, h4⟩
  | some n =>
    obtain ⟨T2, h5, h6⟩ := closeUnderListLock_quiet L (k.withDirectoryList l2)
      n.directoryFile.fileName hq
    exact ⟨l2, T2, h5, h6, h2, h3, h4⟩

end DirectoryList

open FileSystem

theorem resolve_final (g : Geometry) (L : Limits) (d : Disk) (dirFiles : Nat → Directory) :
    ∀ (segs : List Name) (dir : Directory) (cur final : Int), segs ≠ [] →
    resolve g L d dirFiles segs dir cur = some final →
    0 ≤ final ∧
      (FileHeader.FetchFromFuel g d (L.NUM_SECTORS + 1) (ofInt final) (ofInt final)).isSome
        = true := by
  intro segs
  induction segs with
  | nil => intro dir cur final h; exact absurd rfl h
  | cons seg rest ih =>
    intro dir cur final _ h
    simp only [resolve] at h
    split at h
    · simp at h
    · rename_i hfound
      split at h
      · simp at h
      · rename_i hdr hfetch
        cases rest with
        | nil =>
          simp only [resolve, Option.some.injEq] at h
          rw [← h]
          exact ⟨by omega, by rw [hfetch]; rfl⟩
        | cons seg2 rest2 => exact ih _ _ final (by simp) h

theorem segments_ne_nil (p : Name) (h : p ≠ []) : segments p ≠ [] := by
  unfold segments
  cases p with
  | nil => exact absurd rfl h
  | cons c rest => simp [segmentsFuel]

theorem readSync_of_quiet (L : Limits) (k : Kernel) (file : OpenFile)
    (hq : FileList.Quiet k.listOpenFiles)
    (h : (FileList.Find L.FILE_NAME_MAX_LEN k.listOpenFiles file.fileName).isSome = true) :
    readSync L k file = true := by
  unfold readSync
  cases hf : FileList.Find L.FILE_NAME_MAX_LEN k.listOpenFiles file.fileName with
  | none => rw [hf] at h; simp at h
  | some fd => simp [(hq fd (FileList.mem_of_Find _ _ _ _ hf)).1]

theorem startWalk_absolute (g : Geometry) (L : Limits) (k : Kernel) (cwd : OpenFile)
    (path : Name) (node : DNode) (rh : FileHeader)
    (habs : path.head? = some '/')
    (hq : FileList.Quiet k.listOpenFiles)
    (hnode : DirectoryList.GetLock k.directoryList k.currentThread = some node)
    (hfree : node.dirlock = none)
    (hroot : FileHeader.FetchFromFuel g k.disk (L.NUM_SECTORS + 1) 1 1 = some rh) :
    ∃ T2, startWalk g L k cwd path = some (k.withTable T2, k.dirFiles 1, 1, path.drop 1) ∧
      FileList.Quiet T2 := by
  obtain ⟨hcreate, hsector⟩ := create_of_fetch g L k 1 ['/'] rh hroot
  have hk2 : ∃ Ta, (if (FileList.Find L.FILE_NAME_MAX_LEN k.listOpenFiles ['/']).isNone then
        k.withTable (FileList.Add L.FILE_NAME_MAX_LEN k.listOpenFiles ['/']) else k)
      = k.withTable Ta ∧ FileList.Quiet Ta ∧
        (FileList.Find L.FILE_NAME_MAX_LEN Ta ['/']).isSome = true := by
    cases hf : FileList.Find L.FILE_NAME_MAX_LEN k.listOpenFiles ['/'] with
    | none =>
      exact ⟨_, by simp, FileList.Quiet_Add _ _ _ hq, FileList.Find_Add_isSome _ _ _⟩
    | some fd => exact ⟨k.listOpenFiles, by simp; rfl, hq, by rw [hf]; rfl⟩
  obtain ⟨Ta, hTa, hqa, hsome⟩ := hk2
  have hnode2 : DirectoryList.GetLock (k.withTable Ta).directoryList
      (k.withTable Ta).currentThread = some node := hnode
  have hsync : readSync L (k.withTable Ta) ⟨rh, 0, ['/']⟩ = true :=
    readSync_of_quiet L (k.withTable Ta) _ hqa hsome
  obtain ⟨T2, hclose, hq2⟩ := FileList.Remove_quiet g L (k.withTable Ta) ['/'] hqa
  refine ⟨T2, ?_, hq2⟩
  unfold startWalk
  rw [if_pos habs]
  simp only [Option.bind_eq_bind, hcreate, Option.some_bind, hTa,
    lockDir_of_free (k.withTable Ta) node hnode2 hfree,
    FetchFrom_withDirLock L (k.withTable Ta) _ _ hsync,
    unlock_after_lock (k.withTable Ta) node hnode2 hfree]
  have hd : OpenFile.destroy g L (k.withTable Ta) ⟨rh, 0, ['/']⟩
      = some ((k.withTable Ta).withTable T2) := hclose
  rw [hd]
  simp only [Option.some_bind]
  have e1 : (k.withTable Ta).dirFiles rh.sector = k.dirFiles 1 := by rw [hsector]; rfl
  rw [e1]
  rfl

theorem startWalk_relative (g : Geometry) (L : Limits) (k : Kernel) (path : Name) (node : DNode)
    (hrel : ¬ path.head? = some '/')
    (hnode : DirectoryList.GetLock k.directoryList k.currentThread = some node)
    (hfree : node.dirlock = none)
    (hsync : readSync L k node.directoryFile = true) :
    startWalk g L k node.directoryFile path
      = some (k, k.dirFiles node.directoryFile.hdr.sector, -1, path) := by
  unfold startWalk
  rw [if_neg hrel]
  simp only [Option.bind_eq_bind, Option.some_bind, lockDir_of_free k node hnode hfree,
    FetchFrom_withDirLock L k _ _ hsync, unlock_after_lock k node hnode hfree]
  rfl

theorem moveThread_spec (g : Geometry) (L : Limits) (kw : Kernel) (final : Int) (path abs : Name)
    (node : DNode) (hdrF : FileHeader)
    (hq : FileList.Quiet kw.listOpenFiles)
    (hnode : DirectoryList.GetLock kw.directoryList kw.currentThread = some node)
    (honce : List.countP (fun n => DirectoryList.Has n kw.currentThread) kw.directoryList ≤ 1)
    (hfinal : 0 ≤ final)
    (hfetch : FileHeader.FetchFromFuel g kw.disk (L.NUM_SECTORS + 1) (ofInt final) (ofInt final)
      = some hdrF)
    (habs : FillPath kw path = some abs)
    (hroot : ofInt final = 1 → abs = ['/']) :
    ∃ k2 n2, moveThread g L kw final path = some (true, k2) ∧
      DirectoryList.GetLock k2.directoryList kw.currentThread = some n2 ∧
      n2.directoryFile.fileName = abs ∧
      ((∀ n ∈ kw.directoryList, n.directoryFile.fileName ≠ abs) →
        n2.directoryFile.hdr.sector = ofInt final) ∧
      (∀ t, t ≠ kw.currentThread →
        DirectoryList.Get k2.directoryList t = DirectoryList.Get kw.directoryList t) := by
  have hne : final ≠ -1 := by omega
  unfold moveThread
  rw [if_pos hne]
  by_cases hr : ofInt final ≠ 1
  · rw [if_pos hr]
    obtain ⟨l2, T2, h1, h2, h3, h4, h5⟩ := DirectoryList.Remove_spec L
      (kw.withTable (FileList.Add L.FILE_NAME_MAX_LEN kw.listOpenFiles abs)) node
      (FileList.Quiet_Add _ _ _ hq) hnode honce
    obtain ⟨l3, n3, h6, h7, h8, h9, h10⟩ := DirectoryList.Add_spec g L
      (((kw.withTable (FileList.Add L.FILE_NAME_MAX_LEN kw.listOpenFiles abs)).withDirectoryList
        l2).withTable T2) kw.currentThread (ofInt final) abs hdrF hfetch l2 h3
    refine ⟨(((kw.withTable (FileList.Add L.FILE_NAME_MAX_LEN kw.listOpenFiles
      abs)).withDirectoryList l2).withTable T2).withDirectoryList l3, n3, ?_, h7, h8, ?_, ?_⟩
    · simp only [habs, Option.bind_eq_bind, Option.some_bind]
      have h1b : DirectoryList.Remove L
          (kw.withTable (FileList.Add L.FILE_NAME_MAX_LEN kw.listOpenFiles abs))
          (kw.withTable (FileList.Add L.FILE_NAME_MAX_LEN kw.listOpenFiles abs)).currentThread
          = some (((kw.withTable (FileList.Add L.FILE_NAME_MAX_LEN kw.listOpenFiles
              abs)).withDirectoryList l2).withTable T2) := h1
      rw [h1b]
      simp only [Option.some_bind]
      have h6b : DirectoryList.Add g L
          (((kw.withTable (FileList.Add L.FILE_NAME_MAX_LEN kw.listOpenFiles
            abs)).withDirectoryList l2).withTable T2)
          (((kw.withTable (FileList.Add L.FILE_NAME_MAX_LEN kw.listOpenFiles
            abs)).withDirectoryList l2).withTable T2).currentThread (ofInt final) abs
          (((kw.withTable (FileList.Add L.FILE_NAME_MAX_LEN kw.listOpenFiles
            abs)).withDirectoryList l2).withTable T2).directoryList = some l3 := h6
      rw [h6b]
      rfl
    · intro hno
      apply h9
      intro n hn heq
      obtain ⟨m, hm, hmf⟩ := h5 n hn
      rw [hmf] at heq
      exact hno m hm heq
    · intro t ht
      show DirectoryList.Get l3 t = _
      rw [h10 t ht]
      exact h4 t ht
  · have hr1 : ofInt final = 1 := by
      by_contra hc
      exact hr hc
    rw [if_neg hr]
    have habs2 : abs = ['/'] := hroot hr1
    subst habs2
    rw [hr1] at hfetch
    obtain ⟨l2, T2, h1, h2, h3, h4, h5⟩ := DirectoryList.Remove_spec L kw node hq hnode honce
    obtain ⟨l3, n3, h6, h7, h8, h9, h10⟩ := DirectoryList.Add_spec g L
      (((kw.withDirectoryList l2).withTable T2).withTable
        (FileList.Add L.FILE_NAME_MAX_LEN T2 ['/'])) kw.currentThread 1 ['/'] hdrF hfetch l2 h3
    refine ⟨(((kw.withDirectoryList l2).withTable T2).withTable
      (FileList.Add L.FILE_NAME_MAX_LEN T2 ['/'])).withDirectoryList l3, n3, ?_, h7, h8, ?_, ?_⟩
    · simp only [Option.bind_eq_bind, h1, Option.some_bind]
      have h6b : DirectoryList.Add g L
          (((kw.withDirectoryList l2).withTable T2).withTable
            (FileList.Add L.FILE_NAME_MAX_LEN
              ((kw.withDirectoryList l2).withTable T2).listOpenFiles ['/']))
          (((kw.withDirectoryList l2).withTable T2).withTable
            (FileList.Add L.FILE_NAME_MAX_LEN
              ((kw.withDirectoryList l2).withTable T2).listOpenFiles ['/'])).currentThread
          1 ['/']
          (((kw.withDirectoryList l2).withTable T2).withTable
            (FileList.Add L.FILE_NAME_MAX_LEN
              ((kw.withDirectoryList l2).withTable T2).listOpenFiles ['/'])).directoryList
          = some l3 := h6
      rw [h6b]
      rfl
    · intro hno
      rw [hr1]
      apply h9
      intro n hn heq
      obtain ⟨m, hm, hmf⟩ := h5 n hn
      rw [hmf] at heq
      exact hno m hm heq
    · intro t ht
      show DirectoryList.Get l3 t = _
      rw [h10 t ht]
      exact h4 t ht

open FileSystem

/-- The successful exit of `ChangeDir`. In a quiet state (no directory lock and no table lock is
held, no table entry is tombstoned, every count is positive, the calling thread
is in one entry of the directory-use list, registered under an absolute path
that has an entry in the open-file table, and the root header can be fetched):
when `path` is not empty and every segment of it is found while walking from
the root (absolute path) or from the working directory (relative path), with
only the path `"/"` ending in sector 1, `ChangeDir(path)` returns true;
afterwards the directory-use list maps the calling thread to an entry whose
directory file is named by the absolute path of `path`, that entry's handle is
on the sector found for the last segment when the entry is new, and no other
thread is mapped differently. -/
theorem ChangeDir_moves_calling_thread (g : Geometry) (L : Limits) (k : Kernel) (path : Name)
    (node : DNode) (final : Int)
    (hpath : path ≠ [])
    (hnode : DirectoryList.GetLock k.directoryList k.currentThread = some node)
    (honce : List.countP (fun n => DirectoryList.Has n k.currentThread) k.directoryList ≤ 1)
    (hlocks : ∀ n ∈ k.directoryList, n.dirlock = none)
    (hquiet : FileList.Quiet k.listOpenFiles)
    (hcwdabs : node.directoryFile.fileName.head? = some '/')
    (hcwd : (FileList.Find L.FILE_NAME_MAX_LEN k.listOpenFiles
      node.directoryFile.fileName).isSome = true)
    (hrootfetch : (FileHeader.FetchFromFuel g k.disk (L.NUM_SECTORS + 1) 1 1).isSome = true)
    (hfound : resolve g L k.disk k.dirFiles
      (segments (if path.head? = some '/' then path.drop 1 else path))
      (k.dirFiles (if path.head? = some '/' then 1 else node.directoryFile.hdr.sector))
      (if path.head? = some '/' then 1 else -1) = some final)
    (hnotroot : ofInt final = 1 → path = ['/']) :
    ∃ k2 n2 abs, ChangeDir g L k path = some (true, k2) ∧ FillPath k path = some abs ∧
      DirectoryList.GetLock k2.directoryList k.currentThread = some n2 ∧
      n2.directoryFile.fileName = abs ∧
      ((∀ n ∈ k.directoryList, n.directoryFile.fileName ≠ abs) →
        n2.directoryFile.hdr.sector = ofInt final) ∧
      (∀ t, t ≠ k.currentThread →
        DirectoryList.Get k2.directoryList t = DirectoryList.Get k.directoryList t) := by
  have hmem : node ∈ k.directoryList := List.mem_of_find?_eq_some hnode
  have hfree : node.dirlock = none := hlocks node hmem
  have hcheck := CheckDirectoryUse_of_node g L k node hnode
  have hget := Get_of_node k node hnode
  unfold ChangeDir
  simp only [hcheck, hget, Option.bind_eq_bind, Option.some_bind]
  by_cases hsame : node.directoryFile.fileName = path
  · rw [if_pos hsame]
    have hhead : path.head? = some '/' := by rw [← hsame]; exact hcwdabs
    refine ⟨k, node, path, rfl, ?_, hnode, hsame, ?_, fun _ _ => rfl⟩
    · unfold FillPath
      rw [if_pos hhead]
    · intro hno
      exact absurd hsame (hno node hmem)
  · rw [if_neg hsame]
    by_cases habs : path.head? = some '/'
    · simp only [habs, if_true] at hfound
      obtain ⟨rh, hrh⟩ := Option.isSome_iff_exists.1 hrootfetch
      obtain ⟨T2, hstart, hq2⟩ := startWalk_absolute g L k node.directoryFile path node rh habs
        hquiet hnode hfree hrh
      have hwalk := walkSegments_spec g L (segments (path.drop 1)) (k.withTable T2)
        (k.dirFiles 1) 1 final hq2 hlocks hfound
      have hfin : 0 ≤ final ∧ (FileHeader.FetchFromFuel g k.disk (L.NUM_SECTORS + 1)
          (ofInt final) (ofInt final)).isSome = true := by
        by_cases hs : segments (path.drop 1) = []
        · rw [hs] at hfound
          simp only [resolve, Option.some.injEq] at hfound
          rw [← hfound]
          exact ⟨by omega, hrootfetch⟩
        · exact resolve_final g L k.disk k.dirFiles _ _ _ final hs hfound
      obtain ⟨hdrF, hF⟩ := Option.isSome_iff_exists.1 hfin.2
      have hfill : FillPath (k.withTable T2) path = some path := by
        unfold FillPath
        rw [if_pos habs]
      have hfill2 : FillPath k path = some path := by
        unfold FillPath
        rw [if_pos habs]
      obtain ⟨k2, n2, h1, h2, h3, h4, h5⟩ := moveThread_spec g L (k.withTable T2) final path
        path node hdrF hq2 hnode honce hfin.1 hF hfill hnotroot
      refine ⟨k2, n2, path, ?_, hfill2, h2, h3, h4, h5⟩
      rw [hstart]
      simp only [Option.some_bind, hwalk]
      exact h1
    · simp only [habs, if_false] at hfound
      have hstart := startWalk_relative g L k path node habs hnode hfree
        (readSync_of_quiet L k _ hquiet hcwd)
      have hwalk := walkSegments_spec g L (segments path) k
        (k.dirFiles node.directoryFile.hdr.sector) (-1) final hquiet hlocks hfound
      have hfin := resolve_final g L k.disk k.dirFiles _ _ _ final (segments_ne_nil path hpath)
        hfound
      obtain ⟨hdrF, hF⟩ := Option.isSome_iff_exists.1 hfin.2
      have hfill : FillPath k path = some (node.directoryFile.fileName
          ++ (if node.directoryFile.fileName ≠ ['/'] then ['/'] else []) ++ path) := by
        unfold FillPath
        rw [if_neg habs, hget]
      obtain ⟨k2, n2, h1, h2, h3, h4, h5⟩ := moveThread_spec g L k final path _ node hdrF hquiet
        hnode honce hfin.1 hF hfill
        (fun h => by
          have := hnotroot h
          rw [this] at habs
          exact absurd rfl habs)
      refine ⟨k2, n2, _, ?_, hfill, h2, h3, h4, h5⟩
      rw [hstart]
      simp only [Option.some_bind, hwalk]
      exact h1

/-- The lemma above on `ChangeDir("d")` right after `CreateDir("d")`, together
with the documented run (a file created in `"/d"` is found by `Open` after
`ChangeDir("/")` and `ChangeDir("/d")`). -/
theorem ChangeDir_moves_calling_thread_witness :
    runHierarchy = some ([true, true, true, true, true], true) ∧
    FillPath dirKernel ['d'] = some ['/', 'd'] ∧
    ∃ k2 n2 abs, ChangeDir stdGeometry stdLimits dirKernel ['d'] = some (true, k2) ∧
      FillPath dirKernel ['d'] = some abs ∧
      DirectoryList.GetLock k2.directoryList dirKernel.currentThread = some n2 ∧
      n2.directoryFile.fileName = abs ∧
      ((∀ n ∈ dirKernel.directoryList, n.directoryFile.fileName ≠ abs) →
        n2.directoryFile.hdr.sector = ofInt 5) ∧
      (∀ t, t ≠ dirKernel.currentThread →
        DirectoryList.Get k2.directoryList t = DirectoryList.Get dirKernel.directoryList t) :=
  ⟨by decide!, by decide!,
    ChangeDir_moves_calling_thread stdGeometry stdLimits dirKernel ['d'] dirNode 5
      (by decide) (some_getD_of_isSome _ _ (by decide!)) (by decide!) (by decide!) (by decide!)
      (by decide!) (by decide!) (by decide!) (by decide!)
      (fun h => absurd h (by decide))⟩

open FileSystem

/-- C24 (code at the failing input). `Allocate(map64, 3840)` on a fresh header
returns true and leaves one header with `numBytes = 3840` over 29 sectors and
no next header: more than `(NUM_DIRECT - 1) * SECTOR_SIZE = 3712` bytes and
`numSectors ≠ ceil(numBytes / SECTOR_SIZE)`, so the chain is not well formed.
The extension step of `WriteAt(from, 500, 3000)` on the well-formed one-header
chain of `Allocate(map64, 3000)` leaves a first header of 3500 bytes that has
a next header (in sector 30, holding 0 bytes): not well formed either. -/
theorem Allocate_and_extension_break_WellFormed :
    (FileHeader.Allocate stdGeometry zeroHeader map64 zeroHeader 3840).map
        (fun r => (r.1, decide (r.2.2.WellFormed stdGeometry),
          r.2.2.chain.map (fun hd => (hd.raw.numBytes, hd.raw.numSectors))))
      = some (true, false, [(3840, 29)]) ∧
    alloc3000.1 = true ∧ alloc3000.2.2.WellFormed stdGeometry ∧
    extend3000.map (fun r => (r.1, decide (r.2.2.2.WellFormed stdGeometry),
        r.2.2.2.chain.map (fun hd => (hd.raw.numBytes, hd.raw.numSectors,
          hd.raw.dataSectors (stdGeometry.NUM_DIRECT - 1)))))
      = some (true, false, [(3500, 28, 30), (0, 0, 0)]) := by
  decide!

/-- C25 (code at the failing input). On the freshly formatted disk the table
keeps the count 1 for `"/"` and one live handle is named `"/"` (the directory
handle of the directory-use list).  After `List()` that handle is still alive
and the table has no entry for `"/"`. -/
theorem List_drops_root_entry : runList = some ((1, 1), (0, 1)) := by
  decide!

/-- C30 (code at the failing input). `Create("x", 0)` returns true and enters
`"x"` with `isDir = false`; `ChangeDir("x")` then returns true and the working
directory of the calling thread becomes `"/x"`. -/
theorem ChangeDir_enters_plain_file :
    runFileAsDir = some ((true, some false), (true, some ['/', 'x'])) := by
  decide!

/-! ### `ByteToSector` on sector-aligned offsets -/

namespace FileHeader

theorem FileLength_link_le (r : RawFileHeader) (s : Nat) (n : FileHeader) :
    (link r s n).FileLength ≤ r.numBytes + n.FileLength := by
  simp only [FileLength, u32]
  exact Nat.mod_le _ _

theorem aligned_div (g : Geometry) (k e : Nat) (he : e < g.SECTOR_SIZE) :
    (k * g.SECTOR_SIZE + e) / g.SECTOR_SIZE = k := by
  rw [Nat.add_comm, Nat.add_mul_div_right _ _ g.hSector, Nat.div_eq_of_lt he, Nat.zero_add]

/-- At the header reached after skipping `e` headers the offset carries an
excess of `e` bytes (one per header skipped); as long as `e` stays below
`SECTOR_SIZE` the excess does not change the slot. -/
theorem ByteToSector_aligned_aux (g : Geometry) : ∀ (h : FileHeader) (e k : Nat),
    h.WellFormed g → e + h.chain.length ≤ g.SECTOR_SIZE → k * g.SECTOR_SIZE < h.FileLength →
    ∃ hd, h.chain.get? (k / (g.NUM_DIRECT - 1)) = some hd ∧
      h.ByteToSector g (k * g.SECTOR_SIZE + e)
        = some (hd.raw.dataSectors (k % (g.NUM_DIRECT - 1))) := by
  intro h
  have hD : 1 ≤ g.NUM_DIRECT - 1 := by have := g.hDirect; omega
  have hfirst : ∀ (x : FileHeader) (e k : Nat), e < g.SECTOR_SIZE → k < g.NUM_DIRECT - 1 →
      ¬ (k * g.SECTOR_SIZE + e > (g.NUM_DIRECT - 1) * g.SECTOR_SIZE - 1) := by
    intro x e k he hk
    have h1 : (k + 1) * g.SECTOR_SIZE ≤ (g.NUM_DIRECT - 1) * g.SECTOR_SIZE :=
      Nat.mul_le_mul_right _ hk
    rw [Nat.add_mul, Nat.one_mul] at h1
    omega
  induction h with
  | last r s =>
    intro e k hwf hlen hk
    simp only [WellFormed, Geometry.cap] at hwf
    simp only [chain, List.length_singleton] at hlen
    simp only [FileLength] at hk
    have hkD : k < g.NUM_DIRECT - 1 := by
      by_contra hc
      have : (g.NUM_DIRECT - 1) * g.SECTOR_SIZE ≤ k * g.SECTOR_SIZE :=
        Nat.mul_le_mul_right _ (Nat.le_of_not_lt hc)
      omega
    refine ⟨last r s, ?_, ?_⟩
    · simp [chain, Nat.div_eq_of_lt hkD]
    · simp only [ByteToSector]
      rw [if_neg (hfirst (last r s) e k (by omega) hkD), aligned_div g k e (by omega),
        Nat.mod_eq_of_lt hkD]
      rfl
  | link r s n ih =>
    intro e k hwf hlen hk
    simp only [WellFormed, Geometry.cap] at hwf
    obtain ⟨hnb, _, _, hwfn⟩ := hwf
    simp only [chain, List.length_cons] at hlen
    have hk2 : k * g.SECTOR_SIZE < r.numBytes + n.FileLength :=
      lt_of_lt_of_le hk (FileLength_link_le r s n)
    by_cases hkD : k < g.NUM_DIRECT - 1
    · refine ⟨link r s n, ?_, ?_⟩
      · simp [chain, Nat.div_eq_of_lt hkD]
      · simp only [ByteToSector]
        rw [if_neg (hfirst (link r s n) e k (by omega) hkD), aligned_div g k e (by omega),
          Nat.mod_eq_of_lt hkD]
        rfl
    · have hkD2 : g.NUM_DIRECT - 1 ≤ k := Nat.le_of_not_lt hkD
      have hmul : (g.NUM_DIRECT - 1) * g.SECTOR_SIZE ≤ k * g.SECTOR_SIZE :=
        Nat.mul_le_mul_right _ hkD2
      have hsub : (k - (g.NUM_DIRECT - 1)) * g.SECTOR_SIZE
          = k * g.SECTOR_SIZE - (g.NUM_DIRECT - 1) * g.SECTOR_SIZE := Nat.sub_mul _ _ _
      have hpos : 1 ≤ (g.NUM_DIRECT - 1) * g.SECTOR_SIZE :=
        Nat.mul_pos hD g.hSector
      obtain ⟨hd, hget, hb⟩ := ih (e + 1) (k - (g.NUM_DIRECT - 1)) hwfn (by omega)
        (by rw [hsub]; omega)
      have hkeq : k = (k - (g.NUM_DIRECT - 1)) + (g.NUM_DIRECT - 1) := by omega
      refine ⟨hd, ?_, ?_⟩
      · rw [hkeq, Nat.add_div_right _ hD]
        simpa [chain] using hget
      · simp only [ByteToSector]
        rw [if_pos (by omega)]
        have hoff : k * g.SECTOR_SIZE + e - ((g.NUM_DIRECT - 1) * g.SECTOR_SIZE - 1)
            = (k - (g.NUM_DIRECT - 1)) * g.SECTOR_SIZE + (e + 1) := by
          rw [hsub]; omega
        rw [hoff, hb]
        congr 2
        conv_rhs => rw [hkeq]
        rw [Nat.add_mod_right]

end FileHeader

/-- C28. For a well-formed chain of at most `SECTOR_SIZE` headers and a sector
index `k` with `k * SECTOR_SIZE < FileLength()`, `ByteToSector(k * SECTOR_SIZE)`
returns data slot `k mod (NUM_DIRECT - 1)` of the header at position
`k div (NUM_DIRECT - 1)` of the chain, which is the slot the specification
assigns to that offset; and the pair (header position, slot index) determines
`k`, so distinct sector indices map to distinct slots. -/
theorem ByteToSector_aligned_offsets (g : Geometry) (h : FileHeader) (k : Nat)
    (hwf : h.WellFormed g) (hlen : h.chain.length ≤ g.SECTOR_SIZE)
    (hk : k * g.SECTOR_SIZE < h.FileLength) :
    (∃ hd, h.chain.get? (k / (g.NUM_DIRECT - 1)) = some hd ∧
      h.ByteToSector g (k * g.SECTOR_SIZE)
        = some (hd.raw.dataSectors (k % (g.NUM_DIRECT - 1)))) ∧
    h.ByteToSector g (k * g.SECTOR_SIZE) = slotPerSpec g h (k * g.SECTOR_SIZE) ∧
    ∀ k2, k2 / (g.NUM_DIRECT - 1) = k / (g.NUM_DIRECT - 1) →
      k2 % (g.NUM_DIRECT - 1) = k % (g.NUM_DIRECT - 1) → k2 = k := by
  obtain ⟨hd, hget, hb⟩ := FileHeader.ByteToSector_aligned_aux g h 0 k hwf (by omega) hk
  rw [Nat.add_zero] at hb
  refine ⟨⟨hd, hget, hb⟩, ?_, ?_⟩
  · rw [hb]
    simp only [slotPerSpec, Nat.mul_div_cancel _ g.hSector, hget, Option.map_some']
  · intro k2 hdiv hmod
    rw [← Nat.div_add_mod k2 (g.NUM_DIRECT - 1), ← Nat.div_add_mod k (g.NUM_DIRECT - 1), hdiv, hmod]

/-- C28 on the two-header chain `twoHeaderChain`: sector index 29 is the first
sector of the second header, stored in sector 200. -/
theorem ByteToSector_aligned_offsets_witness :
    twoHeaderChain.WellFormed stdGeometry ∧
    twoHeaderChain.ByteToSector stdGeometry (29 * stdGeometry.SECTOR_SIZE) = some 200 ∧
    ((∃ hd, twoHeaderChain.chain.get? (29 / (stdGeometry.NUM_DIRECT - 1)) = some hd ∧
      twoHeaderChain.ByteToSector stdGeometry (29 * stdGeometry.SECTOR_SIZE)
        = some (hd.raw.dataSectors (29 % (stdGeometry.NUM_DIRECT - 1)))) ∧
    twoHeaderChain.ByteToSector stdGeometry (29 * stdGeometry.SECTOR_SIZE)
      = slotPerSpec stdGeometry twoHeaderChain (29 * stdGeometry.SECTOR_SIZE) ∧
    ∀ k2, k2 / (stdGeometry.NUM_DIRECT - 1) = 29 / (stdGeometry.NUM_DIRECT - 1) →
      k2 % (stdGeometry.NUM_DIRECT - 1) = 29 % (stdGeometry.NUM_DIRECT - 1) → k2 = 29) :=
  ⟨by decide, by decide,
    ByteToSector_aligned_offsets stdGeometry twoHeaderChain 29 (by decide) (by decide)
      (by decide)⟩

/-! ### `Deallocate` after `Allocate` -/

namespace FileHeader

theorem owned_perm_recorded (g : Geometry) : ∀ h : FileHeader, h.Linked g →
    h.owned.Perm (h.recorded g) := by
  intro h
  induction h with
  | last r s => intro _; exact List.Perm.refl _
  | link r s n ih =>
    intro hl
    simp only [Linked] at hl
    obtain ⟨h1, h2⟩ := hl
    simp only [owned, recorded, h1]
    have h3 : (dataSlots r ++ n.sector :: owned n).Perm (n.sector :: owned n ++ dataSlots r) :=
      List.perm_append_comm
    exact h3.trans (((ih h2).append_right _).cons _)

end FileHeader

theorem Bitmap.eq_of_Test (a b : Bitmap) (hl : a.bits.length = b.bits.length)
    (h : ∀ j, a.Test j = b.Test j) : a = b := by
  cases a with
  | mk x =>
    cases b with
    | mk y =>
      congr
      apply List.ext_getElem hl
      intro i h1 h2
      have := h i
      simp only [Bitmap.Test] at this
      rwa [List.getD_eq_getElem _ _ h1, List.getD_eq_getElem _ _ h2] at this

/-- C29. When `Allocate(m, fileSize)` on a fresh header returns true, leaving
the map `m'` and the chain `h'`, `Deallocate` on `h'` with `m'` returns (no
`ASSERT` fails) and the map it leaves is exactly `m`. -/
theorem Deallocate_after_Allocate_restores (g : Geometry) (junk this : FileHeader)
    (m m' : Bitmap) (fileSize : Nat) (h' : FileHeader)
    (hfresh : this.next = none) (hbits : m.bits.length ≤ 4294967296)
    (hret : FileHeader.Allocate g junk m this fileSize = some (true, m', h')) :
    h'.Deallocate m' = some m := by
  obtain ⟨hlow, hhigh⟩ := Allocate_spec g junk m this fileSize hfresh hbits
  by_cases hc : m.CountClear < DivRoundUp fileSize g.SECTOR_SIZE
  · obtain ⟨h'', he⟩ := hlow hc
    rw [he] at hret
    simp at hret
  · obtain ⟨m2, h2, he, htook, _, _, hlinked⟩ := hhigh (by omega)
    rw [he] at hret
    simp only [Option.some.injEq, Prod.mk.injEq, true_and] at hret
    obtain ⟨rfl, rfl⟩ := hret
    obtain ⟨hlen, hnodup, hclear, htest, _⟩ := htook
    have hperm := FileHeader.owned_perm_recorded g h2 hlinked
    obtain ⟨m3, hd, hl3, ht3⟩ := Deallocate_spec h2 m2 (hperm.nodup_iff.mpr hnodup)
      (fun s hs => by rw [htest s]; simp [hperm.mem_iff.mp hs])
    rw [hd]
    congr 1
    apply Bitmap.eq_of_Test
    · rw [hl3, hlen]
    · intro j
      rw [ht3 j, htest j]
      by_cases hj : j ∈ h2.recorded g
      · simp [hperm.mem_iff.mpr hj, (hclear j hj).2]
      · have : j ∉ h2.owned := fun hx => hj (hperm.mem_iff.mp hx)
        simp [hj, this]

/-- C29 on `Allocate(map64, 5120)`: the chain of two headers is deallocated
and the map is `map64` again. -/
theorem Deallocate_after_Allocate_restores_witness :
    zeroHeader.next = none ∧ map64.bits.length ≤ 4294967296 ∧
    FileHeader.Allocate stdGeometry zeroHeader map64 zeroHeader 5120
      = some (true, allocExample.2.1, allocExample.2.2) ∧
    allocExample.2.1 ≠ map64 ∧
    allocExample.2.2.Deallocate allocExample.2.1 = some map64 :=
  have h : FileHeader.Allocate stdGeometry zeroHeader map64 zeroHeader 5120
      = some (true, allocExample.2.1, allocExample.2.2) := by
    have h1 := some_getD_of_isSome
      (FileHeader.Allocate stdGeometry zeroHeader map64 zeroHeader 5120)
      (false, map64, zeroHeader) (by decide!)
    have h2 : allocExample.1 = true := by decide!
    rw [h1]
    exact congrArg some (Prod.ext h2.symm rfl)
  ⟨rfl, by decide, h, by decide!,
    Deallocate_after_Allocate_restores stdGeometry zeroHeader zeroHeader map64
      allocExample.2.1 5120 allocExample.2.2 rfl (by decide) h⟩

/-! ### Invariants of the directory-use list -/

namespace DirectoryList

theorem Has_iff (n : DNode) (id : Int) : Has n id = true ↔ id ∈ n.threads := by
  simp [Has]

theorem removeFrom_sub (id : Int) : ∀ (l : List DNode) (r : List DNode × Option DNode),
    removeFrom id l = some r →
    (r.1.flatMap (fun n => n.threads)).Sublist (l.flatMap (fun n => n.threads)) ∧
    (r.1.map (fun n => n.directoryFile.fileName)).Sublist
      (l.map (fun n => n.directoryFile.fileName)) ∧
    ((∀ n ∈ l, n.threads ≠ []) → ∀ n ∈ r.1, n.threads ≠ []) ∧
    ((l.flatMap (fun n => n.threads)).Nodup → id ∉ r.1.flatMap (fun n => n.threads)) := by
  intro l
  induction l with
  | nil => intro r h; simp [removeFrom] at h
  | cons n rest ih =>
    intro r h
    simp only [removeFrom] at h
    by_cases hHas : Has n id = true
    · rw [if_pos hHas] at h
      have hfilter : (n.removeThread id).threads.Sublist n.threads := by
        simp only [DNode.removeThread]
        exact List.filter_sublist _
      have hnot : id ∉ (n.removeThread id).threads := by
        simp [DNode.removeThread]
      have hrest : ((n :: rest).flatMap (fun n => n.threads)).Nodup →
          id ∉ rest.flatMap (fun n => n.threads) := by
        intro hnd hmem
        simp only [List.flatMap_cons] at hnd
        exact (List.nodup_append.mp hnd).2.2 ((Has_iff n id).mp hHas) hmem
      by_cases hE : (n.removeThread id).threads.isEmpty = true
      · rw [if_pos hE] at h
        simp only [Option.some.injEq] at h
        subst h
        refine ⟨?_, ?_, ?_, hrest⟩
        · simp only [List.flatMap_cons]
          exact List.sublist_append_right _ _
        · simp only [List.map_cons]
          exact List.sublist_cons_self _ _
        · intro hne x hx
          exact hne x (List.mem_cons_of_mem _ hx)
      · rw [if_neg hE] at h
        simp only [Option.some.injEq] at h
        subst h
        refine ⟨?_, ?_, ?_, ?_⟩
        · simp only [List.flatMap_cons]
          exact List.Sublist.append hfilter (List.Sublist.refl _)
        · simp only [List.map_cons, DNode.removeThread]
          exact List.Sublist.refl _
        · intro hne x hx
          rcases List.mem_cons.mp hx with rfl | hx
          · intro h0
            apply hE
            simp [h0]
          · exact hne x (List.mem_cons_of_mem _ hx)
        · intro hnd
          simp only [List.flatMap_cons, List.mem_append, not_or]
          exact ⟨hnot, hrest hnd⟩
    · rw [if_neg hHas] at h
      cases hr : removeFrom id rest with
      | none => rw [hr] at h; simp at h
      | some r' =>
        rw [hr] at h
        simp only [Option.map_some', Option.some.injEq] at h
        subst h
        obtain ⟨h1, h2, h3, h4⟩ := ih r' hr
        refine ⟨?_, ?_, ?_, ?_⟩
        · simp only [List.flatMap_cons]
          exact List.Sublist.append (List.Sublist.refl _) h1
        · simp only [List.map_cons]
          exact h2.cons₂ _
        · intro hne x hx
          rcases List.mem_cons.mp hx with rfl | hx
          · exact hne _ (List.mem_cons_self _ _)
          · exact h3 (fun y hy => hne y (List.mem_cons_of_mem _ hy)) x hx
        · intro hnd
          simp only [List.flatMap_cons] at hnd ⊢
          simp only [List.mem_append, not_or]
          exact ⟨fun hx => hHas ((Has_iff n id).mpr hx), h4 (List.nodup_append.mp hnd).2.1⟩

theorem removeFrom_Inv (id : Int) (l : List DNode) (r : List DNode × Option DNode)
    (h : removeFrom id l = some r) (hinv : Inv l) :
    Inv r.1 ∧ id ∉ r.1.flatMap (fun n => n.threads) := by
  obtain ⟨h1, h2, h3, h4⟩ := removeFrom_sub id l r h
  exact ⟨⟨hinv.1.sublist h1, h3 hinv.2.1, hinv.2.2.sublist h2⟩, h4 hinv.1⟩

theorem removeFrom_isSome (id : Int) : ∀ (l : List DNode),
    (∃ n ∈ l, Has n id = true) → (removeFrom id l).isSome = true := by
  intro l
  induction l with
  | nil => intro h; obtain ⟨n, hn, _⟩ := h; simp at hn
  | cons n rest ih =>
    intro h
    simp only [removeFrom]
    by_cases hHas : Has n id = true
    · rw [if_pos hHas]
      split <;> rfl
    · rw [if_neg hHas]
      obtain ⟨x, hx, hxh⟩ := h
      rcases List.mem_cons.mp hx with rfl | hx
      · exact absurd hxh hHas
      · have := ih ⟨x, hx, hxh⟩
        cases hr : removeFrom id rest with
        | none => rw [hr] at this; simp at this
        | some r => rfl

theorem Add_Inv (g : Geometry) (L : Limits) (k : Kernel) (id : Int) (sector : Nat)
    (name : Name) : ∀ (l l2 : List DNode), Add g L k id sector name l = some l2 →
    (l2.flatMap (fun n => n.threads)).Perm (id :: l.flatMap (fun n => n.threads)) ∧
    ((∀ n ∈ l, n.threads ≠ []) → ∀ n ∈ l2, n.threads ≠ []) ∧
    ((l2.map (fun n => n.directoryFile.fileName) = l.map (fun n => n.directoryFile.fileName) ∧
        name ∈ l.map (fun n => n.directoryFile.fileName)) ∨
      (l2.map (fun n => n.directoryFile.fileName)
          = l.map (fun n => n.directoryFile.fileName) ++ [name] ∧
        name ∉ l.map (fun n => n.directoryFile.fileName))) := by
  intro l
  induction l with
  | nil =>
    intro l2 h
    simp only [Add] at h
    cases hc : OpenFile.create g L k sector name with
    | none => rw [hc] at h; simp at h
    | some dir =>
      rw [hc] at h
      simp only [Option.some.injEq] at h
      subst h
      have hname : dir.fileName = name := by
        simp only [OpenFile.create] at hc
        split at hc
        · simp at hc
        · simp only [Option.some.injEq] at hc
          rw [← hc]
      refine ⟨by simp, ?_, Or.inr ⟨by simp [hname], by simp⟩⟩
      intro _ x hx
      simp only [List.mem_singleton] at hx
      subst hx
      simp
  | cons n rest ih =>
    intro l2 h
    simp only [Add] at h
    by_cases hHas : Has n id = true
    · rw [if_pos hHas] at h; simp at h
    · rw [if_neg hHas] at h
      by_cases hn : n.directoryFile.fileName = name
      · rw [if_pos hn] at h
        simp only [Option.some.injEq] at h
        subst h
        refine ⟨?_, ?_, Or.inl ⟨by simp, by simp [hn]⟩⟩
        · simp only [List.flatMap_cons, List.append_assoc]
          have h1 : (n.threads ++ ([id] ++ rest.flatMap (fun n => n.threads))).Perm
              (([id] ++ rest.flatMap (fun n => n.threads)) ++ n.threads) :=
            List.perm_append_comm
          have h2 : (([id] ++ rest.flatMap (fun n => n.threads)) ++ n.threads).Perm
              (id :: (n.threads ++ rest.flatMap (fun n => n.threads))) := by
            simp only [List.singleton_append, List.cons_append]
            exact (List.perm_append_comm).cons _
          exact h1.trans h2
        · intro hne x hx
          rcases List.mem_cons.mp hx with rfl | hx
          · simp
          · exact hne x (List.mem_cons_of_mem _ hx)
      · rw [if_neg hn] at h
        cases hr : Add g L k id sector name rest with
        | none => rw [hr] at h; simp at h
        | some l3 =>
          rw [hr] at h
          simp only [Option.map_some', Option.some.injEq] at h
          subst h
          obtain ⟨h1, h2, h3⟩ := ih l3 hr
          refine ⟨?_, ?_, ?_⟩
          · simp only [List.flatMap_cons]
            have h4 : (n.threads ++ l3.flatMap (fun n => n.threads)).Perm
                (n.threads ++ id :: rest.flatMap (fun n => n.threads)) := h1.append_left _
            exact h4.trans List.perm_middle
          · intro hne x hx
            rcases List.mem_cons.mp hx with rfl | hx
            · exact hne _ (List.mem_cons_self _ _)
            · exact h2 (fun y hy => hne y (List.mem_cons_of_mem _ hy)) x hx
          · rcases h3 with ⟨h5, h6⟩ | ⟨h5, h6⟩
            · exact Or.inl ⟨by simp [h5], by simp [h6]⟩
            · refine Or.inr ⟨by simp [h5], ?_⟩
              simp only [List.map_cons, List.mem_cons, not_or]
              exact ⟨fun hx => hn hx.symm, h6⟩

theorem Add_keeps_Inv (g : Geometry) (L : Limits) (k : Kernel) (id : Int) (sector : Nat)
    (name : Name) (l l2 : List DNode) (h : Add g L k id sector name l = some l2)
    (hinv : Inv l) (hid : id ∉ l.flatMap (fun n => n.threads)) : Inv l2 := by
  obtain ⟨h1, h2, h3⟩ := Add_Inv g L k id sector name l l2 h
  refine ⟨h1.nodup_iff.mpr (List.nodup_cons.mpr ⟨hid, hinv.1⟩), h2 hinv.2.1, ?_⟩
  rcases h3 with ⟨h5, _⟩ | ⟨h5, h6⟩
  · rw [h5]; exact hinv.2.2
  · rw [h5]
    exact List.Nodup.append hinv.2.2 (List.nodup_singleton _) (by
      intro a ha hb
      simp only [List.mem_singleton] at hb
      subst hb
      exact h6 ha)

theorem Remove_list (L : Limits) (k k1 : Kernel) (id : Int)
    (h : DirectoryList.Remove L k id = some k1) :
    ∃ r, removeFrom id k.directoryList = some r ∧ k1.directoryList = r.1 := by
  simp only [DirectoryList.Remove] at h
  split at h
  · simp at h
  · next l hr =>
    simp only [Option.some.injEq] at h
    subst h
    exact ⟨_, hr, rfl⟩
  · next l n hr =>
    refine ⟨_, hr, ?_⟩
    simp only [closeUnderListLock] at h
    split at h
    · simp only [Option.some.injEq] at h
      subst h; rfl
    · split at h
      · simp only [Option.some.injEq] at h
        subst h; rfl
      · split at h
        · simp at h
        · simp only [Option.some.injEq] at h
          subst h; rfl

end DirectoryList

/-- C26. When the invariants of the directory-use list hold (a thread id
occurs in at most one node and at most once in it, every node holds at least
one id, no two nodes have the same directory file name), they hold again
after `CheckDirectoryUse`, after `Remove(id)`, and after `Remove(id)` followed
by `Add(id, sector, name)`.  The loop of `Remove(id)` finds a node whenever
some node holds `id` (`ASSERT(false)` is not reached), and `DNode::Remove`
leaves that node with exactly one id fewer, which is what `size--` records. -/
theorem DirectoryList_keeps_invariants (g : Geometry) (L : Limits) (k : Kernel) (id : Int)
    (sector : Nat) (name : Name) (hinv : DirectoryList.Inv k.directoryList) :
    (∀ k1, DirectoryList.CheckDirectoryUse g L k = some k1 →
      DirectoryList.Inv k1.directoryList) ∧
    (∀ k1, DirectoryList.Remove L k id = some k1 →
      DirectoryList.Inv k1.directoryList ∧
      ∀ l, DirectoryList.Add g L k1 id sector name k1.directoryList = some l →
        DirectoryList.Inv l) ∧
    ((∃ n ∈ k.directoryList, DirectoryList.Has n id = true) →
      (DirectoryList.removeFrom id k.directoryList).isSome = true) ∧
    (∀ n ∈ k.directoryList, DirectoryList.Has n id = true →
      (n.removeThread id).threads.length + 1 = n.threads.length) := by
  refine ⟨?_, ?_, DirectoryList.removeFrom_isSome id k.directoryList, ?_⟩
  · intro k1 h
    simp only [DirectoryList.CheckDirectoryUse] at h
    split at h
    · simp only [Option.some.injEq] at h
      subst h; exact hinv
    · next hany =>
      split at h
      · simp at h
      · next l hl =>
        simp only [Option.some.injEq] at h
        subst h
        apply DirectoryList.Add_keeps_Inv g L k k.currentThread 1 ['/'] _ l hl hinv
        intro hmem
        apply hany
        simp only [List.mem_flatMap] at hmem
        obtain ⟨n, hn, ht⟩ := hmem
        exact List.any_eq_true.mpr ⟨n, hn, (DirectoryList.Has_iff n _).mpr ht⟩
  · intro k1 h
    obtain ⟨r, hr, hl⟩ := DirectoryList.Remove_list L k k1 id h
    obtain ⟨h1, h2⟩ := DirectoryList.removeFrom_Inv id _ r hr hinv
    rw [hl]
    exact ⟨h1, fun l ha => DirectoryList.Add_keeps_Inv g L k1 id sector name _ l ha h1 h2⟩
  · intro n hn hHas
    have hnd : n.threads.Nodup := by
      have := hinv.1
      exact (List.nodup_flatMap.mp this).1 n hn
    have hmem : id ∈ n.threads := (DirectoryList.Has_iff n id).mp hHas
    have h1 : (n.threads.filter (fun t => decide (t ≠ id))) = n.threads.erase id := by
      rw [hnd.erase_eq_filter]
      congr 1
      funext t
      by_cases ht : t = id <;> simp [ht]
    simp only [DNode.removeThread, h1, List.length_erase_of_mem hmem]
    have : 0 < n.threads.length := List.length_pos_of_mem hmem
    omega

/-- C26 on the kernel after `CreateDir("d")`, where thread 0 is in `"/"`:
thread 0 leaves its node and joins a node for `"/d"` (header sector 5), as
`ChangeDir("d")` does. -/
theorem DirectoryList_keeps_invariants_witness :
    DirectoryList.Inv dirKernel.directoryList ∧
    (DirectoryList.Remove stdLimits dirKernel 0).isSome = true ∧
    ((∀ k1, DirectoryList.CheckDirectoryUse stdGeometry stdLimits dirKernel = some k1 →
      DirectoryList.Inv k1.directoryList) ∧
    (∀ k1, DirectoryList.Remove stdLimits dirKernel 0 = some k1 →
      DirectoryList.Inv k1.directoryList ∧
      ∀ l, DirectoryList.Add stdGeometry stdLimits k1 0 5 ['/', 'd'] k1.directoryList = some l →
        DirectoryList.Inv l) ∧
    ((∃ n ∈ dirKernel.directoryList, DirectoryList.Has n 0 = true) →
      (DirectoryList.removeFrom 0 dirKernel.directoryList).isSome = true) ∧
    (∀ n ∈ dirKernel.directoryList, DirectoryList.Has n 0 = true →
      (n.removeThread 0).threads.length + 1 = n.threads.length)) :=
  ⟨by decide!, by decide!,
    DirectoryList_keeps_invariants stdGeometry stdLimits dirKernel 0 5 ['/', 'd'] (by decide!)⟩

/-! ### The counters of the open-file table -/

namespace FileList

/-- The invariant behind the counters: no entry has a writer recorded and no
`readings` is negative. -/
theorem Counters_of_idle (T : FileList) (h : ∀ fd ∈ T, fd.writings = 0 ∧ 0 ≤ fd.readings) :
    Counters T := by
  intro fd hfd
  obtain ⟨h1, h2⟩ := h fd hfd
  refine ⟨Or.inl h1, ?_, h2⟩
  intro h3
  rw [h1] at h3
  exact absurd h3 (by decide)

theorem idle_modify (maxLen : Nat) (a : Name) (f : FData → FData) (T : FileList)
    (h : ∀ fd ∈ T, fd.writings = 0 ∧ 0 ≤ fd.readings)
    (hf : ∀ fd, fd.writings = 0 ∧ 0 ≤ fd.readings → (f fd).writings = 0 ∧ 0 ≤ (f fd).readings) :
    ∀ fd ∈ modify maxLen a f T, fd.writings = 0 ∧ 0 ≤ fd.readings := by
  intro x hx
  rcases mem_modify maxLen a f T x hx with hx | ⟨fd, hfd, rfl⟩
  · exact h x hx
  · exact hf fd (h fd (mem_of_Find maxLen T a fd hfd))

theorem idle_unlink (maxLen : Nat) (a : Name) (T : FileList)
    (h : ∀ fd ∈ T, fd.writings = 0 ∧ 0 ≤ fd.readings) :
    ∀ fd ∈ unlink maxLen a T, fd.writings = 0 ∧ 0 ≤ fd.readings :=
  fun x hx => h x (mem_unlink maxLen a T x hx)

theorem idle_new (name : Name) :
    (FData.new name).writings = 0 ∧ 0 ≤ (FData.new name).readings := by
  simp [FData.new]

theorem idle_Add (maxLen : Nat) (a : Name) (T : FileList)
    (h : ∀ fd ∈ T, fd.writings = 0 ∧ 0 ≤ fd.readings) :
    ∀ fd ∈ Add maxLen T a, fd.writings = 0 ∧ 0 ≤ fd.readings := by
  simp only [Add]
  split
  · intro x hx
    simp only [List.mem_singleton] at hx
    subst hx
    exact idle_new a
  · split
    · exact idle_modify maxLen a _ T h (fun fd hfd => hfd)
    · intro x hx
      rcases List.mem_append.mp hx with hx | hx
      · exact h x hx
      · simp only [List.mem_singleton] at hx
        subst hx
        exact idle_new a

end FileList

theorem lockDir_table (k k1 : Kernel) (h : lockDir k = some k1) :
    k1.listOpenFiles = k.listOpenFiles := by
  simp only [lockDir] at h
  split at h
  · simp at h
  · split at h
    · simp at h
    · simp only [Option.some.injEq] at h
      subst h; rfl

theorem unlockDir_table (k k1 : Kernel) (h : unlockDir k = some k1) :
    k1.listOpenFiles = k.listOpenFiles := by
  simp only [unlockDir] at h
  split at h
  · simp at h
  · split at h
    · simp only [Option.some.injEq] at h
      subst h; rfl
    · simp at h

theorem CheckDirectoryUse_counters (g : Geometry) (L : Limits) (k k1 : Kernel)
    (h : DirectoryList.CheckDirectoryUse g L k = some k1)
    (hc : ∀ fd ∈ k.listOpenFiles, fd.writings = 0 ∧ 0 ≤ fd.readings) :
    ∀ fd ∈ k1.listOpenFiles, fd.writings = 0 ∧ 0 ≤ fd.readings := by
  simp only [DirectoryList.CheckDirectoryUse] at h
  split at h
  · simp only [Option.some.injEq] at h
    subst h; exact hc
  · split at h
    · simp at h
    · simp only [Option.some.injEq] at h
      subst h
      exact FileList.idle_Add _ _ _ hc

theorem BitmapWriteBack_table (L : Limits) (k k1 : Kernel) (m : Bitmap) (file : OpenFile)
    (h : Bitmap.WriteBack L k m file = some k1) : k1.listOpenFiles = k.listOpenFiles := by
  simp only [Bitmap.WriteBack] at h
  split at h
  · simp only [Option.some.injEq] at h
    subst h; rfl
  · simp at h

theorem DirectoryWriteBack_table (L : Limits) (k k1 : Kernel) (dir : Directory)
    (file : OpenFile) (h : Directory.WriteBack L k dir file = some k1) :
    k1.listOpenFiles = k.listOpenFiles := by
  simp only [Directory.WriteBack] at h
  split at h
  · simp only [Option.some.injEq] at h
    subst h; rfl
  · simp at h

theorem Remove_counters (g : Geometry) (L : Limits) (k : Kernel) (name : Name)
    (r : Bool × Kernel) (h : FileSystem.Remove g L k name = some r)
    (hc : ∀ fd ∈ k.listOpenFiles, fd.writings = 0 ∧ 0 ≤ fd.readings) :
    ∀ fd ∈ r.2.listOpenFiles, fd.writings = 0 ∧ 0 ≤ fd.readings := by
  simp only [FileSystem.Remove, bind, Option.bind_eq_some, pure] at h
  obtain ⟨k1, h1, k2, h2, cwd, h3, dir, h4, abs, h5, h6⟩ := h
  have hc2 : ∀ fd ∈ k2.listOpenFiles, fd.writings = 0 ∧ 0 ≤ fd.readings := by
    rw [lockDir_table k1 k2 h2]
    exact CheckDirectoryUse_counters g L k k1 h1 hc
  split at h6
  · simp only [Option.bind_eq_some, Option.some.injEq] at h6
    obtain ⟨k3, h7, rfl⟩ := h6
    show ∀ fd ∈ k3.listOpenFiles, fd.writings = 0 ∧ 0 ≤ fd.readings
    rw [unlockDir_table _ k3 h7]
    exact hc2
  · split at h6
    · simp only [Option.bind_eq_some, Option.some.injEq] at h6
      obtain ⟨k4, h7, rfl⟩ := h6
      show ∀ fd ∈ k4.listOpenFiles, fd.writings = 0 ∧ 0 ≤ fd.readings
      rw [unlockDir_table _ k4 h7]
      exact FileList.idle_modify _ _ _ _ hc2 (fun fd hfd => hfd)
    · simp only [Option.bind_eq_some, Option.some.injEq] at h6
      obtain ⟨fileH, _, freeMap, _, freeMap1, _, k3, h8, k4, h9, k5, h10, rfl⟩ := h6
      show ∀ fd ∈ k5.listOpenFiles, fd.writings = 0 ∧ 0 ≤ fd.readings
      rw [unlockDir_table _ k5 h10, DirectoryWriteBack_table L _ k4 _ _ h9,
        BitmapWriteBack_table L _ k3 _ _ h8]
      exact hc2

theorem FileListRemove_idle (g : Geometry) (L : Limits) (k k1 : Kernel) (name : Name)
    (h : FileList.Remove g L k name = some k1)
    (hc : ∀ fd ∈ k.listOpenFiles, fd.writings = 0 ∧ 0 ≤ fd.readings) :
    ∀ fd ∈ k1.listOpenFiles, fd.writings = 0 ∧ 0 ≤ fd.readings := by
  simp only [FileList.Remove] at h
  split at h
  · simp only [Option.some.injEq] at h
    subst h; exact hc
  · split at h
    · simp only [Option.some.injEq] at h
      subst h
      exact FileList.idle_modify _ _ _ _ hc (fun fd hfd => hfd)
    · simp only [FileList.DeleteFData] at h
      split at h
      · simp at h
      · split at h
        · simp only [Option.map_eq_some'] at h
          obtain ⟨r, hr, rfl⟩ := h
          exact Remove_counters g L _ name r hr (FileList.idle_unlink _ _ _ hc)
        · simp only [Option.some.injEq] at h
          subst h
          exact FileList.idle_unlink _ _ _ hc

theorem addReadings_cancel (fd : FData) :
    FData.addReadings (-1) (FData.addReadings 1 fd) = fd := by
  cases fd
  simp [FData.addReadings]

/-- `ReadAt` leaves the table as it found it: the exit bookkeeping undoes the
entry bookkeeping. -/
theorem ReadAt_table (g : Geometry) (L : Limits) (k : Kernel) (f : OpenFile)
    (into : Nat → Nat) (n pos : Nat) (r : Int × (Nat → Nat) × Kernel)
    (h : f.ReadAt g L k into n pos = some r) : r.2.2 = k := by
  simp only [OpenFile.ReadAt] at h
  split at h
  · simp at h
  · split at h
    · simp at h
    · next fd hfd =>
      split at h
      · split at h
        · simp at h
        · simp only [Option.some.injEq] at h
          subst h; rfl
      · split at h
        · simp at h
        · split at h
          · simp at h
          · simp only [Option.some.injEq] at h
            subst h
            show (k.modifyEntry L f.fileName (FData.addReadings 1)).modifyEntry L f.fileName
              (FData.addReadings (-1)) = k
            simp only [Kernel.modifyEntry, Kernel.withTable]
            rw [FileList.modify_modify L.FILE_NAME_MAX_LEN f.fileName (FData.addReadings (-1))
              (FData.addReadings 1) (fun e => rfl),
              FileList.modify_eq_self L.FILE_NAME_MAX_LEN f.fileName
                (FData.addReadings (-1) ∘ FData.addReadings 1) k.listOpenFiles
                (fun x _ => addReadings_cancel x)]

theorem WriteAt_idle (g : Geometry) (L : Limits) (k : Kernel) (f : OpenFile)
    (src : Nat → Nat) (n pos : Nat) (r : Int × Kernel × OpenFile)
    (h : f.WriteAt g L k src n pos = some r)
    (hc : ∀ fd ∈ k.listOpenFiles, fd.writings = 0 ∧ 0 ≤ fd.readings) :
    ∀ fd ∈ r.2.1.listOpenFiles, fd.writings = 0 ∧ 0 ≤ fd.readings := by
  have hk0 : ∀ fd ∈ (setCondLock L f.fileName (some k.currentThread) k).listOpenFiles,
      fd.writings = 0 ∧ 0 ≤ fd.readings :=
    FileList.idle_modify _ _ _ _ hc (fun fd hfd => hfd)
  have hrel : ∀ k1 : Kernel, (∀ fd ∈ k1.listOpenFiles, fd.writings = 0 ∧ 0 ≤ fd.readings) →
      ∀ fd ∈ (setCondLock L f.fileName none k1).listOpenFiles,
        fd.writings = 0 ∧ 0 ≤ fd.readings :=
    fun k1 h1 => FileList.idle_modify _ _ _ _ h1 (fun fd hfd => hfd)
  simp only [OpenFile.WriteAt] at h
  split at h
  · simp at h
  · split at h
    · simp at h
    · split at h
      · simp at h
      · split at h
        · simp at h
        · split at h
          · simp only [Option.some.injEq] at h
            subst h
            exact hrel _ hk0
          · split at h
            · simp at h
            · next k1 hdr1 hext =>
              simp only [Option.some.injEq] at h
              subst h
              apply hrel
              split at hext
              · rw [(extend_frame g L _ _ _ _ _ hext).1]
                exact hk0
              · simp only [Option.some.injEq, Prod.mk.injEq] at hext
                rw [← hext.2.1]
                exact hk0
            · next k1 hdr1 hext =>
              split at h
              · simp at h
              · simp only [Option.some.injEq] at h
                subst h
                apply hrel
                show ∀ fd ∈ k1.listOpenFiles, fd.writings = 0 ∧ 0 ≤ fd.readings
                split at hext
                · rw [(extend_frame g L _ _ _ _ _ hext).1]
                  exact hk0
                · simp only [Option.some.injEq, Prod.mk.injEq] at hext
                  rw [← hext.2.1]
                  exact hk0

theorem TableReached_idle (g : Geometry) (L : Limits) (k : Kernel) (h : TableReached g L k) :
    ∀ fd ∈ k.listOpenFiles, fd.writings = 0 ∧ 0 ≤ fd.readings := by
  induction h with
  | start k h0 => intro fd hfd; rw [h0] at hfd; simp at hfd
  | add k name _ ih => exact FileList.idle_Add _ _ _ ih
  | remove k k1 name _ hr ih => exact FileListRemove_idle g L k k1 name hr ih
  | inside k f fd _ _ _ ih =>
    exact FileList.idle_modify _ _ _ _ ih (fun x hx => by
      simp only [FData.addReadings]
      exact ⟨hx.1, by omega⟩)
  | readAt k f into n pos r _ hr ih => rw [ReadAt_table g L k f into n pos r hr]; exact ih
  | writeAt k f src n pos r _ hw ih => exact WriteAt_idle g L k f src n pos r hw ih

/-- C27. In every state reached from an empty open-file table by `Add` and
`Remove` on the table and by `ReadAt` and `WriteAt` on handles (the state of a
`ReadAt` between its two bookkeeping blocks included), every entry has
`writings` in {0, 1} (it is 0: no code changes it), `writings = 1` only with
`readings = 0`, and `readings ≥ 0`; and every `ReadAt` that returns leaves the
table, hence each `readings` counter, as it was on entry. -/
theorem table_counters_invariant (g : Geometry) (L : Limits) (k : Kernel)
    (h : TableReached g L k) :
    FileList.Counters k.listOpenFiles ∧ (∀ fd ∈ k.listOpenFiles, fd.writings = 0) ∧
    ∀ (f : OpenFile) (into : Nat → Nat) (n pos : Nat) (r : Int × (Nat → Nat) × Kernel),
      f.ReadAt g L k into n pos = some r → r.2.2.listOpenFiles = k.listOpenFiles :=
  ⟨FileList.Counters_of_idle _ (TableReached_idle g L k h),
    fun fd hfd => (TableReached_idle g L k h fd hfd).1,
    fun f into n pos r hr => by rw [ReadAt_table g L k f into n pos r hr]⟩

/-! ### The contract of `ReadAt` -/

/-- What `readCore` returns when every sector of the request can be
translated: the clamped count, the bytes of the sectors `ByteToSector` names,
and the rest of `into` untouched. -/
theorem readCore_spec (g : Geometry) (d : Disk) (heap : Nat → Nat) (f : OpenFile)
    (into : Nat → Nat) (n pos : Nat) (hn : 0 < n) (hsmall : pos + n < 4294967296)
    (hres : ∀ j, pos / g.SECTOR_SIZE ≤ j → j * g.SECTOR_SIZE < f.hdr.FileLength →
      j * g.SECTOR_SIZE < pos + n → ∃ s, f.hdr.ByteToSector g (j * g.SECTOR_SIZE) = some s) :
    ∃ into2, OpenFile.readCore g d heap f into n pos
        = some ((if f.hdr.FileLength ≤ pos then 0 else min n (f.hdr.FileLength - pos)), into2) ∧
      (∀ t, t < (if f.hdr.FileLength ≤ pos then 0 else min n (f.hdr.FileLength - pos)) →
        ∀ s, f.hdr.ByteToSector g ((pos + t) / g.SECTOR_SIZE * g.SECTOR_SIZE) = some s →
          into2 t = (d s).asData ((pos + t) % g.SECTOR_SIZE)) ∧
      (∀ t, (if f.hdr.FileLength ≤ pos then 0 else min n (f.hdr.FileLength - pos)) ≤ t →
        into2 t = into t) := by
  have hSS := g.hSector
  by_cases hlen : f.hdr.FileLength ≤ pos
  · refine ⟨into, ?_, ?_, ?_⟩
    · unfold OpenFile.readCore
      simp only [ge_iff_le, hlen, if_true]
    · intro t ht
      simp only [hlen, if_true] at ht
      omega
    · intro t _; rfl
  · simp only [hlen, if_false]
    generalize hc : min n (f.hdr.FileLength - pos) = c
    have hc1 : 0 < c := by omega
    have hc2 : c ≤ n := by omega
    have hc3 : pos + c ≤ f.hdr.FileLength := by omega
    have hu1 : u32 (pos + n) = pos + n := by unfold u32; omega
    have hu2 : u32 (pos + c - 1) = pos + c - 1 := by unfold u32; omega
    have hclip : (if u32 (pos + n) > f.hdr.FileLength then f.hdr.FileLength - pos else n) = c := by
      rw [hu1, ← hc]
      split <;> omega
    generalize hfs : pos / g.SECTOR_SIZE = fs at *
    generalize hls : (pos + c - 1) / g.SECTOR_SIZE = ls at *
    have hfl : fs ≤ ls := by
      rw [← hfs, ← hls]
      exact Nat.div_le_div_right (by omega)
    have hP1 : fs * g.SECTOR_SIZE ≤ pos := by
      rw [← hfs]
      exact (div_bounds pos g.SECTOR_SIZE hSS).1
    have hP1b : pos < (fs + 1) * g.SECTOR_SIZE := by
      rw [← hfs]
      exact (div_bounds pos g.SECTOR_SIZE hSS).2
    have hP2 : pos + c - 1 < (ls + 1) * g.SECTOR_SIZE := by
      rw [← hls]
      exact (div_bounds (pos + c - 1) g.SECTOR_SIZE hSS).2
    have hP2b : ls * g.SECTOR_SIZE ≤ pos + c - 1 := by
      rw [← hls]
      exact (div_bounds (pos + c - 1) g.SECTOR_SIZE hSS).1
    have hP3 : (1 + ls - fs) * g.SECTOR_SIZE = (ls + 1) * g.SECTOR_SIZE - fs * g.SECTOR_SIZE := by
      rw [← Nat.sub_mul]
      congr 1
      omega
    have hrange : ∀ j, fs ≤ j → j < fs + (1 + ls - fs) →
        j * g.SECTOR_SIZE < f.hdr.FileLength ∧ u32 (j * g.SECTOR_SIZE) = j * g.SECTOR_SIZE ∧
          j * g.SECTOR_SIZE < pos + n := by
      intro j _ hj
      have : j * g.SECTOR_SIZE ≤ ls * g.SECTOR_SIZE := Nat.mul_le_mul_right _ (by omega)
      refine ⟨by omega, ?_, by omega⟩
      unfold u32
      omega
    obtain ⟨buf3, hr1, _, hr3⟩ := readSectors_spec g d f.hdr fs (1 + ls - fs) fs heap
      (Nat.le_refl _)
      (fun j a b => by
        rw [(hrange j a b).2.1]
        exact hres j a (hrange j a b).1 (hrange j a b).2.2)
    refine ⟨fun j => if j < c then buf3 (pos - fs * g.SECTOR_SIZE + j) else into j, ?_, ?_, ?_⟩
    · unfold OpenFile.readCore
      simp only [ge_iff_le, hlen, if_false, hclip, DivRoundDown, hu2, hfs, hls, hr1]
    · intro t ht s hs
      simp only [ht, if_true]
      obtain ⟨hb1, hb2⟩ := div_bounds (pos + t) g.SECTOR_SIZE hSS
      have hmod : (pos + t) % g.SECTOR_SIZE = pos + t - (pos + t) / g.SECTOR_SIZE * g.SECTOR_SIZE := by
        have := Nat.div_add_mod (pos + t) g.SECTOR_SIZE
        rw [Nat.mul_comm] at this
        omega
      have hq1 : fs ≤ (pos + t) / g.SECTOR_SIZE := by
        rw [← hfs]
        exact Nat.div_le_div_right (by omega)
      have hq2 : (pos + t) / g.SECTOR_SIZE ≤ ls := by
        rw [← hls]
        exact Nat.div_le_div_right (by omega)
      rw [hmod]
      generalize (pos + t) / g.SECTOR_SIZE = q at hs hb1 hb2 hq1 hq2
      have hqm : fs * g.SECTOR_SIZE ≤ q * g.SECTOR_SIZE := Nat.mul_le_mul_right _ hq1
      have hsub : (q - fs) * g.SECTOR_SIZE = q * g.SECTOR_SIZE - fs * g.SECTOR_SIZE :=
        Nat.sub_mul _ _ _
      have hsub1 : (q - fs + 1) * g.SECTOR_SIZE
          = (q + 1) * g.SECTOR_SIZE - fs * g.SECTOR_SIZE := by
        rw [← Nat.sub_mul]
        congr 1
        omega
      have hq1m : fs * g.SECTOR_SIZE ≤ (q + 1) * g.SECTOR_SIZE :=
        Nat.mul_le_mul_right _ (by omega)
      rw [hr3 q s (pos - fs * g.SECTOR_SIZE + t) hq1 (by omega)
        (by rw [(hrange q hq1 (by omega)).2.1]; exact hs)
        (by rw [hsub]; omega) (by rw [hsub1]; omega)]
      congr 1
      rw [hsub]
      omega
    · intro t ht
      simp only [show ¬ t < c by omega, if_false]

/-- What `ReadAt` does on a well-formed chain. For a handle whose chain is well formed and has at most `SECTOR_SIZE`
headers, `n > 0` and `pos + n < 2^31`, in a state where the entry of the file
is in the table and its lock is not held by another thread: `ReadAt(buf, n,
pos)` returns `0` when `pos ≥ Length()` and `min(n, Length() - pos)`
otherwise, the first that many bytes of `buf` are the bytes of the file from
`pos` on, the rest of `buf` is untouched, and the kernel state (disk and table)
is the one before the call; the handle, and with it the seek position, is not
written by the function. -/
theorem ReadAt_contract (g : Geometry) (L : Limits) (k : Kernel) (f : OpenFile)
    (into : Nat → Nat) (n pos : Nat) (hn : 0 < n)
    (hwf : f.hdr.WellFormed g) (hchain : f.hdr.chain.length ≤ g.SECTOR_SIZE)
    (hsmall : pos + n < 2147483648) (hsync : readSync L k f = true) :
    ∃ into2, f.ReadAt g L k into n pos
        = some (((if f.Length ≤ pos then 0 else min n (f.Length - pos) : Nat) : Int),
            into2, k) ∧
      (∀ t, t < (if f.Length ≤ pos then 0 else min n (f.Length - pos)) →
        into2 t = fileByte g k.disk f.hdr (pos + t)) ∧
      (∀ t, (if f.Length ≤ pos then 0 else min n (f.Length - pos)) ≤ t → into2 t = into t) := by
  have hSS := g.hSector
  have haux : ∀ j, j * g.SECTOR_SIZE < f.hdr.FileLength →
      ∃ hd, f.hdr.chain.get? (j / (g.NUM_DIRECT - 1)) = some hd ∧
        f.hdr.ByteToSector g (j * g.SECTOR_SIZE)
          = some (hd.raw.dataSectors (j % (g.NUM_DIRECT - 1))) := by
    intro j hj
    have := FileHeader.ByteToSector_aligned_aux g f.hdr 0 j hwf (by omega) hj
    simpa using this
  obtain ⟨into2, h1, h2, h3⟩ := readCore_spec g k.disk k.heap f into n pos hn (by omega)
    (fun j _ hj _ => by
      obtain ⟨hd, _, hb⟩ := haux j hj
      exact ⟨_, hb⟩)
  have hcnt : toInt (if f.hdr.FileLength ≤ pos then 0 else min n (f.hdr.FileLength - pos))
      = ((if f.hdr.FileLength ≤ pos then 0 else min n (f.hdr.FileLength - pos) : Nat) : Int) := by
    have : (if f.hdr.FileLength ≤ pos then 0 else min n (f.hdr.FileLength - pos)) < 2147483648 := by
      split <;> omega
    generalize (if f.hdr.FileLength ≤ pos then 0 else min n (f.hdr.FileLength - pos)) = c at this
    unfold toInt u32
    rw [Nat.mod_eq_of_lt (by omega), if_pos this]
  refine ⟨into2, ?_, ?_, h3⟩
  · have hne : n ≠ 0 := by omega
    simp only [readSync] at hsync
    unfold OpenFile.ReadAt
    rw [if_neg hne]
    cases hfd : FileList.Find L.FILE_NAME_MAX_LEN k.listOpenFiles f.fileName with
    | none => rw [hfd] at hsync; simp at hsync
    | some fd =>
      rw [hfd] at hsync
      simp only [Bool.or_eq_true, decide_eq_true_eq, Option.isNone_iff_eq_none] at hsync
      simp only []
      by_cases hheld : fd.condLock = some k.currentThread
      · rw [if_pos hheld, h1]
        simp only [hcnt, OpenFile.Length]
      · rw [if_neg hheld]
        have hfree : fd.condLock = none := by
          rcases hsync with h | h
          · exact absurd h hheld
          · exact h
        rw [if_neg (by rw [hfree]; simp)]
        show (match OpenFile.readCore g k.disk k.heap f into n pos with
          | none => none
          | some r => some (toInt r.1, r.2,
              (k.modifyEntry L f.fileName (FData.addReadings 1)).modifyEntry L f.fileName
                (FData.addReadings (-1)))) = _
        rw [h1]
        simp only [hcnt, OpenFile.Length]
        congr 3
        simp only [Kernel.modifyEntry, Kernel.withTable]
        rw [FileList.modify_modify L.FILE_NAME_MAX_LEN f.fileName (FData.addReadings (-1))
          (FData.addReadings 1) (fun e => rfl),
          FileList.modify_eq_self L.FILE_NAME_MAX_LEN f.fileName
            (FData.addReadings (-1) ∘ FData.addReadings 1) k.listOpenFiles
            (fun x _ => addReadings_cancel x)]
  · intro t ht
    have ht' : t < (if f.hdr.FileLength ≤ pos then 0 else min n (f.hdr.FileLength - pos)) := ht
    have hlt : pos + t < f.hdr.FileLength := by
      split at ht' <;> omega
    have hq : (pos + t) / g.SECTOR_SIZE * g.SECTOR_SIZE < f.hdr.FileLength :=
      lt_of_le_of_lt (div_bounds (pos + t) g.SECTOR_SIZE hSS).1 hlt
    obtain ⟨hd, hget, hb⟩ := haux _ hq
    rw [h2 t ht' _ hb]
    simp only [fileByte, slotPerSpec, hget, Option.map_some']

/-- C27 on `readingKernel`: the entry of `"a"` has one reader and no writer. -/
theorem table_counters_invariant_witness :
    TableReached stdGeometry stdLimits readingKernel ∧
    readingKernel.listOpenFiles.map (fun fd => (fd.writings, fd.readings)) = [(0, 1)] ∧
    (FileList.Counters readingKernel.listOpenFiles ∧
      (∀ fd ∈ readingKernel.listOpenFiles, fd.writings = 0) ∧
      ∀ (f : OpenFile) (into : Nat → Nat) (n pos : Nat) (r : Int × (Nat → Nat) × Kernel),
        f.ReadAt stdGeometry stdLimits readingKernel into n pos = some r →
          r.2.2.listOpenFiles = readingKernel.listOpenFiles) :=
  have h : TableReached stdGeometry stdLimits readingKernel :=
    TableReached.inside
      (defaultKernel.withTable (FileList.Add stdLimits.FILE_NAME_MAX_LEN
        defaultKernel.listOpenFiles ['a']))
      ⟨zeroHeader, 0, ['a']⟩ (FData.new ['a'])
      (TableReached.add defaultKernel ['a'] (TableReached.start defaultKernel rfl))
      (by decide) rfl
  ⟨h, by decide, table_counters_invariant stdGeometry stdLimits readingKernel h⟩

/-- The lemma on well-formed chains, on the handle that wrote `"hello"` to an empty file: `ReadAt(buf, 10,
1)` returns 4 and reads `"ello"`. -/
theorem ReadAt_contract_witness :
    helloWrite.2.2.Length = 5 ∧
    (helloWrite.2.2.ReadAt stdGeometry stdLimits helloWrite.2.1 (fun _ => 0) 10 1).map
      (fun r => (r.1, (List.range 5).map r.2.1)) = some (4, [101, 108, 108, 111, 0]) ∧
    ∃ into2, helloWrite.2.2.ReadAt stdGeometry stdLimits helloWrite.2.1 (fun _ => 0) 10 1
        = some (((if helloWrite.2.2.Length ≤ 1 then 0
            else min 10 (helloWrite.2.2.Length - 1) : Nat) : Int), into2, helloWrite.2.1) ∧
      (∀ t, t < (if helloWrite.2.2.Length ≤ 1 then 0 else min 10 (helloWrite.2.2.Length - 1)) →
        into2 t = fileByte stdGeometry helloWrite.2.1.disk helloWrite.2.2.hdr (1 + t)) ∧
      (∀ t, (if helloWrite.2.2.Length ≤ 1 then 0 else min 10 (helloWrite.2.2.Length - 1)) ≤ t →
        into2 t = (fun _ => 0) t) :=
  ⟨by decide!, by decide!,
    ReadAt_contract stdGeometry stdLimits helloWrite.2.1 helloWrite.2.2 (fun _ => 0) 10 1
      (by decide) (by decide!) (by decide!) (by decide) (by decide!)⟩

open FileSystem

/-! ### Defects reached through the façade -/

/-- C9. With `"b"` open, `Remove("b")` returns false on the state right after
`Open("b")`; once `List()` has been called in between, the same call does not
return: the entry of `"/"` is gone from the open-file table and the fetch of
the working directory stops at `ASSERT(fd != nullptr)`. -/
theorem Remove_open_file_stops_after_List :
    runRemoveOpenAfterList = some (some false, none) := by
  decide!

/-- C12. `Create("a", 0)` on a name that exists returns false on the state
right after the first `Create`; once `ChangeDir("/nope")` has failed in
between, the same call does not return. -/
theorem Create_existing_stops_after_failed_ChangeDir :
    runCreateAfterFailedChangeDir = some ((true, false), (some false, none)) := by
  decide!

/-- C16. `RemoveDir("d")` on the directory `"d"` that holds `"x"` returns
false at the end of the documented run; once `List()` has been called in
between, the same call does not return. -/
theorem RemoveDir_nonempty_stops_after_List :
    runRemoveDirAfterList = some (some false, none) := by
  decide!

/-- C15. `ChangeDir("d")` returns true right after `CreateDir("d")`; once
`ChangeDir("/nope")` has failed in between, the same call does not return,
although its only segment is in the working directory. -/
theorem ChangeDir_stops_after_failed_ChangeDir :
    runChangeDirAfterFailed = some ((true, false), (some true, none)) := by
  decide!

/-- C10. In the working directory `"/directory"`, `Remove("x")` on a file
that no handle is open on (the table has no entry named `"/directory/x"`)
returns false: it takes the entry of `"/directory"` for the file's, on the
first ten characters, and sets its `deleted` flag; `"x"` stays in the
directory and its header sector stays marked. -/
theorem Remove_closed_file_false_in_long_directory :
    runRemoveInLongDir = some ((true, true, true), (0, false), (some true, 8, true)) := by
  decide!

/-- C21. On the file made by `Create("a", 3840)` the handle reports
`Length() = 3840`, `ReadAt(buf, 10, 0)` returns 10 and `ReadAt(buf, 10, 3712)`
does not return: the only header records 29 sectors and `ByteToSector(3712)`
stops at `ASSERT(next != nullptr)`. -/
theorem ReadAt_stops_inside_3840_byte_file :
    runRead3840 = some (true, 3840, some 10, none) := by
  decide!

/-! ### The frame of `WriteAt`: header chains -/

namespace FileHeader

end FileHeader

/-! ### The frame of `WriteAt`: sectors handed out while a file grows -/

namespace Bitmap

end Bitmap

namespace FileHeader

end FileHeader

/-! ### The frame of `WriteAt`: the extension block -/

namespace FileHeader

end FileHeader

namespace FileHeader

end FileHeader

end Nachos
